import Mathlib

/-!
Loss layers of `src/caffe/layers/loss_layer.cpp`

A shallow embedding of the CPU passes of the loss layers
(`MultinomialLogisticLossLayer`, `InfogainLossLayer`, `EuclideanLossLayer`,
`AccuracyLayer`, `HingeLossLayer`) and proofs about them.

Conventions of the embedding.

* `Dtype` is an arbitrary linearly ordered field `α` with a floor function
  (`ℚ` for evaluation, `ℝ` where the natural logarithm is needed): arithmetic
  is exact, rounding is not modelled. The constants `kLOG_THRESHOLD` and
  `FLT_MAX` carry their exact binary32 values.
* `log` is a parameter of the passes that call it.
* A raw buffer (`cpu_data()`, `cpu_diff()`) is a `List α`; an element access
  outside the buffer is the fault `Fault.bounds`, a failed `CHECK_EQ` is
  `Fault.check`, an integer division by zero is `Fault.divZero`.
* `int` is `Int`/`Nat` without wrap-around: every index of a fault-free run is
  below an element count that is itself an `int`.
* A `Dtype` division is the division of the field; the theorems about a
  quotient by `num` assume `num ≥ 1` wherever the value matters.
* `bottom[0]`, `bottom[1]` and `(*top)[0]` are passed as separate arguments;
  every pass returns the blobs it was given in the state it leaves them.
* `SetUp` takes the vectors `bottom` and `top` as lists, since it checks their
  sizes; the blob that `InfogainLossLayer::SetUp` loads from its source file is
  a parameter.
-/

set_option linter.unusedSectionVars false

namespace caffe

/-- The ways a pass can stop without a result. -/
inductive Fault where
  | check
  | bounds
  | divZero
  deriving DecidableEq

/-- Modelled from the spec: the tensor buffer `Blob<Dtype>` (declared in
`caffe/blob.hpp`): a shape (num, channels, height, width), a value buffer and a
gradient buffer. -/
structure Blob (α : Type) where
  num : Nat
  channels : Nat
  height : Nat
  width : Nat
  data : List α
  diff : List α

variable {α : Type}

/-- Modelled from the spec: `Blob::count()`, the element count N·C·H·W. -/
def Blob.count (b : Blob α) : Nat := b.num * b.channels * b.height * b.width

/-- The per-sample dimension `dim = count / num` of a prediction blob. -/
def Blob.dim (b : Blob α) : Nat := b.count / b.num

/-- The value and gradient buffers of a blob hold `count()` elements. -/
def Blob.WF (b : Blob α) : Prop :=
  b.data.length = b.count ∧ b.diff.length = b.count

/-- The C++ `int / int` on non-negative operands. -/
def intDiv (a b : Nat) : Except Fault Nat :=
  if b = 0 then Except.error Fault.divZero else Except.ok (a / b)

/-- The read `buf[k]` through a raw pointer. -/
def readAt (buf : List α) (k : Int) : Except Fault α :=
  if 0 ≤ k then
    match buf[k.toNat]? with
    | some v => Except.ok v
    | none => Except.error Fault.bounds
  else Except.error Fault.bounds

/-- The write `buf[k] = v` through a raw pointer. -/
def writeAt (buf : List α) (k : Int) (v : α) : Except Fault (List α) :=
  if 0 ≤ k ∧ k.toNat < buf.length then Except.ok (buf.set k.toNat v)
  else Except.error Fault.bounds

/-- The loop `for (int i = 0; i < n; ++i) body`, threading the state `s`. -/
def forLoop {σ : Type} (body : Nat → σ → Except Fault σ) : Nat → σ → Except Fault σ
  | 0, s => Except.ok s
  | n + 1, s => forLoop body n s >>= body n

section Passes

variable [LinearOrderedField α] [FloorRing α]

/-- The conversion `static_cast<int>(x)`: truncation toward zero. -/
def static_cast_int (x : α) : Int := if 0 ≤ x then ⌊x⌋ else ⌈x⌉

/-- The constant `const float kLOG_THRESHOLD = 1e-20`: the binary32 value
nearest to 1e-20, exactly 12379400 · 2^-90 (about 9.99999968e-21). The
conversion `Dtype(kLOG_THRESHOLD)` keeps that value. -/
def kLOG_THRESHOLD : α := 12379400 / 2 ^ 90

/-- The constant `FLT_MAX` of `<cfloat>`: (2 - 2^-23) · 2^127. -/
def FLT_MAX : α := (2 ^ 24 - 1) * 2 ^ 104

/-! ## MultinomialLogisticLossLayer -/

/-- The value of `prob` in iteration `i` of the loops of
`MultinomialLogisticLossLayer` (and of `AccuracyLayer`):
`max(bottom_data[i * dim + label], kLOG_THRESHOLD)`. -/
def clampedProb (bottom_data bottom_label : List α) (dim i : Nat) : Except Fault α := do
  let label := static_cast_int (← readAt bottom_label i)
  let p ← readAt bottom_data ((i : Int) * (dim : Int) + label)
  pure (max p kLOG_THRESHOLD)

/-- The pass `MultinomialLogisticLossLayer::Forward_cpu`. -/
def MultinomialLogisticLossLayer.Forward_cpu (log : α → α) (bottom0 bottom1 : Blob α) :
    Except Fault (α × Blob α × Blob α) := do
  let bottom_data := bottom0.data
  let bottom_label := bottom1.data
  let num := bottom0.num
  let dim ← intDiv bottom0.count bottom0.num
  let loss ← forLoop (fun i loss => do
    let prob ← clampedProb bottom_data bottom_label dim i
    pure (loss - log prob)) num 0
  pure (loss / (num : α), bottom0, bottom1)

/-- The call `memset(buf, 0, sizeof(Dtype) * count)`. -/
def memsetZero (buf : List α) (count : Nat) : Except Fault (List α) :=
  if count ≤ buf.length then Except.ok (List.replicate count 0 ++ buf.drop count)
  else Except.error Fault.bounds

/-- The pass `MultinomialLogisticLossLayer::Backward_cpu`. -/
def MultinomialLogisticLossLayer.Backward_cpu (bottom0 bottom1 : Blob α) :
    Except Fault (Blob α × Blob α) := do
  let bottom_data := bottom0.data
  let bottom_label := bottom1.data
  let num := bottom0.num
  let dim ← intDiv bottom0.count bottom0.num
  let bottom_diff ← memsetZero bottom0.diff bottom0.count
  let bottom_diff ← forLoop (fun i bottom_diff => do
    let label := static_cast_int (← readAt bottom_label i)
    let prob ← clampedProb bottom_data bottom_label dim i
    writeAt bottom_diff ((i : Int) * (dim : Int) + label) (-1 / prob / (num : α))) num bottom_diff
  pure ({ bottom0 with diff := bottom_diff }, bottom1)

/-! ## InfogainLossLayer -/

/-- The macro `CHECK_EQ(a, b)`: abort unless `a == b`. -/
def CHECK_EQ (a b : Nat) : Except Fault Unit :=
  if a = b then Except.ok () else Except.error Fault.check

/-- The layer object: its member `infogain_`, the weighting matrix. -/
structure InfogainLossLayer (α : Type) where
  infogain_ : Blob α

/-- The pass `InfogainLossLayer::Forward_cpu`. -/
def InfogainLossLayer.Forward_cpu (self : InfogainLossLayer α) (log : α → α)
    (bottom0 bottom1 : Blob α) : Except Fault (α × Blob α × Blob α) := do
  let bottom_data := bottom0.data
  let bottom_label := bottom1.data
  let infogain_mat := self.infogain_.data
  let num := bottom0.num
  let dim ← intDiv bottom0.count bottom0.num
  CHECK_EQ self.infogain_.height dim
  let loss ← forLoop (fun i loss => do
    let label := static_cast_int (← readAt bottom_label i)
    forLoop (fun j loss => do
      let prob := max (← readAt bottom_data ((i : Int) * (dim : Int) + (j : Int))) kLOG_THRESHOLD
      let w ← readAt infogain_mat (label * (dim : Int) + (j : Int))
      pure (loss - w * log prob)) dim loss) num 0
  pure (loss / (num : α), bottom0, bottom1)

/-- The pass `InfogainLossLayer::Backward_cpu`. -/
def InfogainLossLayer.Backward_cpu (self : InfogainLossLayer α)
    (bottom0 bottom1 : Blob α) : Except Fault (Blob α × Blob α) := do
  let bottom_data := bottom0.data
  let bottom_label := bottom1.data
  let infogain_mat := self.infogain_.data
  let bottom_diff := bottom0.diff
  let num := bottom0.num
  let dim ← intDiv bottom0.count bottom0.num
  CHECK_EQ self.infogain_.height dim
  let bottom_diff ← forLoop (fun i bottom_diff => do
    let label := static_cast_int (← readAt bottom_label i)
    forLoop (fun j bottom_diff => do
      let prob := max (← readAt bottom_data ((i : Int) * (dim : Int) + (j : Int))) kLOG_THRESHOLD
      let w ← readAt infogain_mat (label * (dim : Int) + (j : Int))
      writeAt bottom_diff ((i : Int) * (dim : Int) + (j : Int)) (-w / prob / (num : α)))
      dim bottom_diff) num bottom_diff
  pure ({ bottom0 with diff := bottom_diff }, bottom1)

/-! ## EuclideanLossLayer -/

/-- Modelled from the spec: `caffe_sub(n, a, b, y)` of
`caffe/util/math_functions`, the elementwise difference `y[i] = a[i] - b[i]`. -/
def caffe_sub (n : Nat) (a b y : List α) : Except Fault (List α) :=
  forLoop (fun i y => do
    let u ← readAt a i
    let v ← readAt b i
    writeAt y i (u - v)) n y

/-- Modelled from the spec: `caffe_cpu_dot(n, x, y)` of
`caffe/util/math_functions`, the dot product of the first `n` elements. -/
def caffe_cpu_dot (n : Nat) (x y : List α) : Except Fault α :=
  forLoop (fun i acc => do
    let u ← readAt x i
    let v ← readAt y i
    pure (acc + u * v)) n 0

/-- Modelled from the spec: `caffe_cpu_axpby(n, alpha, x, beta, y)` of
`caffe/util/math_functions`, the update `y[i] = alpha * x[i] + beta * y[i]`. -/
def caffe_cpu_axpby (n : Nat) (alpha : α) (x : List α) (beta : α) (y : List α) :
    Except Fault (List α) :=
  forLoop (fun i y => do
    let u ← readAt x i
    let v ← readAt y i
    writeAt y i (alpha * u + beta * v)) n y

/-- The layer object: its member `difference_`, the scratch blob. -/
structure EuclideanLossLayer (α : Type) where
  difference_ : Blob α

/-- The pass `EuclideanLossLayer::Forward_cpu`. -/
def EuclideanLossLayer.Forward_cpu (self : EuclideanLossLayer α) (bottom0 bottom1 : Blob α) :
    Except Fault (α × EuclideanLossLayer α × Blob α × Blob α) := do
  let count := bottom0.count
  let num := bottom0.num
  let d ← caffe_sub count bottom0.data bottom1.data self.difference_.data
  let self : EuclideanLossLayer α := { difference_ := { self.difference_ with data := d } }
  let dot ← caffe_cpu_dot count self.difference_.data self.difference_.data
  let loss := dot / (num : α) / 2
  pure (loss, self, bottom0, bottom1)

/-- The pass `EuclideanLossLayer::Backward_cpu`. -/
def EuclideanLossLayer.Backward_cpu (self : EuclideanLossLayer α) (bottom0 bottom1 : Blob α) :
    Except Fault (EuclideanLossLayer α × Blob α × Blob α) := do
  let count := bottom0.count
  let num := bottom0.num
  let g ← caffe_cpu_axpby count (1 / (num : α)) self.difference_.data 0 bottom0.diff
  pure (self, { bottom0 with diff := g }, bottom1)

/-! ## HingeLossLayer -/

/-- Modelled from the spec: `caffe_copy(n, x, y)` of
`caffe/util/math_functions`, the copy `y[i] = x[i]`. -/
def caffe_copy (n : Nat) (x y : List α) : Except Fault (List α) :=
  forLoop (fun i y => do
    let u ← readAt x i
    writeAt y i u) n y

/-- Modelled from the spec: `caffe_cpu_asum(n, x)` of
`caffe/util/math_functions`, the sum of the absolute values of the first `n`
elements. -/
def caffe_cpu_asum (n : Nat) (x : List α) : Except Fault α :=
  forLoop (fun i acc => do
    let u ← readAt x i
    pure (acc + |u|)) n 0

/-- Modelled from the spec: the sign of a value, +1, 0 or -1. -/
def caffe_sign (x : α) : α := if 0 < x then 1 else if x < 0 then -1 else 0

/-- Modelled from the spec: `caffe_cpu_sign(n, x, x)` of
`caffe/util/math_functions`, called in place: `x[i] = sign(x[i])`. -/
def caffe_cpu_sign (n : Nat) (x : List α) : Except Fault (List α) :=
  forLoop (fun i x => do
    let u ← readAt x i
    writeAt x i (caffe_sign u)) n x

/-- Modelled from the spec: `caffe_scal(n, alpha, x)` of
`caffe/util/math_functions`, the scaling `x[i] = alpha * x[i]`. -/
def caffe_scal (n : Nat) (alpha : α) (x : List α) : Except Fault (List α) :=
  forLoop (fun i x => do
    let u ← readAt x i
    writeAt x i (alpha * u)) n x

/-- The loop `bottom_diff[i * dim + static_cast<int>(label[i])] *= -1` shared by
the two passes of `HingeLossLayer`. -/
def negateAtLabels (label : List α) (num dim : Nat) (bottom_diff : List α) :
    Except Fault (List α) :=
  forLoop (fun i bottom_diff => do
    let l := static_cast_int (← readAt label i)
    let u ← readAt bottom_diff ((i : Int) * (dim : Int) + l)
    writeAt bottom_diff ((i : Int) * (dim : Int) + l) (u * -1)) num bottom_diff

/-- The pass `HingeLossLayer::Forward_cpu`. -/
def HingeLossLayer.Forward_cpu (bottom0 bottom1 : Blob α) :
    Except Fault (α × Blob α × Blob α) := do
  let bottom_data := bottom0.data
  let bottom_diff := bottom0.diff
  let label := bottom1.data
  let num := bottom0.num
  let count := bottom0.count
  let dim ← intDiv count num
  let bottom_diff ← caffe_copy count bottom_data bottom_diff
  let bottom_diff ← negateAtLabels label num dim bottom_diff
  let bottom_diff ← forLoop (fun i bottom_diff =>
    forLoop (fun j bottom_diff => do
      let u ← readAt bottom_diff ((i : Int) * (dim : Int) + (j : Int))
      writeAt bottom_diff ((i : Int) * (dim : Int) + (j : Int)) (max 0 (1 + u)))
      dim bottom_diff) num bottom_diff
  let asum ← caffe_cpu_asum count bottom_diff
  pure (asum / (num : α), { bottom0 with diff := bottom_diff }, bottom1)

/-- The pass `HingeLossLayer::Backward_cpu`. -/
def HingeLossLayer.Backward_cpu (bottom0 bottom1 : Blob α) :
    Except Fault (Blob α × Blob α) := do
  let bottom_diff := bottom0.diff
  let label := bottom1.data
  let num := bottom0.num
  let count := bottom0.count
  let dim ← intDiv count num
  let bottom_diff ← caffe_cpu_sign count bottom_diff
  let bottom_diff ← negateAtLabels label num dim bottom_diff
  let bottom_diff ← caffe_scal count (1 / (num : α)) bottom_diff
  pure ({ bottom0 with diff := bottom_diff }, bottom1)

/-! ## AccuracyLayer -/

/-- The inner loop of `AccuracyLayer::Forward_cpu` on sample `i`: the scan
that leaves the pair `(maxval, max_id)`. -/
def argmaxScan (bottom_data : List α) (dim i : Nat) : Except Fault (α × Int) :=
  forLoop (fun j (st : α × Int) => do
    let x ← readAt bottom_data ((i : Int) * (dim : Int) + (j : Int))
    if x > st.1 then pure (x, (j : Int)) else pure st) dim (-FLT_MAX, 0)

/-- The pass `AccuracyLayer::Forward_cpu`; `top0` is `(*top)[0]`. -/
def AccuracyLayer.Forward_cpu (log : α → α) (bottom0 bottom1 top0 : Blob α) :
    Except Fault (α × Blob α × Blob α × Blob α) := do
  let bottom_data := bottom0.data
  let bottom_label := bottom1.data
  let num := bottom0.num
  let dim ← intDiv bottom0.count bottom0.num
  let (accuracy, logprob) ← forLoop (fun i (st : α × α) => do
    let (_, max_id) ← argmaxScan bottom_data dim i
    let label := static_cast_int (← readAt bottom_label i)
    let accuracy := if max_id = label then st.1 + 1 else st.1
    let prob ← clampedProb bottom_data bottom_label dim i
    pure (accuracy, st.2 - log prob)) num (0, 0)
  let top_data ← writeAt top0.data 0 (accuracy / (num : α))
  let top_data ← writeAt top_data 1 (logprob / (num : α))
  pure (0, bottom0, bottom1, { top0 with data := top_data })

/-! ## SetUp -/

/-- The element `v[k]` of a `vector<Blob<Dtype>*>`. -/
def elemAt {β : Type} (v : List β) (k : Nat) : Except Fault β :=
  match v[k]? with
  | some b => Except.ok b
  | none => Except.error Fault.bounds

/-- Modelled from the spec: `Blob::Reshape(num, channels, height, width)`
(declared in `caffe/blob.hpp`): the blob takes the given shape, with value and
gradient buffers of that element count. -/
def Blob.Reshape (_b : Blob α) (num channels height width : Nat) : Blob α :=
  { num := num, channels := channels, height := height, width := width,
    data := List.replicate (num * channels * height * width) 0,
    diff := List.replicate (num * channels * height * width) 0 }

/-- The method `MultinomialLogisticLossLayer::SetUp`. -/
def MultinomialLogisticLossLayer.SetUp (bottom top : List (Blob α)) : Except Fault Unit := do
  CHECK_EQ bottom.length 2
  CHECK_EQ top.length 0
  let bottom0 ← elemAt bottom 0
  let bottom1 ← elemAt bottom 1
  CHECK_EQ bottom0.num bottom1.num
  CHECK_EQ bottom1.channels 1
  CHECK_EQ bottom1.height 1
  CHECK_EQ bottom1.width 1

/-- The method `InfogainLossLayer::SetUp`; `blob_proto` is the blob that
`ReadProtoFromBinaryFile` and `FromProto` load from the source file. -/
def InfogainLossLayer.SetUp (blob_proto : Blob α) (bottom top : List (Blob α)) :
    Except Fault (InfogainLossLayer α) := do
  CHECK_EQ bottom.length 2
  CHECK_EQ top.length 0
  let bottom0 ← elemAt bottom 0
  let bottom1 ← elemAt bottom 1
  CHECK_EQ bottom0.num bottom1.num
  CHECK_EQ bottom1.channels 1
  CHECK_EQ bottom1.height 1
  CHECK_EQ bottom1.width 1
  let infogain_ := blob_proto
  CHECK_EQ infogain_.num 1
  CHECK_EQ infogain_.channels 1
  CHECK_EQ infogain_.height infogain_.width
  pure { infogain_ := infogain_ }

/-- The method `AccuracyLayer::SetUp`; it returns the output vector `top`
with its element reshaped to (1, 2, 1, 1). -/
def AccuracyLayer.SetUp (bottom top : List (Blob α)) : Except Fault (List (Blob α)) := do
  CHECK_EQ bottom.length 2
  CHECK_EQ top.length 1
  let bottom0 ← elemAt bottom 0
  let bottom1 ← elemAt bottom 1
  CHECK_EQ bottom0.num bottom1.num
  CHECK_EQ bottom1.channels 1
  CHECK_EQ bottom1.height 1
  CHECK_EQ bottom1.width 1
  let top0 ← elemAt top 0
  pure [top0.Reshape 1 2 1 1]

/-- The method `HingeLossLayer::SetUp`. -/
def HingeLossLayer.SetUp (bottom top : List (Blob α)) : Except Fault Unit := do
  CHECK_EQ bottom.length 2
  CHECK_EQ top.length 0

end Passes

/-- The batch of the round-trip scenario: predictions
`[[0.7,0.2,0.1],[0.1,0.1,0.8]]`. -/
def exPred (α : Type) [LinearOrderedField α] (g : List α) : Blob α :=
  { num := 2, channels := 3, height := 1, width := 1,
    data := [7/10, 2/10, 1/10, 1/10, 1/10, 8/10], diff := g }

/-- The labels `[0, 2]` of the round-trip scenario. -/
def exLabel (α : Type) [LinearOrderedField α] : Blob α :=
  { num := 2, channels := 1, height := 1, width := 1, data := [0, 2], diff := [0, 0] }


/-! ## Vocabulary of the statements -/

section Vocabulary

variable [LinearOrderedField α] [FloorRing α]

/-- The class index `static_cast<int>(bottom_label[i])` of sample `i`. -/
def labelAt (bottom1 : Blob α) (i : Nat) : Int := static_cast_int (bottom1.data.getD i 0)

/-- Every sample of the batch has a label, and its class index lies in `[0, dim)`. -/
def LabelsInRange (bottom0 bottom1 : Blob α) : Prop :=
  ∀ i, i < bottom0.num →
    i < bottom1.data.length ∧ 0 ≤ labelAt bottom1 i ∧ labelAt bottom1 i < (bottom0.dim : Int)

/-- The prediction `prediction[i, j]`. -/
def predAt (bottom0 : Blob α) (i j : Nat) : α := bottom0.data.getD (i * bottom0.dim + j) 0

/-- The clamped probability `max(prediction[i, label_i], kLOG_THRESHOLD)` of sample `i`. -/
def probOf (bottom0 bottom1 : Blob α) (i : Nat) : α :=
  max (predAt bottom0 i (labelAt bottom1 i).toNat) kLOG_THRESHOLD

/-- The weight `weight[r, c]` of a weighting matrix addressed with row length `dim`. -/
def weightAt (infogain : Blob α) (dim r c : Nat) : α := infogain.data.getD (r * dim + c) 0

/-- The `dim × dim` weighting matrix with 1 on the diagonal and 0 elsewhere. -/
def identityInfogain (α : Type) [LinearOrderedField α] (dim : Nat) : Blob α :=
  { num := 1, channels := 1, height := dim, width := dim,
    data := (List.range (dim * dim)).map (fun k => if k / dim = k % dim then 1 else 0),
    diff := List.replicate (dim * dim) 0 }

/-- The index `max_id` that the arg-max scan of `AccuracyLayer::Forward_cpu`
leaves for sample `i`. -/
def maxIdAt (bottom0 : Blob α) (i : Nat) : Int :=
  match argmaxScan bottom0.data bottom0.dim i with
  | Except.ok st => st.2
  | Except.error _ => 0

/-- The tensor `p + h·e_k`: the values of `b` with `h` added to element `k`. -/
def perturb (b : Blob α) (k : Nat) (h : α) : Blob α :=
  { b with data := b.data.set k (b.data.getD k 0 + h) }

/-- The raw margin value `m_ij`: `prediction[i, j]`, negated when `j = label_i`. -/
def marginAt (bottom0 bottom1 : Blob α) (i j : Nat) : α :=
  if (j : Int) = labelAt bottom1 i then predAt bottom0 i j * -1 else predAt bottom0 i j

end Vocabulary

/-! ## Concrete batches -/

/-- A weighting matrix with distinct entries, for the round-trip batch. -/
def exInfogain : InfogainLossLayer ℚ :=
  { infogain_ := { num := 1, channels := 1, height := 3, width := 3,
                   data := [1, 2, 3, 4, 5, 6, 7, 8, 9], diff := [] } }

/-- A single sample with scores `[1/2, -3/5]`. -/
def hingePred : Blob ℚ :=
  { num := 1, channels := 2, height := 1, width := 1, data := [1/2, -3/5], diff := [0, 0] }

/-- A single sample with scores `[2, 0]`. -/
def hingePred2 : Blob ℚ :=
  { num := 1, channels := 2, height := 1, width := 1, data := [2, 0], diff := [0, 0] }

/-- The label `[0]` of the single sample. -/
def hingeLabel : Blob ℚ :=
  { num := 1, channels := 1, height := 1, width := 1, data := [0], diff := [0] }

/-- A target tensor of the shape of the round-trip predictions. -/
def exTarget : Blob ℚ :=
  { num := 2, channels := 3, height := 1, width := 1,
    data := [1, 0, 0, 0, 0, 1], diff := [0, 0, 0, 0, 0, 0] }

/-- A Euclidean layer after `SetUp` on the round-trip shape. -/
def exEuclidean : EuclideanLossLayer ℚ :=
  { difference_ := { num := 2, channels := 3, height := 1, width := 1,
                     data := [0, 0, 0, 0, 0, 0], diff := [0, 0, 0, 0, 0, 0] } }

/-- The output blob of the accuracy layer after `SetUp`: shape (1, 2, 1, 1). -/
def exTop : Blob ℚ :=
  { num := 1, channels := 2, height := 1, width := 1, data := [0, 0], diff := [0, 0] }

/-- An output blob of shape (1, 2, 1, 1) over any field. -/
def exTopOf (α : Type) [LinearOrderedField α] : Blob α :=
  { num := 1, channels := 2, height := 1, width := 1, data := [0, 0], diff := [0, 0] }

/-- Labels `[0, 3]` for the round-trip predictions: the label of the last
sample equals `dim = 3`. -/
def overLabel (α : Type) [LinearOrderedField α] : Blob α :=
  { num := 2, channels := 1, height := 1, width := 1, data := [0, 3], diff := [0, 0] }

/-- A label tensor of batch size 5, for predictions of batch size 2. -/
def badLabel : Blob ℚ :=
  { num := 5, channels := 1, height := 1, width := 1,
    data := [0, 0, 0, 0, 0], diff := [0, 0, 0, 0, 0] }

/-- A single sample with scores `[1, -1]`, both on the margin boundary for
true class 0. -/
def hingeBoundary : Blob ℚ :=
  { num := 1, channels := 2, height := 1, width := 1, data := [1, -1], diff := [0, 0] }

/-- A one-sample, one-class batch whose only prediction is `2^-70`, a
probability in `(0, 1]` below `kLOG_THRESHOLD`. -/
def tinyPred (α : Type) [LinearOrderedField α] : Blob α :=
  { num := 1, channels := 1, height := 1, width := 1, data := [1 / 2 ^ 70], diff := [0] }

/-- The label `[0]` of the one-sample, one-class batch. -/
def tinyLabel (α : Type) [LinearOrderedField α] : Blob α :=
  { num := 1, channels := 1, height := 1, width := 1, data := [0], diff := [0] }

/-- The 1 × 1 weighting matrix `[1]`. -/
def tinyInfogain (α : Type) [LinearOrderedField α] : InfogainLossLayer α :=
  { infogain_ := { num := 1, channels := 1, height := 1, width := 1, data := [1], diff := [0] } }

/-- The tie-break row `[0.5, 0.5, 0.5]` as a one-sample batch. -/
def tieRow (α : Type) [LinearOrderedField α] : Blob α :=
  { num := 1, channels := 3, height := 1, width := 1,
    data := [1/2, 1/2, 1/2], diff := [0, 0, 0] }

/-- A one-sample batch whose scores `[-2·FLT_MAX, -FLT_MAX]` do not exceed the
initial `maxval` of the scan. -/
def lowRow : Blob ℚ :=
  { num := 1, channels := 2, height := 1, width := 1,
    data := [-2 * FLT_MAX, -FLT_MAX], diff := [0, 0] }

/-! ## Basic facts -/

@[simp] theorem bind_ok {β γ : Type} (a : β) (f : β → Except Fault γ) :
    (Except.ok a >>= f) = f a := rfl

@[simp] theorem bind_error {β γ : Type} (e : Fault) (f : β → Except Fault γ) :
    ((Except.error e : Except Fault β) >>= f) = Except.error e := rfl

@[simp] theorem pure_eq_ok {β : Type} (a : β) : (pure a : Except Fault β) = Except.ok a := rfl

theorem forLoop_succ {σ : Type} (body : Nat → σ → Except Fault σ) (n : Nat) (s : σ) :
    forLoop body (n + 1) s = (forLoop body n s >>= body n) := rfl

/-- Invariant rule for `forLoop`: a loop whose body always succeeds and
re-establishes the invariant succeeds and ends in the invariant. -/
theorem forLoop_inv {σ : Type} (body : Nat → σ → Except Fault σ) (P : Nat → σ → Prop)
    (n : Nat) (s : σ) (h0 : P 0 s)
    (hstep : ∀ i s, i < n → P i s → ∃ t, body i s = Except.ok t ∧ P (i + 1) t) :
    ∃ t, forLoop body n s = Except.ok t ∧ P n t := by
  induction n with
  | zero => exact ⟨s, rfl, h0⟩
  | succ n ih =>
    obtain ⟨t, ht, hP⟩ := ih (fun i s hi hp => hstep i s (Nat.lt_succ_of_lt hi) hp)
    obtain ⟨u, hu, hQ⟩ := hstep n t (Nat.lt_succ_self n) hP
    exact ⟨u, by rw [forLoop_succ, ht, bind_ok, hu], hQ⟩

theorem readAt_nat [Zero α] (buf : List α) (k : Nat) (h : k < buf.length) :
    readAt buf (k : Int) = Except.ok (buf.getD k 0) := by
  simp [readAt, List.getD, List.getElem?_eq_getElem h]

theorem writeAt_nat (buf : List α) (k : Nat) (v : α) (h : k < buf.length) :
    writeAt buf (k : Int) v = Except.ok (buf.set k v) := by
  simp [writeAt, h]

theorem idx_inj {d i j i' j' : Nat} (hj : j < d) (hj' : j' < d)
    (h : i * d + j = i' * d + j') : i = i' ∧ j = j' := by
  have hd : 0 < d := by omega
  have h1 : (i * d + j) / d = i := by
    rw [Nat.add_comm, Nat.add_mul_div_right _ _ hd, Nat.div_eq_of_lt hj, Nat.zero_add]
  have h2 : (i' * d + j') / d = i' := by
    rw [Nat.add_comm, Nat.add_mul_div_right _ _ hd, Nat.div_eq_of_lt hj', Nat.zero_add]
  have hi : i = i' := by rw [← h1, ← h2, h]
  subst hi
  exact ⟨rfl, by omega⟩

theorem idx_lt {n d i j : Nat} (hi : i < n) (hj : j < d) : i * d + j < n * d := by
  have : (i + 1) * d ≤ n * d := Nat.mul_le_mul_right d hi
  rw [Nat.add_mul] at this
  omega

theorem Blob.count_eq (b : Blob α) (h : 1 ≤ b.num) : b.count = b.num * b.dim := by
  have hc : b.count = b.num * (b.channels * b.height * b.width) := by
    simp [Blob.count, Nat.mul_assoc]
  rw [Blob.dim, hc, Nat.mul_div_cancel_left _ (by omega : 0 < b.num)]

theorem intDiv_count (b : Blob α) (h : 1 ≤ b.num) :
    intDiv b.count b.num = Except.ok b.dim := by
  have : b.num ≠ 0 := by omega
  simp [intDiv, this, Blob.dim]

section Facts

variable [LinearOrderedField α] [FloorRing α]

/-- Under the label precondition the label read and the clamped probability
of sample `i` are defined. -/
theorem readLabel_ok (bottom0 bottom1 : Blob α) (hl : LabelsInRange bottom0 bottom1)
    (i : Nat) (hi : i < bottom0.num) :
    readAt bottom1.data (i : Int) = Except.ok (bottom1.data.getD i 0) :=
  readAt_nat _ _ (hl i hi).1

theorem label_toNat (bottom0 bottom1 : Blob α) (hl : LabelsInRange bottom0 bottom1)
    (i : Nat) (hi : i < bottom0.num) :
    ((labelAt bottom1 i).toNat : Int) = labelAt bottom1 i ∧
      (labelAt bottom1 i).toNat < bottom0.dim := by
  obtain ⟨_, h0, h1⟩ := hl i hi
  constructor
  · exact Int.toNat_of_nonneg h0
  · omega

theorem label_idx (bottom0 bottom1 : Blob α) (hl : LabelsInRange bottom0 bottom1)
    (i : Nat) (hi : i < bottom0.num) :
    (i : Int) * (bottom0.dim : Int) + labelAt bottom1 i
      = ((i * bottom0.dim + (labelAt bottom1 i).toNat : Nat) : Int) := by
  have := (label_toNat bottom0 bottom1 hl i hi).1
  push_cast
  omega

theorem clampedProb_ok (bottom0 bottom1 : Blob α) (h : 1 ≤ bottom0.num) (hwf : bottom0.WF)
    (hl : LabelsInRange bottom0 bottom1) (i : Nat) (hi : i < bottom0.num) :
    clampedProb bottom0.data bottom1.data bottom0.dim i
      = Except.ok (max (predAt bottom0 i (labelAt bottom1 i).toNat) kLOG_THRESHOLD) := by
  have hlt := (label_toNat bottom0 bottom1 hl i hi).2
  have hidx : i * bottom0.dim + (labelAt bottom1 i).toNat < bottom0.data.length := by
    rw [hwf.1, Blob.count_eq bottom0 h]
    exact idx_lt hi hlt
  unfold clampedProb
  rw [readLabel_ok bottom0 bottom1 hl i hi]
  simp only [bind_ok]
  change (readAt bottom0.data ((i : Int) * (bottom0.dim : Int) + labelAt bottom1 i) >>= _) = _
  rw [label_idx bottom0 bottom1 hl i hi, readAt_nat _ _ hidx]
  rfl

end Facts


/-! ## MultinomialLogisticLossLayer: the backward pass -/

section MultinomialBackward

variable [LinearOrderedField α] [FloorRing α]

theorem memsetZero_ok (buf : List α) (n : Nat) (h : buf.length = n) :
    memsetZero buf n = Except.ok (List.replicate n (0 : α)) := by
  subst h
  rw [memsetZero, if_pos (Nat.le_refl _), List.drop_length, List.append_nil]

/-- A loop whose iteration `i` overwrites the single entry `[i, l i]` of a
`num × d` buffer with `V i`: afterwards row `i < n` holds `V i` at column `l i`
and every other entry is as before. -/
theorem forLoop_rowUpdate (body : Nat → List α → Except Fault (List α)) (d num : Nat)
    (l : Nat → Nat) (V : Nat → α) (g0 : List α) (hlen : g0.length = num * d)
    (hl : ∀ i, i < num → l i < d) (n : Nat) (hn : n ≤ num)
    (hbody : ∀ i g, i < n → g.length = g0.length → g[i * d + l i]? = g0[i * d + l i]? →
      body i g = Except.ok (g.set (i * d + l i) (V i))) :
    ∃ g, forLoop body n g0 = Except.ok g ∧ g.length = g0.length ∧
      ∀ i j, i < num → j < d →
        g[i * d + j]? = if i < n ∧ j = l i then some (V i) else g0[i * d + j]? := by
  refine forLoop_inv _ (fun n (g : List α) => g.length = g0.length ∧
      ∀ i j, i < num → j < d →
        g[i * d + j]? = if i < n ∧ j = l i then some (V i) else g0[i * d + j]?) n _ ?_ ?_
  · exact ⟨rfl, fun i j _ _ => by simp⟩
  · intro m g hm ⟨hlen2, hg⟩
    have hmn : m < num := by omega
    have hlt := hl m hmn
    have hidx : m * d + l m < g.length := by
      rw [hlen2, hlen]; exact idx_lt hmn hlt
    have hsame : g[m * d + l m]? = g0[m * d + l m]? := by
      rw [hg m (l m) hmn hlt, if_neg]
      intro hc
      exact absurd hc.1 (Nat.lt_irrefl m)
    refine ⟨_, hbody m g hm hlen2 hsame, by simpa using hlen2, ?_⟩
    intro i j hi hj
    rw [List.getElem?_set]
    by_cases he : m * d + l m = i * d + j
    · obtain ⟨h1, h2⟩ := idx_inj hlt hj he
      subst h1
      rw [if_pos he, if_pos hidx, if_pos ⟨Nat.lt_succ_self m, h2.symm⟩]
    · rw [if_neg he, hg i j hi hj]
      by_cases hc : i < m ∧ j = l i
      · rw [if_pos hc, if_pos ⟨by omega, hc.2⟩]
      · rw [if_neg hc, if_neg]
        rintro ⟨h1, h2⟩
        have him : i = m := by
          rcases Nat.lt_succ_iff_lt_or_eq.mp h1 with h3 | h3
          · exact absurd ⟨h3, h2⟩ hc
          · exact h3
        subst him
        exact he (by rw [h2])

/-- A loop whose iteration `i` overwrites entry `i` with `F i`, given that
entries at and beyond `i` still hold their initial values. -/
theorem forLoop_frontier (body : Nat → List α → Except Fault (List α)) (F : Nat → α)
    (y0 : List α) (n : Nat) (hn : n ≤ y0.length)
    (hbody : ∀ i y, i < n → y.length = y0.length → (∀ k, i ≤ k → y[k]? = y0[k]?) →
      body i y = Except.ok (y.set i (F i))) :
    ∃ y, forLoop body n y0 = Except.ok y ∧ y.length = y0.length ∧
      (∀ k, k < n → y[k]? = some (F k)) ∧ ∀ k, n ≤ k → y[k]? = y0[k]? := by
  refine forLoop_inv _ (fun n (y : List α) => y.length = y0.length ∧
      (∀ k, k < n → y[k]? = some (F k)) ∧ ∀ k, n ≤ k → y[k]? = y0[k]?) n _ ?_ ?_
  · exact ⟨rfl, fun k hk => absurd hk (Nat.not_lt_zero k), fun _ _ => rfl⟩
  · intro m y hm ⟨hlen, hlo, hhi⟩
    refine ⟨_, hbody m y hm hlen hhi, by simpa using hlen, ?_, ?_⟩
    · intro k hk
      rw [List.getElem?_set]
      by_cases he : m = k
      · subst he
        rw [if_pos rfl, if_pos (by omega)]
      · rw [if_neg he]
        exact hlo k (by omega)
    · intro k hk
      rw [List.getElem?_set, if_neg (by omega)]
      exact hhi k (by omega)

/-- Two nested loops over `i < n`, `j < d` seen as one loop over the flat
index `i * d + j`. -/
theorem forLoop_nested_inv {σ : Type} (obody : Nat → σ → Except Fault σ)
    (ibody : Nat → Nat → σ → Except Fault σ) (R : Nat → σ → Prop) (n d : Nat) (s0 : σ)
    (hob : ∀ i s, i < n → obody i s = forLoop (ibody i) d s) (h0 : R 0 s0)
    (hstep : ∀ i j s, i < n → j < d → R (i * d + j) s →
      ∃ t, ibody i j s = Except.ok t ∧ R (i * d + j + 1) t) :
    ∃ t, forLoop obody n s0 = Except.ok t ∧ R (n * d) t := by
  refine forLoop_inv _ (fun i s => R (i * d) s) n s0 (by simpa using h0) ?_
  intro i s hi hR
  rw [hob i s hi]
  have := forLoop_inv (ibody i) (fun j s => R (i * d + j) s) d s (by simpa using hR)
    (fun j s hj hr => hstep i j s hi hj hr)
  obtain ⟨t, ht, hRt⟩ := this
  refine ⟨t, ht, ?_⟩
  show R ((i + 1) * d) t
  rw [Nat.add_mul, Nat.one_mul]
  exact hRt

/-- The nested form of `forLoop_frontier`: iteration `(i, j)` overwrites the
flat entry `i * d + j` with `F (i * d + j)`. -/
theorem forLoop_nested_frontier (obody : Nat → List α → Except Fault (List α))
    (ibody : Nat → Nat → List α → Except Fault (List α)) (F : Nat → α)
    (y0 : List α) (n d : Nat) (hn : n * d ≤ y0.length)
    (hob : ∀ i y, i < n → obody i y = forLoop (ibody i) d y)
    (hbody : ∀ i j y, i < n → j < d → y.length = y0.length →
      (∀ k, i * d + j ≤ k → y[k]? = y0[k]?) →
      ibody i j y = Except.ok (y.set (i * d + j) (F (i * d + j)))) :
    ∃ y, forLoop obody n y0 = Except.ok y ∧ y.length = y0.length ∧
      (∀ k, k < n * d → y[k]? = some (F k)) ∧ ∀ k, n * d ≤ k → y[k]? = y0[k]? := by
  refine forLoop_nested_inv obody ibody (fun m (y : List α) => y.length = y0.length ∧
      (∀ k, k < m → y[k]? = some (F k)) ∧ ∀ k, m ≤ k → y[k]? = y0[k]?) n d y0 hob
      ⟨rfl, fun k hk => absurd hk (Nat.not_lt_zero k), fun _ _ => rfl⟩ ?_
  intro i j y hi hj ⟨hlen, hlo, hhi⟩
  have hlt : i * d + j < y0.length := Nat.lt_of_lt_of_le (idx_lt hi hj) hn
  refine ⟨_, hbody i j y hi hj hlen hhi, by simpa using hlen, ?_, ?_⟩
  · intro k hk
    rw [List.getElem?_set]
    by_cases he : i * d + j = k
    · subst he
      rw [if_pos rfl, if_pos (by omega)]
    · rw [if_neg he]
      exact hlo k (by omega)
  · intro k hk
    rw [List.getElem?_set, if_neg (by omega)]
    exact hhi k (by omega)

theorem flat_div {d i j : Nat} (hj : j < d) : (i * d + j) / d = i := by
  have hd : 0 < d := by omega
  rw [Nat.add_comm, Nat.add_mul_div_right _ _ hd, Nat.div_eq_of_lt hj, Nat.zero_add]

theorem flat_mod {d i j : Nat} (hj : j < d) : (i * d + j) % d = j := by
  rw [Nat.add_comm, Nat.add_mul_mod_self_right, Nat.mod_eq_of_lt hj]

theorem label_eq_iff (bottom0 bottom1 : Blob α) (hl : LabelsInRange bottom0 bottom1)
    (i j : Nat) (hi : i < bottom0.num) :
    j = (labelAt bottom1 i).toNat ↔ (j : Int) = labelAt bottom1 i := by
  have := (label_toNat bottom0 bottom1 hl i hi).1
  omega

/-- The gradient buffer after the loop of
`MultinomialLogisticLossLayer::Backward_cpu`, started on the zeroed buffer. -/
theorem multinomial_backward_loop (bottom0 bottom1 : Blob α) (h : 1 ≤ bottom0.num)
    (hwf : bottom0.WF) (hl : LabelsInRange bottom0 bottom1) :
    ∃ g, forLoop (fun i bottom_diff => do
          let label := static_cast_int (← readAt bottom1.data i)
          let prob ← clampedProb bottom0.data bottom1.data bottom0.dim i
          writeAt bottom_diff ((i : Int) * (bottom0.dim : Int) + label)
            (-1 / prob / (bottom0.num : α))) bottom0.num (List.replicate bottom0.count (0 : α))
        = Except.ok g ∧ g.length = bottom0.count ∧
      ∀ i j, i < bottom0.num → j < bottom0.dim →
        g[i * bottom0.dim + j]? = some (if (j : Int) = labelAt bottom1 i then
          -1 / max (predAt bottom0 i j) kLOG_THRESHOLD / (bottom0.num : α) else 0) := by
  obtain ⟨g, hg, hlen, hval⟩ := forLoop_rowUpdate (fun i bottom_diff => do
          let label := static_cast_int (← readAt bottom1.data i)
          let prob ← clampedProb bottom0.data bottom1.data bottom0.dim i
          writeAt bottom_diff ((i : Int) * (bottom0.dim : Int) + label)
            (-1 / prob / (bottom0.num : α))) bottom0.dim bottom0.num
      (fun i => (labelAt bottom1 i).toNat)
      (fun i => -1 / max (predAt bottom0 i (labelAt bottom1 i).toNat) kLOG_THRESHOLD
        / (bottom0.num : α))
      (List.replicate bottom0.count (0 : α))
      (by rw [List.length_replicate, Blob.count_eq bottom0 h])
      (fun i hi => (label_toNat bottom0 bottom1 hl i hi).2) bottom0.num (Nat.le_refl _)
      (by
        intro i g hi hlen _
        have hlt := (label_toNat bottom0 bottom1 hl i hi).2
        have hidx : i * bottom0.dim + (labelAt bottom1 i).toNat < g.length := by
          rw [hlen, List.length_replicate, Blob.count_eq bottom0 h]; exact idx_lt hi hlt
        simp only []
        rw [readLabel_ok bottom0 bottom1 hl i hi, bind_ok,
          clampedProb_ok bottom0 bottom1 h hwf hl i hi, bind_ok]
        change writeAt g ((i : Int) * (bottom0.dim : Int) + labelAt bottom1 i) _ = _
        rw [label_idx bottom0 bottom1 hl i hi, writeAt_nat _ _ _ hidx])
  refine ⟨g, hg, by rw [hlen, List.length_replicate], fun i j hi hj => ?_⟩
  have hlt : i * bottom0.dim + j < bottom0.count := by
    rw [Blob.count_eq bottom0 h]; exact idx_lt hi hj
  rw [hval i j hi hj]
  by_cases hc : (j : Int) = labelAt bottom1 i
  · have hc2 := (label_eq_iff bottom0 bottom1 hl i j hi).mpr hc
    rw [if_pos ⟨hi, hc2⟩, if_pos hc, ← hc2]
  · have hc2 : ¬ (i < bottom0.num ∧ j = (labelAt bottom1 i).toNat) :=
      fun hh => hc ((label_eq_iff bottom0 bottom1 hl i j hi).mp hh.2)
    rw [if_neg hc2, if_neg hc]
    simp [List.getElem?_replicate, hlt]

/-- C1 (amended). `MultinomialLogisticLossLayer::Backward_cpu`: on a batch of
N ≥ 1 samples whose labels lie in `[0, dim)`, and whatever the gradient buffer
held before, the pass returns, the gradient entry at `[i, label_i]` is
`-1 / (max(prediction[i, label_i], kLOG_THRESHOLD) * N)` with the float
constant `kLOG_THRESHOLD = 12379400 · 2^-90`, and every other entry is 0. -/
theorem multinomial_backward_gradient (bottom0 bottom1 : Blob α) (h : 1 ≤ bottom0.num)
    (hwf : bottom0.WF) (hl : LabelsInRange bottom0 bottom1) :
    ∃ g, MultinomialLogisticLossLayer.Backward_cpu bottom0 bottom1
          = Except.ok ({ bottom0 with diff := g }, bottom1) ∧ g.length = bottom0.count ∧
      ∀ i j, i < bottom0.num → j < bottom0.dim →
        g[i * bottom0.dim + j]? = some (if (j : Int) = labelAt bottom1 i then
          -1 / (max (predAt bottom0 i j) kLOG_THRESHOLD * (bottom0.num : α)) else 0) := by
  obtain ⟨g, hg, hlen, hval⟩ := multinomial_backward_loop bottom0 bottom1 h hwf hl
  refine ⟨g, ?_, hlen, fun i j hi hj => ?_⟩
  · unfold MultinomialLogisticLossLayer.Backward_cpu
    rw [intDiv_count bottom0 h, bind_ok, memsetZero_ok _ _ hwf.2, bind_ok]
    simp only []
    rw [hg]
    rfl
  · rw [hval i j hi hj, div_div]

end MultinomialBackward


/-! ## The round-trip batch -/

section RoundTrip

variable [LinearOrderedField α] [FloorRing α]

theorem exPred_num (g : List α) : 1 ≤ (exPred α g).num := by
  show 1 ≤ 2
  decide

theorem exPred_wf (g : List α) (hg : g.length = 6) : (exPred α g).WF :=
  ⟨rfl, hg⟩

theorem exPred_dim (g : List α) : (exPred α g).dim = 3 := by
  simp [Blob.dim, Blob.count, exPred]

theorem exLabels_inRange (g : List α) : LabelsInRange (exPred α g) (exLabel α) := by
  intro i hi
  have hi2 : i < 2 := hi
  rw [exPred_dim]
  interval_cases i <;> simp [exLabel, labelAt, static_cast_int]

end RoundTrip

theorem multinomial_backward_gradient_witness :
    (1 ≤ (exPred ℚ [5, 5, 5, 5, 5, 5]).num ∧ (exPred ℚ [5, 5, 5, 5, 5, 5]).WF ∧
      LabelsInRange (exPred ℚ [5, 5, 5, 5, 5, 5]) (exLabel ℚ)) ∧
    ∃ g, MultinomialLogisticLossLayer.Backward_cpu (exPred ℚ [5, 5, 5, 5, 5, 5]) (exLabel ℚ)
          = Except.ok ({ exPred ℚ [5, 5, 5, 5, 5, 5] with diff := g }, exLabel ℚ) ∧
      g.length = (exPred ℚ [5, 5, 5, 5, 5, 5]).count ∧
      ∀ i j, i < (exPred ℚ [5, 5, 5, 5, 5, 5]).num → j < (exPred ℚ [5, 5, 5, 5, 5, 5]).dim →
        g[i * (exPred ℚ [5, 5, 5, 5, 5, 5]).dim + j]? = some (if (j : Int) = labelAt (exLabel ℚ) i then
          -1 / (max (predAt (exPred ℚ [5, 5, 5, 5, 5, 5]) i j) kLOG_THRESHOLD *
            ((exPred ℚ [5, 5, 5, 5, 5, 5]).num : ℚ)) else 0) :=
  ⟨⟨exPred_num _, exPred_wf _ rfl, exLabels_inRange _⟩,
    multinomial_backward_gradient _ _ (exPred_num _) (exPred_wf _ rfl) (exLabels_inRange _)⟩

/-! ## MultinomialLogisticLossLayer: the forward pass -/

section MultinomialForward

variable [LinearOrderedField α] [FloorRing α]

/-- The loss accumulated by the loop of `MultinomialLogisticLossLayer::Forward_cpu`. -/
theorem multinomial_forward_loop (log : α → α) (bottom0 bottom1 : Blob α)
    (h : 1 ≤ bottom0.num) (hwf : bottom0.WF) (hl : LabelsInRange bottom0 bottom1) :
    forLoop (fun i loss => do
        let prob ← clampedProb bottom0.data bottom1.data bottom0.dim i
        pure (loss - log prob)) bottom0.num (0 : α)
      = Except.ok (∑ i in Finset.range bottom0.num, -log (probOf bottom0 bottom1 i)) := by
  obtain ⟨t, ht, hP⟩ := forLoop_inv (fun i loss => do
        let prob ← clampedProb bottom0.data bottom1.data bottom0.dim i
        pure (loss - log prob))
      (fun n (s : α) => s = ∑ i in Finset.range n, -log (probOf bottom0 bottom1 i))
      bottom0.num (0 : α) (by simp) (by
        intro i s hi hs
        refine ⟨s - log (probOf bottom0 bottom1 i), ?_, ?_⟩
        · simp only []
          rw [clampedProb_ok bottom0 bottom1 h hwf hl i hi]
          rfl
        · show s - log (probOf bottom0 bottom1 i) = _
          rw [Finset.sum_range_succ, hs, sub_eq_add_neg])
  rw [ht, hP]

theorem multinomial_forward_eq (log : α → α) (bottom0 bottom1 : Blob α)
    (h : 1 ≤ bottom0.num) (hwf : bottom0.WF) (hl : LabelsInRange bottom0 bottom1) :
    MultinomialLogisticLossLayer.Forward_cpu log bottom0 bottom1
      = Except.ok ((∑ i in Finset.range bottom0.num, -log (probOf bottom0 bottom1 i))
          / (bottom0.num : α), bottom0, bottom1) := by
  unfold MultinomialLogisticLossLayer.Forward_cpu
  rw [intDiv_count bottom0 h, bind_ok]
  show (forLoop _ bottom0.num (0 : α) >>= _) = _
  rw [multinomial_forward_loop log bottom0 bottom1 h hwf hl]
  rfl

theorem exProb_zero (g : List α) : probOf (exPred α g) (exLabel α) 0 = 7 / 10 := by
  have h0 : labelAt (exLabel α) 0 = 0 := by simp [exLabel, labelAt, static_cast_int]
  rw [probOf, h0, predAt, exPred_dim]
  simp only [exPred, kLOG_THRESHOLD, Int.toNat_zero, Nat.zero_mul, Nat.add_zero, List.getD_cons_zero]
  exact max_eq_left (by norm_num)

theorem exProb_one (g : List α) : probOf (exPred α g) (exLabel α) 1 = 8 / 10 := by
  have h0 : labelAt (exLabel α) 1 = 2 := by simp [exLabel, labelAt, static_cast_int]
  rw [probOf, h0, predAt, exPred_dim]
  have h2 : Int.toNat 2 = 2 := rfl
  rw [h2]
  simp only [exPred, kLOG_THRESHOLD]
  exact max_eq_left (by norm_num)

/-- C2 (amended). `MultinomialLogisticLossLayer::Forward_cpu`: on a batch of
N ≥ 1 samples whose labels lie in `[0, dim)` the pass returns
`(Σ_i -log(max(prediction[i, label_i], kLOG_THRESHOLD))) / N` with the float
constant `kLOG_THRESHOLD = 12379400 · 2^-90`; on the predictions
`[[0.7,0.2,0.1],[0.1,0.1,0.8]]` with labels `[0, 2]` that is
`-(log 0.7 + log 0.8) / 2`. -/
theorem multinomial_forward_loss (log : α → α) (bottom0 bottom1 : Blob α)
    (h : 1 ≤ bottom0.num) (hwf : bottom0.WF) (hl : LabelsInRange bottom0 bottom1) :
    MultinomialLogisticLossLayer.Forward_cpu log bottom0 bottom1
        = Except.ok ((∑ i in Finset.range bottom0.num,
            -log (max (predAt bottom0 i (labelAt bottom1 i).toNat) kLOG_THRESHOLD))
          / (bottom0.num : α), bottom0, bottom1) ∧
      ∀ g : List α, g.length = 6 →
        MultinomialLogisticLossLayer.Forward_cpu log (exPred α g) (exLabel α)
          = Except.ok (-(log (7 / 10) + log (8 / 10)) / 2, exPred α g, exLabel α) := by
  refine ⟨multinomial_forward_eq log bottom0 bottom1 h hwf hl, fun g hg => ?_⟩
  rw [multinomial_forward_eq log _ _ (exPred_num g) (exPred_wf g hg) (exLabels_inRange g)]
  have hn : (exPred α g).num = 2 := rfl
  rw [hn, Finset.sum_range_succ, Finset.sum_range_one, exProb_zero, exProb_one]
  congr 2
  · ring

theorem multinomial_forward_loss_witness :
    (1 ≤ (exPred ℝ [0, 0, 0, 0, 0, 0]).num ∧ (exPred ℝ [0, 0, 0, 0, 0, 0]).WF ∧
      LabelsInRange (exPred ℝ [0, 0, 0, 0, 0, 0]) (exLabel ℝ)) ∧
    (MultinomialLogisticLossLayer.Forward_cpu Real.log (exPred ℝ [0, 0, 0, 0, 0, 0]) (exLabel ℝ)
        = Except.ok ((∑ i in Finset.range (exPred ℝ [0, 0, 0, 0, 0, 0]).num,
            -Real.log (max (predAt (exPred ℝ [0, 0, 0, 0, 0, 0]) i
              (labelAt (exLabel ℝ) i).toNat) kLOG_THRESHOLD))
          / ((exPred ℝ [0, 0, 0, 0, 0, 0]).num : ℝ), exPred ℝ [0, 0, 0, 0, 0, 0], exLabel ℝ) ∧
      ∀ g : List ℝ, g.length = 6 →
        MultinomialLogisticLossLayer.Forward_cpu Real.log (exPred ℝ g) (exLabel ℝ)
          = Except.ok (-(Real.log (7 / 10) + Real.log (8 / 10)) / 2, exPred ℝ g, exLabel ℝ)) :=
  ⟨⟨exPred_num _, exPred_wf _ rfl, exLabels_inRange _⟩,
    multinomial_forward_loss Real.log _ _ (exPred_num _) (exPred_wf _ rfl) (exLabels_inRange _)⟩

theorem predAt_mem (bottom0 : Blob α) (i j : Nat) (h : 1 ≤ bottom0.num) (hwf : bottom0.WF)
    (hi : i < bottom0.num) (hj : j < bottom0.dim) : predAt bottom0 i j ∈ bottom0.data := by
  have hidx : i * bottom0.dim + j < bottom0.data.length := by
    rw [hwf.1, Blob.count_eq bottom0 h]; exact idx_lt hi hj
  rw [predAt, List.getD_eq_getElem _ _ hidx]
  exact List.getElem_mem _

theorem kLOG_THRESHOLD_pos : (0 : α) < kLOG_THRESHOLD := by
  unfold kLOG_THRESHOLD
  positivity

theorem kLOG_THRESHOLD_le_one : (kLOG_THRESHOLD : α) ≤ 1 := by
  unfold kLOG_THRESHOLD
  rw [div_le_one (by positivity)]
  norm_num

/-- The clamped probability is at least the threshold, and at most 1 when
the predictions are. -/
theorem probOf_bounds (bottom0 bottom1 : Blob α) (i : Nat) :
    kLOG_THRESHOLD ≤ probOf bottom0 bottom1 i ∧ 0 < probOf bottom0 bottom1 i :=
  ⟨le_max_right _ _, lt_of_lt_of_le kLOG_THRESHOLD_pos (le_max_right _ _)⟩

theorem probOf_le_one (bottom0 bottom1 : Blob α) (h : 1 ≤ bottom0.num) (hwf : bottom0.WF)
    (hl : LabelsInRange bottom0 bottom1) (hp : ∀ x ∈ bottom0.data, 0 < x ∧ x ≤ 1)
    (i : Nat) (hi : i < bottom0.num) : probOf bottom0 bottom1 i ≤ 1 :=
  max_le (hp _ (predAt_mem bottom0 i _ h hwf hi (label_toNat bottom0 bottom1 hl i hi).2)).2
    kLOG_THRESHOLD_le_one

end MultinomialForward

/-- C3 (amended). `MultinomialLogisticLossLayer::Forward_cpu` on predictions in
`(0, 1]` and labels in `[0, dim)`, N ≥ 1: every argument passed to `log` is at
least the float constant `kLOG_THRESHOLD = 12379400 · 2^-90` (hence positive,
so `log(0)` is never evaluated), the pass returns, and the loss lies in
`[0, -log(kLOG_THRESHOLD)]`. -/
theorem multinomial_forward_bounds (bottom0 bottom1 : Blob ℝ) (h : 1 ≤ bottom0.num)
    (hwf : bottom0.WF) (hl : LabelsInRange bottom0 bottom1)
    (hp : ∀ x ∈ bottom0.data, 0 < x ∧ x ≤ 1) :
    (∀ i, i < bottom0.num → ∃ p, clampedProb bottom0.data bottom1.data bottom0.dim i
        = Except.ok p ∧ kLOG_THRESHOLD ≤ p ∧ 0 < p) ∧
    ∃ loss, MultinomialLogisticLossLayer.Forward_cpu Real.log bottom0 bottom1
        = Except.ok (loss, bottom0, bottom1) ∧ 0 ≤ loss ∧ loss ≤ -Real.log kLOG_THRESHOLD := by
  have hN : (0 : ℝ) < (bottom0.num : ℝ) := by exact_mod_cast h
  refine ⟨fun i hi => ⟨_, clampedProb_ok bottom0 bottom1 h hwf hl i hi,
    probOf_bounds bottom0 bottom1 i⟩, _, multinomial_forward_eq Real.log bottom0 bottom1 h hwf hl,
    ?_, ?_⟩
  · apply div_nonneg _ hN.le
    apply Finset.sum_nonneg
    intro i hi
    have hi2 : i < bottom0.num := Finset.mem_range.mp hi
    have := Real.log_nonpos (probOf_bounds bottom0 bottom1 i).2.le
      (probOf_le_one bottom0 bottom1 h hwf hl hp i hi2)
    linarith
  · rw [div_le_iff₀ hN]
    have hsum : ∑ i in Finset.range bottom0.num, -Real.log (probOf bottom0 bottom1 i)
        ≤ (Finset.range bottom0.num).card • (-Real.log kLOG_THRESHOLD) := by
      apply Finset.sum_le_card_nsmul
      intro i _
      have := Real.log_le_log kLOG_THRESHOLD_pos (probOf_bounds bottom0 bottom1 i).1
      linarith
    rw [Finset.card_range, nsmul_eq_mul] at hsum
    linarith

theorem exPred_unit (g : List ℝ) : ∀ x ∈ (exPred ℝ g).data, 0 < x ∧ x ≤ 1 := by
  intro x hx
  simp only [exPred, List.mem_cons, List.mem_singleton, List.not_mem_nil, or_false] at hx
  rcases hx with h | h | h | h | h | h <;> subst h <;> norm_num

theorem multinomial_forward_bounds_witness :
    (1 ≤ (exPred ℝ [1, 1, 1, 1, 1, 1]).num ∧ (exPred ℝ [1, 1, 1, 1, 1, 1]).WF ∧
      LabelsInRange (exPred ℝ [1, 1, 1, 1, 1, 1]) (exLabel ℝ) ∧
      ∀ x ∈ (exPred ℝ [1, 1, 1, 1, 1, 1]).data, 0 < x ∧ x ≤ 1) ∧
    ((∀ i, i < (exPred ℝ [1, 1, 1, 1, 1, 1]).num →
        ∃ p, clampedProb (exPred ℝ [1, 1, 1, 1, 1, 1]).data (exLabel ℝ).data
            (exPred ℝ [1, 1, 1, 1, 1, 1]).dim i = Except.ok p ∧ kLOG_THRESHOLD ≤ p ∧ 0 < p) ∧
      ∃ loss, MultinomialLogisticLossLayer.Forward_cpu Real.log (exPred ℝ [1, 1, 1, 1, 1, 1])
          (exLabel ℝ) = Except.ok (loss, exPred ℝ [1, 1, 1, 1, 1, 1], exLabel ℝ) ∧
        0 ≤ loss ∧ loss ≤ -Real.log kLOG_THRESHOLD) :=
  ⟨⟨exPred_num _, exPred_wf _ rfl, exLabels_inRange _, exPred_unit _⟩,
    multinomial_forward_bounds _ _ (exPred_num _) (exPred_wf _ rfl) (exLabels_inRange _)
      (exPred_unit _)⟩



/-! ## InfogainLossLayer -/

section Infogain

variable [LinearOrderedField α] [FloorRing α]

/-- A loop whose iteration `i` adds `t i` to the accumulator. -/
theorem forLoop_sum (body : Nat → α → Except Fault α) (t : Nat → α) (n : Nat) (s0 : α)
    (hbody : ∀ i s, i < n → body i s = Except.ok (s + t i)) :
    forLoop body n s0 = Except.ok (s0 + ∑ i in Finset.range n, t i) := by
  obtain ⟨u, hu, hP⟩ := forLoop_inv body (fun n (s : α) => s = s0 + ∑ i in Finset.range n, t i)
    n s0 (by simp) (by
      intro i s hi hs
      refine ⟨s + t i, hbody i s hi, ?_⟩
      show s + t i = _
      rw [Finset.sum_range_succ, hs, add_assoc])
  rw [hu, hP]

theorem CHECK_EQ_self (a : Nat) : CHECK_EQ a a = Except.ok () := by
  simp [CHECK_EQ]

theorem readPred_ok (bottom0 : Blob α) (h : 1 ≤ bottom0.num) (hwf : bottom0.WF) (i j : Nat)
    (hi : i < bottom0.num) (hj : j < bottom0.dim) :
    readAt bottom0.data ((i : Int) * (bottom0.dim : Int) + (j : Int))
      = Except.ok (predAt bottom0 i j) := by
  have hidx : i * bottom0.dim + j < bottom0.data.length := by
    rw [hwf.1, Blob.count_eq bottom0 h]; exact idx_lt hi hj
  have hc : (i : Int) * (bottom0.dim : Int) + (j : Int) = ((i * bottom0.dim + j : Nat) : Int) := by
    push_cast; rfl
  rw [hc, readAt_nat _ _ hidx]
  rfl

theorem readWeight_ok (infogain bottom0 bottom1 : Blob α)
    (hlen : infogain.data.length = bottom0.dim * bottom0.dim)
    (hl : LabelsInRange bottom0 bottom1) (i j : Nat)
    (hi : i < bottom0.num) (hj : j < bottom0.dim) :
    readAt infogain.data (labelAt bottom1 i * (bottom0.dim : Int) + (j : Int))
      = Except.ok (weightAt infogain bottom0.dim (labelAt bottom1 i).toNat j) := by
  obtain ⟨hcast, hlt⟩ := label_toNat bottom0 bottom1 hl i hi
  have hidx : (labelAt bottom1 i).toNat * bottom0.dim + j < infogain.data.length := by
    rw [hlen]; exact idx_lt hlt hj
  have hc : labelAt bottom1 i * (bottom0.dim : Int) + (j : Int)
      = (((labelAt bottom1 i).toNat * bottom0.dim + j : Nat) : Int) := by
    push_cast; rw [hcast]
  rw [hc, readAt_nat _ _ hidx]
  rfl

/-- The loss returned by `InfogainLossLayer::Forward_cpu`. -/
theorem infogain_forward_eq (self : InfogainLossLayer α) (log : α → α) (bottom0 bottom1 : Blob α)
    (h : 1 ≤ bottom0.num) (hwf : bottom0.WF) (hl : LabelsInRange bottom0 bottom1)
    (hh : self.infogain_.height = bottom0.dim)
    (hlen : self.infogain_.data.length = bottom0.dim * bottom0.dim) :
    self.Forward_cpu log bottom0 bottom1
      = Except.ok ((∑ i in Finset.range bottom0.num, ∑ j in Finset.range bottom0.dim,
            -(weightAt self.infogain_ bottom0.dim (labelAt bottom1 i).toNat j
              * log (max (predAt bottom0 i j) kLOG_THRESHOLD)))
          / (bottom0.num : α), bottom0, bottom1) := by
  unfold InfogainLossLayer.Forward_cpu
  rw [intDiv_count bottom0 h, bind_ok, hh, CHECK_EQ_self, bind_ok]
  show (forLoop _ bottom0.num (0 : α) >>= _) = _
  rw [forLoop_sum _ (fun i => ∑ j in Finset.range bottom0.dim,
            -(weightAt self.infogain_ bottom0.dim (labelAt bottom1 i).toNat j
              * log (max (predAt bottom0 i j) kLOG_THRESHOLD)))]
  · rw [zero_add]; rfl
  · intro i s hi
    simp only []
    rw [readLabel_ok bottom0 bottom1 hl i hi, bind_ok]
    apply forLoop_sum
    intro j s hj
    rw [readPred_ok bottom0 h hwf i j hi hj, bind_ok]
    change (readAt self.infogain_.data (labelAt bottom1 i * (bottom0.dim : Int) + (j : Int))
      >>= _) = _
    rw [readWeight_ok self.infogain_ bottom0 bottom1 hlen hl i j hi hj, bind_ok, sub_eq_add_neg]
    rfl

/-- C4. With the `dim × dim` weighting matrix that is 1 on the diagonal and 0
elsewhere, `InfogainLossLayer::Forward_cpu` returns exactly the loss of
`MultinomialLogisticLossLayer::Forward_cpu` on the same batch (N ≥ 1, labels
in `[0, dim)`). -/
theorem infogain_identity_eq_multinomial (self : InfogainLossLayer α) (log : α → α)
    (bottom0 bottom1 : Blob α)
    (h : 1 ≤ bottom0.num) (hwf : bottom0.WF) (hl : LabelsInRange bottom0 bottom1)
    (hh : self.infogain_.height = bottom0.dim)
    (hlen : self.infogain_.data.length = bottom0.dim * bottom0.dim)
    (hI : ∀ r c, r < bottom0.dim → c < bottom0.dim →
      weightAt self.infogain_ bottom0.dim r c = if r = c then 1 else 0) :
    ∃ loss, self.Forward_cpu log bottom0 bottom1 = Except.ok (loss, bottom0, bottom1) ∧
      MultinomialLogisticLossLayer.Forward_cpu log bottom0 bottom1
        = Except.ok (loss, bottom0, bottom1) := by
  refine ⟨_, infogain_forward_eq self log bottom0 bottom1 h hwf hl hh hlen, ?_⟩
  rw [multinomial_forward_eq log bottom0 bottom1 h hwf hl]
  congr 3
  apply Finset.sum_congr rfl
  intro i hi
  have hi2 : i < bottom0.num := Finset.mem_range.mp hi
  have hlt := (label_toNat bottom0 bottom1 hl i hi2).2
  rw [Finset.sum_eq_single (labelAt bottom1 i).toNat]
  · rw [hI _ _ hlt hlt, if_pos rfl, one_mul]; rfl
  · intro j hj hne
    rw [hI _ _ hlt (Finset.mem_range.mp hj), if_neg (Ne.symm hne), zero_mul, neg_zero]
  · intro hn
    exact absurd (Finset.mem_range.mpr hlt) hn

theorem identityInfogain_length (d : Nat) : (identityInfogain α d).data.length = d * d := by
  simp [identityInfogain]

theorem identityInfogain_weight (d r c : Nat) (hr : r < d) (hc : c < d) :
    weightAt (identityInfogain α d) d r c = if r = c then 1 else 0 := by
  have hidx : r * d + c < d * d := idx_lt hr hc
  simp only [weightAt, identityInfogain, List.getD_eq_getElem?_getD, List.getElem?_map,
    List.getElem?_range hidx, Option.map_some', Option.getD_some, flat_div hc, flat_mod hc]

theorem infogain_identity_eq_multinomial_witness :
    (1 ≤ (exPred ℝ [0, 0, 0, 0, 0, 0]).num ∧ (exPred ℝ [0, 0, 0, 0, 0, 0]).WF ∧
      LabelsInRange (exPred ℝ [0, 0, 0, 0, 0, 0]) (exLabel ℝ)) ∧
    ∃ loss, (InfogainLossLayer.mk (identityInfogain ℝ (exPred ℝ [0, 0, 0, 0, 0, 0]).dim)).Forward_cpu
        Real.log (exPred ℝ [0, 0, 0, 0, 0, 0]) (exLabel ℝ)
          = Except.ok (loss, exPred ℝ [0, 0, 0, 0, 0, 0], exLabel ℝ) ∧
      MultinomialLogisticLossLayer.Forward_cpu Real.log (exPred ℝ [0, 0, 0, 0, 0, 0]) (exLabel ℝ)
        = Except.ok (loss, exPred ℝ [0, 0, 0, 0, 0, 0], exLabel ℝ) :=
  ⟨⟨exPred_num _, exPred_wf _ rfl, exLabels_inRange _⟩,
    infogain_identity_eq_multinomial _ Real.log _ _ (exPred_num _) (exPred_wf _ rfl)
      (exLabels_inRange _) rfl (identityInfogain_length _)
      (fun r c hr hc => identityInfogain_weight _ r c hr hc)⟩

/-- The gradient buffer written by the nested loops of
`InfogainLossLayer::Backward_cpu`. -/
theorem infogain_backward_loop (self : InfogainLossLayer α) (bottom0 bottom1 : Blob α)
    (h : 1 ≤ bottom0.num) (hwf : bottom0.WF) (hl : LabelsInRange bottom0 bottom1)
    (hlen : self.infogain_.data.length = bottom0.dim * bottom0.dim) :
    ∃ g, forLoop (fun i bottom_diff => do
          let label := static_cast_int (← readAt bottom1.data i)
          forLoop (fun j bottom_diff => do
            let prob := max (← readAt bottom0.data
              ((i : Int) * (bottom0.dim : Int) + (j : Int))) kLOG_THRESHOLD
            let w ← readAt self.infogain_.data (label * (bottom0.dim : Int) + (j : Int))
            writeAt bottom_diff ((i : Int) * (bottom0.dim : Int) + (j : Int))
              (-w / prob / (bottom0.num : α))) bottom0.dim bottom_diff) bottom0.num bottom0.diff
        = Except.ok g ∧ g.length = bottom0.count ∧
      ∀ i j, i < bottom0.num → j < bottom0.dim →
        g[i * bottom0.dim + j]? = some
          (-weightAt self.infogain_ bottom0.dim (labelAt bottom1 i).toNat j
            / max (predAt bottom0 i j) kLOG_THRESHOLD / (bottom0.num : α)) := by
  have hcount := Blob.count_eq bottom0 h
  obtain ⟨g, hg, hglen, hlo, -⟩ := forLoop_nested_frontier
    (fun i bottom_diff => do
          let label := static_cast_int (← readAt bottom1.data i)
          forLoop (fun j bottom_diff => do
            let prob := max (← readAt bottom0.data
              ((i : Int) * (bottom0.dim : Int) + (j : Int))) kLOG_THRESHOLD
            let w ← readAt self.infogain_.data (label * (bottom0.dim : Int) + (j : Int))
            writeAt bottom_diff ((i : Int) * (bottom0.dim : Int) + (j : Int))
              (-w / prob / (bottom0.num : α))) bottom0.dim bottom_diff)
    (fun i j bottom_diff => do
            let prob := max (← readAt bottom0.data
              ((i : Int) * (bottom0.dim : Int) + (j : Int))) kLOG_THRESHOLD
            let w ← readAt self.infogain_.data
              (labelAt bottom1 i * (bottom0.dim : Int) + (j : Int))
            writeAt bottom_diff ((i : Int) * (bottom0.dim : Int) + (j : Int))
              (-w / prob / (bottom0.num : α)))
    (fun k => -weightAt self.infogain_ bottom0.dim (labelAt bottom1 (k / bottom0.dim)).toNat
        (k % bottom0.dim) / max (predAt bottom0 (k / bottom0.dim) (k % bottom0.dim))
          kLOG_THRESHOLD / (bottom0.num : α))
    bottom0.diff bottom0.num bottom0.dim (by rw [hwf.2, hcount])
    (by
      intro i y hi
      simp only []
      rw [readLabel_ok bottom0 bottom1 hl i hi, bind_ok]
      rfl)
    (by
      intro i j y hi hj hylen _
      have hidx : i * bottom0.dim + j < y.length := by
        rw [hylen, hwf.2, hcount]; exact idx_lt hi hj
      have hc : (i : Int) * (bottom0.dim : Int) + (j : Int)
          = ((i * bottom0.dim + j : Nat) : Int) := by push_cast; rfl
      simp only []
      rw [readPred_ok bottom0 h hwf i j hi hj, bind_ok,
        readWeight_ok self.infogain_ bottom0 bottom1 hlen hl i j hi hj, bind_ok,
        hc, writeAt_nat _ _ _ hidx, flat_div hj, flat_mod hj])
  refine ⟨g, hg, by rw [hglen, hwf.2], fun i j hi hj => ?_⟩
  rw [hlo _ (idx_lt hi hj), flat_div hj, flat_mod hj]

/-- C5 (amended). `InfogainLossLayer::Backward_cpu`: on a batch of N ≥ 1
samples with labels in `[0, dim)` and a `dim × dim` weighting matrix, whatever
the gradient buffer held before, the pass returns and the gradient entry at
`[i, j]` is `-weight[label_i, j] / (max(prediction[i, j], kLOG_THRESHOLD) * N)`
with the float constant `kLOG_THRESHOLD = 12379400 · 2^-90`, for every sample
`i` and class `j`. -/
theorem infogain_backward_gradient (self : InfogainLossLayer α) (bottom0 bottom1 : Blob α)
    (h : 1 ≤ bottom0.num) (hwf : bottom0.WF) (hl : LabelsInRange bottom0 bottom1)
    (hh : self.infogain_.height = bottom0.dim)
    (hlen : self.infogain_.data.length = bottom0.dim * bottom0.dim) :
    ∃ g, self.Backward_cpu bottom0 bottom1
          = Except.ok ({ bottom0 with diff := g }, bottom1) ∧ g.length = bottom0.count ∧
      ∀ i j, i < bottom0.num → j < bottom0.dim →
        g[i * bottom0.dim + j]? = some
          (-weightAt self.infogain_ bottom0.dim (labelAt bottom1 i).toNat j
            / (max (predAt bottom0 i j) kLOG_THRESHOLD * (bottom0.num : α))) := by
  obtain ⟨g, hg, hglen, hval⟩ := infogain_backward_loop self bottom0 bottom1 h hwf hl hlen
  refine ⟨g, ?_, hglen, fun i j hi hj => ?_⟩
  · unfold InfogainLossLayer.Backward_cpu
    rw [intDiv_count bottom0 h, bind_ok, hh, CHECK_EQ_self, bind_ok]
    show (forLoop _ bottom0.num bottom0.diff >>= _) = _
    rw [hg]
    rfl
  · rw [hval i j hi hj, div_div]

theorem infogain_backward_gradient_witness :
    (1 ≤ (exPred ℚ [5, 5, 5, 5, 5, 5]).num ∧ (exPred ℚ [5, 5, 5, 5, 5, 5]).WF ∧
      LabelsInRange (exPred ℚ [5, 5, 5, 5, 5, 5]) (exLabel ℚ) ∧
      exInfogain.infogain_.height = (exPred ℚ [5, 5, 5, 5, 5, 5]).dim ∧
      exInfogain.infogain_.data.length
        = (exPred ℚ [5, 5, 5, 5, 5, 5]).dim * (exPred ℚ [5, 5, 5, 5, 5, 5]).dim) ∧
    ∃ g, exInfogain.Backward_cpu (exPred ℚ [5, 5, 5, 5, 5, 5]) (exLabel ℚ)
          = Except.ok ({ exPred ℚ [5, 5, 5, 5, 5, 5] with diff := g }, exLabel ℚ) ∧
      g.length = (exPred ℚ [5, 5, 5, 5, 5, 5]).count ∧
      ∀ i j, i < (exPred ℚ [5, 5, 5, 5, 5, 5]).num → j < (exPred ℚ [5, 5, 5, 5, 5, 5]).dim →
        g[i * (exPred ℚ [5, 5, 5, 5, 5, 5]).dim + j]? = some
          (-weightAt exInfogain.infogain_ (exPred ℚ [5, 5, 5, 5, 5, 5]).dim
              (labelAt (exLabel ℚ) i).toNat j
            / (max (predAt (exPred ℚ [5, 5, 5, 5, 5, 5]) i j) kLOG_THRESHOLD
              * ((exPred ℚ [5, 5, 5, 5, 5, 5]).num : ℚ))) :=
  ⟨⟨exPred_num _, exPred_wf _ rfl, exLabels_inRange _, by rw [exPred_dim]; rfl,
      by rw [exPred_dim]; rfl⟩,
    infogain_backward_gradient exInfogain _ _ (exPred_num _) (exPred_wf _ rfl)
      (exLabels_inRange _) (by rw [exPred_dim]; rfl) (by rw [exPred_dim]; rfl)⟩

end Infogain


/-! ## EuclideanLossLayer -/

section Euclidean

variable [LinearOrderedField α] [FloorRing α]

theorem getD_of_getElem? (l : List α) (k : Nat) (v : α) (h : l[k]? = some v) :
    l.getD k 0 = v := by
  rw [List.getD_eq_getElem?_getD, h]; rfl

theorem getElem?_eq_getD (l : List α) (k : Nat) (h : k < l.length) :
    l[k]? = some (l.getD k 0) := by
  rw [List.getD_eq_getElem _ _ h, List.getElem?_eq_getElem h]

theorem readAt_of_getElem? (l : List α) (k : Nat) (v : α) (h : l[k]? = some v) :
    readAt l (k : Int) = Except.ok v := by
  simp [readAt, h]

theorem caffe_sub_ok (n : Nat) (a b y : List α) (ha : a.length = n) (hb : b.length = n)
    (hy : y.length = n) :
    ∃ d, caffe_sub n a b y = Except.ok d ∧ d.length = n ∧
      ∀ k, k < n → d[k]? = some (a.getD k 0 - b.getD k 0) := by
  obtain ⟨d, hd, hlen, hlo, -⟩ := forLoop_frontier (fun i y => do
      let u ← readAt a i
      let v ← readAt b i
      writeAt y i (u - v)) (fun k => a.getD k 0 - b.getD k 0) y n (by omega) (by
        intro i z hi hz _
        simp only []
        rw [readAt_nat a i (by omega), bind_ok, readAt_nat b i (by omega), bind_ok,
          writeAt_nat _ _ _ (by omega)])
  exact ⟨d, hd, by omega, hlo⟩

theorem caffe_cpu_dot_ok (n : Nat) (x y : List α) (hx : n ≤ x.length) (hy : n ≤ y.length) :
    caffe_cpu_dot n x y = Except.ok (∑ k in Finset.range n, x.getD k 0 * y.getD k 0) := by
  unfold caffe_cpu_dot
  rw [forLoop_sum _ (fun k => x.getD k 0 * y.getD k 0), zero_add]
  intro i s hi
  rw [readAt_nat x i (by omega), bind_ok, readAt_nat y i (by omega), bind_ok]
  rfl

theorem caffe_cpu_axpby_ok (n : Nat) (alpha beta : α) (x y : List α) (hx : n ≤ x.length)
    (hy : n ≤ y.length) :
    ∃ g, caffe_cpu_axpby n alpha x beta y = Except.ok g ∧ g.length = y.length ∧
      ∀ k, k < n → g[k]? = some (alpha * x.getD k 0 + beta * y.getD k 0) := by
  obtain ⟨g, hg, hlen, hlo, -⟩ := forLoop_frontier (fun i y => do
      let u ← readAt x i
      let v ← readAt y i
      writeAt y i (alpha * u + beta * v)) (fun k => alpha * x.getD k 0 + beta * y.getD k 0)
      y n hy (by
        intro i z hi hz hsame
        simp only []
        rw [readAt_nat x i (by omega), bind_ok,
          readAt_of_getElem? z i (y.getD i 0)
            (by rw [hsame i (Nat.le_refl i)]; exact getElem?_eq_getD y i (by omega)),
          bind_ok, writeAt_nat _ _ _ (by omega)])
  exact ⟨g, hg, hlen, hlo⟩

/-- The state left by `EuclideanLossLayer::Forward_cpu`: the scratch buffer
holds the elementwise difference and the loss is half the mean squared error. -/
theorem euclidean_forward_eq (self : EuclideanLossLayer α) (bottom0 bottom1 : Blob α)
    (hwf : bottom0.WF) (hb1 : bottom1.data.length = bottom0.count)
    (hd : self.difference_.data.length = bottom0.count) :
    ∃ d, self.Forward_cpu bottom0 bottom1
        = Except.ok ((∑ k in Finset.range bottom0.count,
              (bottom0.data.getD k 0 - bottom1.data.getD k 0) ^ 2) / (bottom0.num : α) / 2,
            { difference_ := { self.difference_ with data := d } }, bottom0, bottom1) ∧
      d.length = bottom0.count ∧
      ∀ k, k < bottom0.count → d[k]? = some (bottom0.data.getD k 0 - bottom1.data.getD k 0) := by
  obtain ⟨d, hsub, hlen, hval⟩ := caffe_sub_ok bottom0.count bottom0.data bottom1.data
    self.difference_.data hwf.1 hb1 hd
  refine ⟨d, ?_, hlen, hval⟩
  unfold EuclideanLossLayer.Forward_cpu
  show (caffe_sub bottom0.count bottom0.data bottom1.data self.difference_.data >>= _) = _
  rw [hsub, bind_ok]
  show (caffe_cpu_dot bottom0.count d d >>= _) = _
  rw [caffe_cpu_dot_ok bottom0.count d d (by omega) (by omega), bind_ok]
  have hsum : ∑ k in Finset.range bottom0.count, d.getD k 0 * d.getD k 0
      = ∑ k in Finset.range bottom0.count,
          (bottom0.data.getD k 0 - bottom1.data.getD k 0) ^ 2 := by
    apply Finset.sum_congr rfl
    intro k hk
    rw [getD_of_getElem? d k _ (hval k (Finset.mem_range.mp hk))]
    ring
  rw [hsum]
  rfl

theorem list_eq_of_getD (a b : List α) (hlen : a.length = b.length)
    (h : ∀ k, k < a.length → a.getD k 0 = b.getD k 0) : a = b := by
  apply List.ext_getElem hlen
  intro k h1 h2
  have := h k h1
  rwa [List.getD_eq_getElem _ _ h1, List.getD_eq_getElem _ _ h2] at this

/-- C6. `EuclideanLossLayer::Forward_cpu` on same-shaped prediction and target
tensors with N ≥ 1 returns `(Σ_k (prediction[k] - target[k])^2) / (2·N)`,
and that loss is 0 iff the two tensors are equal element for element. -/
theorem euclidean_forward_loss (self : EuclideanLossLayer α) (bottom0 bottom1 : Blob α)
    (h : 1 ≤ bottom0.num) (hwf : bottom0.WF) (hb1 : bottom1.data.length = bottom0.count)
    (hd : self.difference_.data.length = bottom0.count) :
    ∃ loss layer, self.Forward_cpu bottom0 bottom1 = Except.ok (loss, layer, bottom0, bottom1) ∧
      loss = (∑ k in Finset.range bottom0.count,
          (bottom0.data.getD k 0 - bottom1.data.getD k 0) ^ 2) / (2 * (bottom0.num : α)) ∧
      (loss = 0 ↔ bottom0.data = bottom1.data) := by
  obtain ⟨d, hf, -, -⟩ := euclidean_forward_eq self bottom0 bottom1 hwf hb1 hd
  have hN : (0 : α) < (bottom0.num : α) := by exact_mod_cast h
  refine ⟨_, _, hf, by rw [div_div, mul_comm], ?_⟩
  rw [div_div, div_eq_zero_iff]
  constructor
  · intro h0
    rcases h0 with h0 | h0
    · apply list_eq_of_getD _ _ (by rw [hwf.1, hb1])
      intro k hk
      have := (Finset.sum_eq_zero_iff_of_nonneg (fun i _ => sq_nonneg _)).mp h0 k
        (Finset.mem_range.mpr (by rw [← hwf.1]; exact hk))
      exact sub_eq_zero.mp ((pow_eq_zero_iff (two_ne_zero)).mp this)
    · exact absurd h0 (by positivity)
  · intro he
    left
    apply Finset.sum_eq_zero
    intro k _
    rw [he, sub_self]
    ring

/-- C7. `EuclideanLossLayer`: on same-shaped prediction and target tensors with
N ≥ 1, `Forward_cpu` followed by `Backward_cpu` on the same batch leaves the
gradient entry `k` equal to `(prediction[k] - target[k]) / N`, whatever the
gradient buffer held before. -/
theorem euclidean_backward_gradient (self : EuclideanLossLayer α) (bottom0 bottom1 : Blob α)
    (hwf : bottom0.WF) (hb1 : bottom1.data.length = bottom0.count)
    (hd : self.difference_.data.length = bottom0.count) :
    ∃ loss layer g, self.Forward_cpu bottom0 bottom1
          = Except.ok (loss, layer, bottom0, bottom1) ∧
      layer.Backward_cpu bottom0 bottom1
          = Except.ok (layer, { bottom0 with diff := g }, bottom1) ∧
      g.length = bottom0.count ∧
      ∀ k, k < bottom0.count →
        g[k]? = some ((bottom0.data.getD k 0 - bottom1.data.getD k 0) / (bottom0.num : α)) := by
  obtain ⟨d, hf, hlen, hval⟩ := euclidean_forward_eq self bottom0 bottom1 hwf hb1 hd
  obtain ⟨g, hg, hglen, hgval⟩ := caffe_cpu_axpby_ok bottom0.count (1 / (bottom0.num : α)) 0
    d bottom0.diff (by omega) (by rw [hwf.2])
  refine ⟨_, _, g, hf, ?_, by rw [hglen, hwf.2], fun k hk => ?_⟩
  · unfold EuclideanLossLayer.Backward_cpu
    show (caffe_cpu_axpby bottom0.count (1 / (bottom0.num : α)) d 0 bottom0.diff >>= _) = _
    rw [hg]
    rfl
  · rw [hgval k hk, getD_of_getElem? d k _ (hval k hk)]
    congr 1
    ring

end Euclidean


/-! ## HingeLossLayer -/

section Hinge

variable [LinearOrderedField α] [FloorRing α]

/-- An in-place elementwise loop `x[i] = f(x[i])`. -/
theorem forLoop_mapInPlace (f : α → α) (n : Nat) (x : List α) (hn : n ≤ x.length) :
    ∃ g, forLoop (fun i x => do
          let u ← readAt x i
          writeAt x i (f u)) n x = Except.ok g ∧ g.length = x.length ∧
      ∀ k, k < n → g[k]? = some (f (x.getD k 0)) := by
  obtain ⟨g, hg, hlen, hlo, -⟩ := forLoop_frontier (fun i x => do
      let u ← readAt x i
      writeAt x i (f u)) (fun k => f (x.getD k 0)) x n hn (by
        intro i z hi hz hsame
        simp only []
        rw [readAt_of_getElem? z i (x.getD i 0)
            (by rw [hsame i (Nat.le_refl i)]; exact getElem?_eq_getD x i (by omega)),
          bind_ok, writeAt_nat _ _ _ (by omega)])
  exact ⟨g, hg, hlen, hlo⟩

theorem caffe_cpu_sign_ok (n : Nat) (x : List α) (hn : n ≤ x.length) :
    ∃ g, caffe_cpu_sign n x = Except.ok g ∧ g.length = x.length ∧
      ∀ k, k < n → g[k]? = some (caffe_sign (x.getD k 0)) :=
  forLoop_mapInPlace caffe_sign n x hn

theorem caffe_scal_ok (n : Nat) (alpha : α) (x : List α) (hn : n ≤ x.length) :
    ∃ g, caffe_scal n alpha x = Except.ok g ∧ g.length = x.length ∧
      ∀ k, k < n → g[k]? = some (alpha * x.getD k 0) :=
  forLoop_mapInPlace (fun u => alpha * u) n x hn

theorem caffe_copy_ok (n : Nat) (x y : List α) (hx : x.length = n) (hy : y.length = n) :
    caffe_copy n x y = Except.ok x := by
  obtain ⟨g, hg, hlen, hlo, -⟩ := forLoop_frontier (fun i y => do
      let u ← readAt x i
      writeAt y i u) (fun k => x.getD k 0) y n (by omega) (by
        intro i z hi hz _
        simp only []
        rw [readAt_nat x i (by omega), bind_ok, writeAt_nat _ _ _ (by omega)])
  have hgx : g = x := by
    apply list_eq_of_getD _ _ (by omega)
    intro k hk
    exact getD_of_getElem? g k _ (hlo k (by omega))
  rw [caffe_copy, hg, hgx]

theorem caffe_cpu_asum_ok (n : Nat) (x : List α) (hx : n ≤ x.length) :
    caffe_cpu_asum n x = Except.ok (∑ k in Finset.range n, |x.getD k 0|) := by
  unfold caffe_cpu_asum
  rw [forLoop_sum _ (fun k => |x.getD k 0|), zero_add]
  intro i s hi
  rw [readAt_nat x i (by omega), bind_ok]
  rfl

/-- The loop negating the entry at the true-class index of every sample. -/
theorem negateAtLabels_ok (bottom0 bottom1 : Blob α) (h : 1 ≤ bottom0.num)
    (hl : LabelsInRange bottom0 bottom1) (g0 : List α) (hg0 : g0.length = bottom0.count) :
    ∃ g, negateAtLabels bottom1.data bottom0.num bottom0.dim g0 = Except.ok g ∧
      g.length = bottom0.count ∧
      ∀ i j, i < bottom0.num → j < bottom0.dim →
        g[i * bottom0.dim + j]? = some (if (j : Int) = labelAt bottom1 i
          then g0.getD (i * bottom0.dim + j) 0 * -1 else g0.getD (i * bottom0.dim + j) 0) := by
  have hcount := Blob.count_eq bottom0 h
  obtain ⟨g, hg, hlen, hval⟩ := forLoop_rowUpdate (fun i bottom_diff => do
      let l := static_cast_int (← readAt bottom1.data i)
      let u ← readAt bottom_diff ((i : Int) * (bottom0.dim : Int) + l)
      writeAt bottom_diff ((i : Int) * (bottom0.dim : Int) + l) (u * -1))
    bottom0.dim bottom0.num (fun i => (labelAt bottom1 i).toNat)
    (fun i => g0.getD (i * bottom0.dim + (labelAt bottom1 i).toNat) 0 * -1) g0
    (by rw [hg0, hcount]) (fun i hi => (label_toNat bottom0 bottom1 hl i hi).2)
    bottom0.num (Nat.le_refl _) (by
      intro i g hi hlen hsame
      have hlt := (label_toNat bottom0 bottom1 hl i hi).2
      have hidx : i * bottom0.dim + (labelAt bottom1 i).toNat < g0.length := by
        rw [hg0, hcount]; exact idx_lt hi hlt
      simp only []
      rw [readLabel_ok bottom0 bottom1 hl i hi, bind_ok]
      change (readAt g ((i : Int) * (bottom0.dim : Int) + labelAt bottom1 i) >>= _) = _
      rw [label_idx bottom0 bottom1 hl i hi,
        readAt_of_getElem? g _ _ (by rw [hsame]; exact getElem?_eq_getD g0 _ hidx), bind_ok]
      change writeAt g ((i : Int) * (bottom0.dim : Int) + labelAt bottom1 i) _ = _
      rw [label_idx bottom0 bottom1 hl i hi, writeAt_nat _ _ _ (by omega)])
  refine ⟨g, hg, by omega, fun i j hi hj => ?_⟩
  have hidx : i * bottom0.dim + j < g0.length := by
    rw [hg0, hcount]; exact idx_lt hi hj
  rw [hval i j hi hj]
  by_cases hc : (j : Int) = labelAt bottom1 i
  · have hc2 := (label_eq_iff bottom0 bottom1 hl i j hi).mpr hc
    rw [if_pos ⟨hi, hc2⟩, if_pos hc, ← hc2]
  · have hc2 : ¬ (i < bottom0.num ∧ j = (labelAt bottom1 i).toNat) :=
      fun hh => hc ((label_eq_iff bottom0 bottom1 hl i j hi).mp hh.2)
    rw [if_neg hc2, if_neg hc]
    exact getElem?_eq_getD g0 _ hidx

/-- The nested loop `bottom_diff[i * dim + j] = max(0, 1 + bottom_diff[i * dim + j])`. -/
theorem hinge_max_loop (num dim : Nat) (g0 : List α) (hg0 : g0.length = num * dim) :
    ∃ g, forLoop (fun i bottom_diff =>
        forLoop (fun j bottom_diff => do
          let u ← readAt bottom_diff ((i : Int) * (dim : Int) + (j : Int))
          writeAt bottom_diff ((i : Int) * (dim : Int) + (j : Int)) (max 0 (1 + u)))
          dim bottom_diff) num g0 = Except.ok g ∧ g.length = num * dim ∧
      ∀ k, k < num * dim → g[k]? = some (max 0 (1 + g0.getD k 0)) := by
  obtain ⟨g, hg, hlen, hlo, -⟩ := forLoop_nested_frontier
    (fun i bottom_diff =>
        forLoop (fun j bottom_diff => do
          let u ← readAt bottom_diff ((i : Int) * (dim : Int) + (j : Int))
          writeAt bottom_diff ((i : Int) * (dim : Int) + (j : Int)) (max 0 (1 + u)))
          dim bottom_diff)
    (fun i j bottom_diff => do
          let u ← readAt bottom_diff ((i : Int) * (dim : Int) + (j : Int))
          writeAt bottom_diff ((i : Int) * (dim : Int) + (j : Int)) (max 0 (1 + u)))
    (fun k => max 0 (1 + g0.getD k 0)) g0 num dim (by omega) (fun _ _ _ => rfl) (by
      intro i j y hi hj hylen hsame
      have hidx : i * dim + j < g0.length := by rw [hg0]; exact idx_lt hi hj
      have hc : (i : Int) * (dim : Int) + (j : Int) = ((i * dim + j : Nat) : Int) := by
        push_cast; rfl
      simp only []
      rw [hc, readAt_of_getElem? y _ _
          (by rw [hsame _ (Nat.le_refl _)]; exact getElem?_eq_getD g0 _ hidx), bind_ok,
        writeAt_nat _ _ _ (by omega)])
  exact ⟨g, hg, by omega, hlo⟩

/-- The result of `HingeLossLayer::Forward_cpu`: the gradient buffer holds the
post-margin values `max(0, 1 + m_ij)` and the loss is the sum of their
absolute values over N. -/
theorem hinge_forward_eq (bottom0 bottom1 : Blob α) (h : 1 ≤ bottom0.num) (hwf : bottom0.WF)
    (hl : LabelsInRange bottom0 bottom1) :
    ∃ g, HingeLossLayer.Forward_cpu bottom0 bottom1
        = Except.ok ((∑ k in Finset.range bottom0.count, |g.getD k 0|) / (bottom0.num : α),
            { bottom0 with diff := g }, bottom1) ∧ g.length = bottom0.count ∧
      ∀ i j, i < bottom0.num → j < bottom0.dim →
        g[i * bottom0.dim + j]? = some (max 0 (1 + marginAt bottom0 bottom1 i j)) := by
  have hcount := Blob.count_eq bottom0 h
  obtain ⟨g2, hg2, hlen2, hval2⟩ := negateAtLabels_ok bottom0 bottom1 h hl bottom0.data hwf.1
  obtain ⟨g3, hg3, hlen3, hval3⟩ := hinge_max_loop bottom0.num bottom0.dim g2
    (by rw [hlen2, hcount])
  refine ⟨g3, ?_, by rw [hlen3, hcount], fun i j hi hj => ?_⟩
  · unfold HingeLossLayer.Forward_cpu
    show (intDiv bottom0.count bottom0.num >>= _) = _
    rw [intDiv_count bottom0 h, bind_ok]
    show (caffe_copy bottom0.count bottom0.data bottom0.diff >>= _) = _
    rw [caffe_copy_ok _ _ _ hwf.1 hwf.2, bind_ok, hg2, bind_ok]
    show (forLoop _ bottom0.num g2 >>= _) = _
    rw [hg3, bind_ok, caffe_cpu_asum_ok _ _ (by rw [hlen3, hcount])]
    rfl
  · rw [hval3 _ (idx_lt hi hj), getD_of_getElem? g2 _ _ (hval2 i j hi hj)]
    rfl

/-- The result of `HingeLossLayer::Backward_cpu` on a gradient buffer `d`:
the sign of every entry, negated at the true-class index, scaled by `1/N`. -/
theorem hinge_backward_eq (bottom0 bottom1 : Blob α) (h : 1 ≤ bottom0.num) (hwf : bottom0.WF)
    (hl : LabelsInRange bottom0 bottom1) :
    ∃ g, HingeLossLayer.Backward_cpu bottom0 bottom1
        = Except.ok ({ bottom0 with diff := g }, bottom1) ∧ g.length = bottom0.count ∧
      ∀ i j, i < bottom0.num → j < bottom0.dim →
        g[i * bottom0.dim + j]? = some (1 / (bottom0.num : α) *
          (if (j : Int) = labelAt bottom1 i
            then caffe_sign (bottom0.diff.getD (i * bottom0.dim + j) 0) * -1
            else caffe_sign (bottom0.diff.getD (i * bottom0.dim + j) 0))) := by
  have hcount := Blob.count_eq bottom0 h
  obtain ⟨g1, hg1, hlen1, hval1⟩ := caffe_cpu_sign_ok bottom0.count bottom0.diff
    (by rw [hwf.2])
  obtain ⟨g2, hg2, hlen2, hval2⟩ := negateAtLabels_ok bottom0 bottom1 h hl g1
    (by rw [hlen1, hwf.2])
  obtain ⟨g3, hg3, hlen3, hval3⟩ := caffe_scal_ok bottom0.count (1 / (bottom0.num : α)) g2
    (by rw [hlen2])
  refine ⟨g3, ?_, by rw [hlen3, hlen2], fun i j hi hj => ?_⟩
  · unfold HingeLossLayer.Backward_cpu
    show (intDiv bottom0.count bottom0.num >>= _) = _
    rw [intDiv_count bottom0 h, bind_ok]
    show (caffe_cpu_sign bottom0.count bottom0.diff >>= _) = _
    rw [hg1, bind_ok, hg2, bind_ok, hg3]
    rfl
  · have hidx : i * bottom0.dim + j < bottom0.count := by
      rw [hcount]; exact idx_lt hi hj
    rw [hval3 _ hidx, getD_of_getElem? g2 _ _ (hval2 i j hi hj),
      getD_of_getElem? g1 _ _ (hval1 _ hidx)]

theorem max_zero_eq_zero_iff (x : α) : max 0 x = 0 ↔ x ≤ 0 := by
  constructor
  · intro hx
    rw [← hx]
    exact le_max_right 0 x
  · exact max_eq_left

theorem caffe_sign_max (x : α) : caffe_sign (max 0 x) = if 0 < x then 1 else 0 := by
  unfold caffe_sign
  by_cases hx : 0 < x
  · rw [max_eq_right hx.le, if_pos hx, if_pos hx]
  · rw [max_eq_left (not_lt.mp hx), if_neg (lt_irrefl 0), if_neg (lt_irrefl 0), if_neg hx]

/-- The post-margin entry of `[i, j]` is 0 exactly when the score is on the
right side of its own margin: at least 1 for the true class, at most -1 for
any other class. -/
theorem hinge_entry_zero_iff (bottom0 bottom1 : Blob α) (i j : Nat) :
    max 0 (1 + marginAt bottom0 bottom1 i j) = 0 ↔
      if (j : Int) = labelAt bottom1 i then 1 ≤ predAt bottom0 i j
      else predAt bottom0 i j ≤ -1 := by
  rw [max_zero_eq_zero_iff, marginAt]
  by_cases hc : (j : Int) = labelAt bottom1 i
  · rw [if_pos hc, if_pos hc]
    constructor <;> intro hx <;> linarith
  · rw [if_neg hc, if_neg hc]
    constructor <;> intro hx <;> linarith

/-- Every entry of a sample satisfies its margin condition iff the true-class
score is at least 1 and every other score is at most -1. -/
theorem hinge_row_cond_iff (bottom0 bottom1 : Blob α) (hl : LabelsInRange bottom0 bottom1)
    (i : Nat) (hi : i < bottom0.num) :
    (∀ j, j < bottom0.dim → max 0 (1 + marginAt bottom0 bottom1 i j) = 0) ↔
      (1 ≤ predAt bottom0 i (labelAt bottom1 i).toNat ∧
        ∀ j, j < bottom0.dim → (j : Int) ≠ labelAt bottom1 i → predAt bottom0 i j ≤ -1) := by
  obtain ⟨hcast, hlt⟩ := label_toNat bottom0 bottom1 hl i hi
  constructor
  · intro hall
    refine ⟨?_, fun j hj hne => ?_⟩
    · have := (hinge_entry_zero_iff bottom0 bottom1 i _).mp (hall _ hlt)
      rwa [if_pos hcast] at this
    · have := (hinge_entry_zero_iff bottom0 bottom1 i j).mp (hall j hj)
      rwa [if_neg hne] at this
  · rintro ⟨h1, h2⟩ j hj
    rw [hinge_entry_zero_iff]
    by_cases hc : (j : Int) = labelAt bottom1 i
    · rw [if_pos hc]
      have hj2 : j = (labelAt bottom1 i).toNat :=
        (label_eq_iff bottom0 bottom1 hl i j hi).mpr hc
      rw [hj2]; exact h1
    · rw [if_neg hc]; exact h2 j hj hc

/-- C8 (amended). `HingeLossLayer::Forward_cpu` on a batch with N ≥ 1 and
labels in `[0, dim)`: the sum of the post-margin entries of row `i` is 0 iff
the true-class score of sample `i` is at least 1 and every other class score
of that sample is at most -1; the returned loss is 0 iff that holds for every
sample (for a single-sample batch: iff it holds for sample 0). -/
theorem hinge_forward_zero_iff (bottom0 bottom1 : Blob α) (h : 1 ≤ bottom0.num)
    (hwf : bottom0.WF) (hl : LabelsInRange bottom0 bottom1) :
    ∃ loss g, HingeLossLayer.Forward_cpu bottom0 bottom1
        = Except.ok (loss, { bottom0 with diff := g }, bottom1) ∧
      (∀ i, i < bottom0.num →
        (∑ j in Finset.range bottom0.dim, g.getD (i * bottom0.dim + j) 0 = 0 ↔
          (1 ≤ predAt bottom0 i (labelAt bottom1 i).toNat ∧
            ∀ j, j < bottom0.dim → (j : Int) ≠ labelAt bottom1 i →
              predAt bottom0 i j ≤ -1))) ∧
      (loss = 0 ↔ ∀ i, i < bottom0.num →
          (1 ≤ predAt bottom0 i (labelAt bottom1 i).toNat ∧
            ∀ j, j < bottom0.dim → (j : Int) ≠ labelAt bottom1 i →
              predAt bottom0 i j ≤ -1)) := by
  obtain ⟨g, hf, hlen, hval⟩ := hinge_forward_eq bottom0 bottom1 h hwf hl
  have hcount := Blob.count_eq bottom0 h
  have hN : (0 : α) < (bottom0.num : α) := by exact_mod_cast h
  have hentry : ∀ i j, i < bottom0.num → j < bottom0.dim →
      g.getD (i * bottom0.dim + j) 0 = max 0 (1 + marginAt bottom0 bottom1 i j) :=
    fun i j hi hj => getD_of_getElem? g _ _ (hval i j hi hj)
  refine ⟨_, g, hf, fun i hi => ?_, ?_⟩
  · rw [← hinge_row_cond_iff bottom0 bottom1 hl i hi,
      Finset.sum_eq_zero_iff_of_nonneg (fun j hj => by
        rw [hentry i j hi (Finset.mem_range.mp hj)]; exact le_max_left _ _)]
    constructor
    · intro hall j hj
      rw [← hentry i j hi hj]
      exact hall j (Finset.mem_range.mpr hj)
    · intro hall j hj
      rw [hentry i j hi (Finset.mem_range.mp hj)]
      exact hall j (Finset.mem_range.mp hj)
  · rw [div_eq_zero_iff, Finset.sum_eq_zero_iff_of_nonneg (fun k _ => abs_nonneg _)]
    constructor
    · intro h0 i hi
      rw [← hinge_row_cond_iff bottom0 bottom1 hl i hi]
      intro j hj
      rcases h0 with h0 | h0
      · have := h0 (i * bottom0.dim + j)
          (Finset.mem_range.mpr (by rw [hcount]; exact idx_lt hi hj))
        rw [← hentry i j hi hj]
        exact abs_eq_zero.mp this
      · exact absurd h0 (ne_of_gt hN)
    · intro hall
      left
      intro k hk
      have hk2 : k < bottom0.num * bottom0.dim := by
        rw [← hcount]; exact Finset.mem_range.mp hk
      have hd : 0 < bottom0.dim := by
        rcases Nat.eq_zero_or_pos bottom0.dim with h0 | h0
        · rw [h0] at hk2; omega
        · exact h0
      have hi : k / bottom0.dim < bottom0.num := by
        apply Nat.div_lt_of_lt_mul
        rwa [Nat.mul_comm]
      have hj : k % bottom0.dim < bottom0.dim := Nat.mod_lt _ hd
      have hk3 : k = k / bottom0.dim * bottom0.dim + k % bottom0.dim := by
        rw [Nat.mul_comm]; exact (Nat.div_add_mod k bottom0.dim).symm
      rw [hk3, hentry _ _ hi hj,
        (hinge_row_cond_iff bottom0 bottom1 hl _ hi).mpr (hall _ hi) _ hj, abs_zero]

/-- C9 (amended). `HingeLossLayer`: on a batch with N ≥ 1 and labels in
`[0, dim)`, `Forward_cpu` followed by `Backward_cpu` leaves the gradient entry
at `[i, j]` equal to `s_ij * sign(max(0, 1 + m_ij)) / N`, that is `s_ij / N`
when `1 + m_ij > 0` and 0 otherwise, where `m_ij` is the raw margin value and
`s_ij` is -1 at the true class and +1 elsewhere. -/
theorem hinge_backward_gradient (bottom0 bottom1 : Blob α) (h : 1 ≤ bottom0.num)
    (hwf : bottom0.WF) (hl : LabelsInRange bottom0 bottom1) :
    ∃ loss d g, HingeLossLayer.Forward_cpu bottom0 bottom1
        = Except.ok (loss, { bottom0 with diff := d }, bottom1) ∧
      HingeLossLayer.Backward_cpu { bottom0 with diff := d } bottom1
        = Except.ok ({ bottom0 with diff := g }, bottom1) ∧
      g.length = bottom0.count ∧
      ∀ i j, i < bottom0.num → j < bottom0.dim →
        g[i * bottom0.dim + j]? = some ((if (j : Int) = labelAt bottom1 i then -1 else 1)
          * caffe_sign (max 0 (1 + marginAt bottom0 bottom1 i j)) / (bottom0.num : α)) ∧
        caffe_sign (max 0 (1 + marginAt bottom0 bottom1 i j))
          = if 0 < 1 + marginAt bottom0 bottom1 i j then 1 else 0 := by
  obtain ⟨d, hf, hlen, hval⟩ := hinge_forward_eq bottom0 bottom1 h hwf hl
  obtain ⟨g, hb, hglen, hgval⟩ := hinge_backward_eq { bottom0 with diff := d } bottom1 h
    ⟨hwf.1, hlen⟩ hl
  refine ⟨_, d, g, hf, hb, hglen, fun i j hi hj => ⟨?_, caffe_sign_max _⟩⟩
  have hgval2 : ∀ i j, i < bottom0.num → j < bottom0.dim →
      g[i * bottom0.dim + j]? = some (1 / (bottom0.num : α) *
        (if (j : Int) = labelAt bottom1 i
          then caffe_sign (d.getD (i * bottom0.dim + j) 0) * -1
          else caffe_sign (d.getD (i * bottom0.dim + j) 0))) := hgval
  have := hgval2 i j hi hj
  rw [getD_of_getElem? d _ _ (hval i j hi hj)] at this
  rw [this]
  congr 1
  by_cases hc : (j : Int) = labelAt bottom1 i
  · rw [if_pos hc, if_pos hc]; ring
  · rw [if_neg hc, if_neg hc]; ring

end Hinge


/-! ## Concrete batches for the hinge loss -/

theorem hingePred_forward : HingeLossLayer.Forward_cpu hingePred hingeLabel
    = Except.ok (9 / 10, { hingePred with diff := [1/2, 2/5] }, hingeLabel) := by
  simp [HingeLossLayer.Forward_cpu, forLoop, hingePred, hingeLabel, intDiv, Blob.count,
    caffe_copy, negateAtLabels, caffe_cpu_asum, readAt, writeAt, static_cast_int]
  rw [abs_of_pos (by norm_num), abs_of_pos (by norm_num)]
  norm_num

theorem hingePred_dim : hingePred.dim = 2 := by
  simp [Blob.dim, Blob.count, hingePred]

theorem hingeLabel_zero : labelAt hingeLabel 0 = 0 := by
  simp [hingeLabel, labelAt, static_cast_int]

/-- Counterexample to C8 as stated: the single sample with scores `[1/2, -3/5]`
and true class 0 beats the other class by more than 1, yet its loss is 9/10. -/
theorem hinge_forward_zero_iff_counterexample :
    ∃ loss st, HingeLossLayer.Forward_cpu hingePred hingeLabel = Except.ok (loss, st) ∧
      ¬ (loss = 0 ↔ ∀ j, j < hingePred.dim → (j : Int) ≠ labelAt hingeLabel 0 →
          predAt hingePred 0 j + 1 ≤ predAt hingePred 0 (labelAt hingeLabel 0).toNat) := by
  refine ⟨_, _, hingePred_forward, fun hiff => ?_⟩
  have hcond : ∀ j, j < hingePred.dim → (j : Int) ≠ labelAt hingeLabel 0 →
      predAt hingePred 0 j + 1 ≤ predAt hingePred 0 (labelAt hingeLabel 0).toNat := by
    intro j hj hne
    rw [hingePred_dim] at hj
    rw [hingeLabel_zero] at hne ⊢
    interval_cases j
    · exact absurd rfl hne
    · simp only [predAt, hingePred_dim]
      simp only [hingePred]
      norm_num
  have := hiff.mpr hcond
  norm_num at this

theorem hingePred2_forward : HingeLossLayer.Forward_cpu hingePred2 hingeLabel
    = Except.ok (1, { hingePred2 with diff := [0, 1] }, hingeLabel) := by
  simp [HingeLossLayer.Forward_cpu, forLoop, hingePred2, hingeLabel, intDiv, Blob.count,
    caffe_copy, negateAtLabels, caffe_cpu_asum, readAt, writeAt, static_cast_int]

theorem hingePred2_backward :
    HingeLossLayer.Backward_cpu { hingePred2 with diff := [0, 1] } hingeLabel
      = Except.ok ({ hingePred2 with diff := [0, 1] }, hingeLabel) := by
  simp [HingeLossLayer.Backward_cpu, forLoop, hingePred2, hingeLabel, intDiv, Blob.count,
    caffe_cpu_sign, caffe_sign, caffe_scal, negateAtLabels, readAt, writeAt, static_cast_int]

theorem hingePred2_dim : hingePred2.dim = 2 := by
  simp [Blob.dim, Blob.count, hingePred2]

/-- Counterexample to C9 as stated: for the single sample with scores `[2, 0]`
and true class 0 the raw margin of entry `[0, 0]` is -2, so the claimed
gradient `s * sign(1 + m) / N` is 1, but the two passes leave 0 there. -/
theorem hinge_backward_gradient_counterexample :
    ∃ loss d g, HingeLossLayer.Forward_cpu hingePred2 hingeLabel
        = Except.ok (loss, { hingePred2 with diff := d }, hingeLabel) ∧
      HingeLossLayer.Backward_cpu { hingePred2 with diff := d } hingeLabel
        = Except.ok ({ hingePred2 with diff := g }, hingeLabel) ∧
      g[0 * hingePred2.dim + 0]? = some 0 ∧
      g[0 * hingePred2.dim + 0]? ≠ some ((if ((0 : Nat) : Int) = labelAt hingeLabel 0 then -1 else 1)
          * caffe_sign (1 + marginAt hingePred2 hingeLabel 0 0) / (hingePred2.num : ℚ)) := by
  have hclaim : (if ((0 : Nat) : Int) = labelAt hingeLabel 0 then -1 else 1)
      * caffe_sign (1 + marginAt hingePred2 hingeLabel 0 0) / (hingePred2.num : ℚ) = 1 := by
    rw [marginAt, hingeLabel_zero, predAt, hingePred2_dim]
    simp only [hingePred2, caffe_sign]
    norm_num
  refine ⟨_, _, _, hingePred2_forward, hingePred2_backward, rfl, ?_⟩
  rw [hclaim]
  show some (0 : ℚ) ≠ some 1
  simp


/-! ## AccuracyLayer -/

section Accuracy

variable [LinearOrderedField α] [FloorRing α]

theorem bind_eq_ok {β γ : Type} (m : Except Fault β) (f : β → Except Fault γ) (v : γ)
    (h : (m >>= f) = Except.ok v) : ∃ a, m = Except.ok a ∧ f a = Except.ok v := by
  cases m with
  | error e => exact absurd h (by simp)
  | ok a => exact ⟨a, rfl, h⟩

/-- The arg-max scan of a sample of a well-formed batch returns. -/
theorem argmaxScan_ok (bottom0 : Blob α) (h : 1 ≤ bottom0.num) (hwf : bottom0.WF)
    (i : Nat) (hi : i < bottom0.num) :
    ∃ st, argmaxScan bottom0.data bottom0.dim i = Except.ok st := by
  obtain ⟨st, hst, -⟩ := forLoop_inv (fun j (st : α × Int) => do
      let x ← readAt bottom0.data ((i : Int) * (bottom0.dim : Int) + (j : Int))
      if x > st.1 then pure (x, (j : Int)) else pure st)
    (fun _ _ => True) bottom0.dim (-FLT_MAX, 0) trivial (by
      intro j st hj _
      simp only []
      rw [readPred_ok bottom0 h hwf i j hi hj, bind_ok]
      by_cases hc : predAt bottom0 i j > st.1
      · exact ⟨_, if_pos hc, trivial⟩
      · exact ⟨_, if_neg hc, trivial⟩)
  exact ⟨st, hst⟩

/-- The outer loop of `AccuracyLayer::Forward_cpu` returns on a well-formed batch. -/
theorem accuracy_loop_ok (log : α → α) (bottom0 bottom1 : Blob α) (h : 1 ≤ bottom0.num)
    (hwf : bottom0.WF) (hl : LabelsInRange bottom0 bottom1) :
    ∃ st, forLoop (fun i (st : α × α) => do
        let (_, max_id) ← argmaxScan bottom0.data bottom0.dim i
        let label := static_cast_int (← readAt bottom1.data i)
        let accuracy := if max_id = label then st.1 + 1 else st.1
        let prob ← clampedProb bottom0.data bottom1.data bottom0.dim i
        pure (accuracy, st.2 - log prob)) bottom0.num (0, 0) = Except.ok st := by
  obtain ⟨st, hst, -⟩ := forLoop_inv (fun i (st : α × α) => do
        let (_, max_id) ← argmaxScan bottom0.data bottom0.dim i
        let label := static_cast_int (← readAt bottom1.data i)
        let accuracy := if max_id = label then st.1 + 1 else st.1
        let prob ← clampedProb bottom0.data bottom1.data bottom0.dim i
        pure (accuracy, st.2 - log prob))
    (fun _ _ => True) bottom0.num (0, 0) trivial (by
      intro i st hi _
      obtain ⟨⟨mv, mi⟩, hscan⟩ := argmaxScan_ok bottom0 h hwf i hi
      simp only []
      rw [hscan, bind_ok]
      simp only []
      rw [readLabel_ok bottom0 bottom1 hl i hi, bind_ok,
        clampedProb_ok bottom0 bottom1 h hwf hl i hi, bind_ok]
      exact ⟨_, rfl, trivial⟩)
  exact ⟨st, hst⟩

/-- C10. `AccuracyLayer::Forward_cpu`: whenever the pass returns, the scalar
is 0 and both input blobs (values and gradient buffers) and the gradient buffer
of the output blob are as before the call; and it does return on every
well-formed batch (N ≥ 1, labels in `[0, dim)`, output blob of at least 2
elements), writing only elements 0 and 1 of the output values. -/
theorem accuracy_forward_frame (log : α → α) (bottom0 bottom1 top0 : Blob α) :
    (∀ r b0 b1 t0, AccuracyLayer.Forward_cpu log bottom0 bottom1 top0
        = Except.ok (r, b0, b1, t0) →
      r = 0 ∧ b0 = bottom0 ∧ b1 = bottom1 ∧ t0.diff = top0.diff) ∧
    (1 ≤ bottom0.num → bottom0.WF → LabelsInRange bottom0 bottom1 → 2 ≤ top0.data.length →
      ∃ td, AccuracyLayer.Forward_cpu log bottom0 bottom1 top0
          = Except.ok (0, bottom0, bottom1, { top0 with data := td }) ∧
        td.length = top0.data.length ∧ ∀ k, 2 ≤ k → td[k]? = top0.data[k]?) := by
  constructor
  · intro r b0 b1 t0 hrun
    unfold AccuracyLayer.Forward_cpu at hrun
    obtain ⟨dim, -, hrun⟩ := bind_eq_ok _ _ _ hrun
    obtain ⟨⟨acc, lp⟩, -, hrun⟩ := bind_eq_ok _ _ _ hrun
    obtain ⟨td1, -, hrun⟩ := bind_eq_ok _ _ _ hrun
    obtain ⟨td2, -, hrun⟩ := bind_eq_ok _ _ _ hrun
    simp only [pure_eq_ok, Except.ok.injEq, Prod.mk.injEq] at hrun
    obtain ⟨h1, h2, h3, h4⟩ := hrun
    exact ⟨h1.symm, h2.symm, h3.symm, by rw [← h4]⟩
  · intro h hwf hl htop
    obtain ⟨⟨acc, lp⟩, hloop⟩ := accuracy_loop_ok log bottom0 bottom1 h hwf hl
    refine ⟨(top0.data.set 0 (acc / (bottom0.num : α))).set 1 (lp / (bottom0.num : α)),
      ?_, by simp, ?_⟩
    · unfold AccuracyLayer.Forward_cpu
      show (intDiv bottom0.count bottom0.num >>= _) = _
      rw [intDiv_count bottom0 h, bind_ok]
      show (forLoop _ bottom0.num ((0 : α), (0 : α)) >>= _) = _
      rw [hloop, bind_ok]
      have h0 : writeAt top0.data 0 (acc / (bottom0.num : α))
          = Except.ok (top0.data.set 0 (acc / (bottom0.num : α))) :=
        writeAt_nat top0.data 0 _ (by omega)
      have h1 : writeAt (top0.data.set 0 (acc / (bottom0.num : α))) 1 (lp / (bottom0.num : α))
          = Except.ok ((top0.data.set 0 (acc / (bottom0.num : α))).set 1
              (lp / (bottom0.num : α))) :=
        writeAt_nat _ 1 _ (by simp; omega)
      show (writeAt top0.data 0 (acc / (bottom0.num : α)) >>= _) = _
      rw [h0, bind_ok]
      show (writeAt _ 1 (lp / (bottom0.num : α)) >>= _) = _
      rw [h1, bind_ok]
      rfl
    · intro k hk
      rw [List.getElem?_set, if_neg (by omega), List.getElem?_set, if_neg (by omega)]

end Accuracy


/-! ## Concrete instances of the conditional theorems -/

theorem euclidean_forward_loss_witness :
    (1 ≤ (exPred ℚ [5, 5, 5, 5, 5, 5]).num ∧ (exPred ℚ [5, 5, 5, 5, 5, 5]).WF ∧
      exTarget.data.length = (exPred ℚ [5, 5, 5, 5, 5, 5]).count ∧
      exEuclidean.difference_.data.length = (exPred ℚ [5, 5, 5, 5, 5, 5]).count) ∧
    ∃ loss layer, exEuclidean.Forward_cpu (exPred ℚ [5, 5, 5, 5, 5, 5]) exTarget
        = Except.ok (loss, layer, exPred ℚ [5, 5, 5, 5, 5, 5], exTarget) ∧
      loss = (∑ k in Finset.range (exPred ℚ [5, 5, 5, 5, 5, 5]).count,
          ((exPred ℚ [5, 5, 5, 5, 5, 5]).data.getD k 0 - exTarget.data.getD k 0) ^ 2)
            / (2 * ((exPred ℚ [5, 5, 5, 5, 5, 5]).num : ℚ)) ∧
      (loss = 0 ↔ (exPred ℚ [5, 5, 5, 5, 5, 5]).data = exTarget.data) :=
  ⟨⟨exPred_num _, exPred_wf _ rfl, rfl, rfl⟩,
    euclidean_forward_loss exEuclidean _ exTarget (exPred_num _) (exPred_wf _ rfl) rfl rfl⟩

theorem euclidean_backward_gradient_witness :
    ((exPred ℚ [7, 7, 7, 7, 7, 7]).WF ∧
      exTarget.data.length = (exPred ℚ [7, 7, 7, 7, 7, 7]).count ∧
      exEuclidean.difference_.data.length = (exPred ℚ [7, 7, 7, 7, 7, 7]).count) ∧
    ∃ loss layer g, exEuclidean.Forward_cpu (exPred ℚ [7, 7, 7, 7, 7, 7]) exTarget
          = Except.ok (loss, layer, exPred ℚ [7, 7, 7, 7, 7, 7], exTarget) ∧
      layer.Backward_cpu (exPred ℚ [7, 7, 7, 7, 7, 7]) exTarget
          = Except.ok (layer, { exPred ℚ [7, 7, 7, 7, 7, 7] with diff := g }, exTarget) ∧
      g.length = (exPred ℚ [7, 7, 7, 7, 7, 7]).count ∧
      ∀ k, k < (exPred ℚ [7, 7, 7, 7, 7, 7]).count →
        g[k]? = some (((exPred ℚ [7, 7, 7, 7, 7, 7]).data.getD k 0 - exTarget.data.getD k 0)
          / ((exPred ℚ [7, 7, 7, 7, 7, 7]).num : ℚ)) :=
  ⟨⟨exPred_wf _ rfl, rfl, rfl⟩,
    euclidean_backward_gradient exEuclidean _ exTarget (exPred_wf _ rfl) rfl rfl⟩

theorem hingePred_wf : hingePred.WF := ⟨rfl, rfl⟩

theorem hingePred2_wf : hingePred2.WF := ⟨rfl, rfl⟩

theorem hingeLabels_inRange : LabelsInRange hingePred hingeLabel := by
  intro i hi
  have hi2 : i < 1 := hi
  rw [hingePred_dim]
  interval_cases i
  simp [hingeLabel, labelAt, static_cast_int]

theorem hingeLabels2_inRange : LabelsInRange hingePred2 hingeLabel := by
  intro i hi
  have hi2 : i < 1 := hi
  rw [hingePred2_dim]
  interval_cases i
  simp [hingeLabel, labelAt, static_cast_int]

theorem hinge_forward_zero_iff_witness :
    (1 ≤ hingePred.num ∧ hingePred.WF ∧ LabelsInRange hingePred hingeLabel) ∧
    ∃ loss g, HingeLossLayer.Forward_cpu hingePred hingeLabel
        = Except.ok (loss, { hingePred with diff := g }, hingeLabel) ∧
      (∀ i, i < hingePred.num →
        (∑ j in Finset.range hingePred.dim, g.getD (i * hingePred.dim + j) 0 = 0 ↔
          (1 ≤ predAt hingePred i (labelAt hingeLabel i).toNat ∧
            ∀ j, j < hingePred.dim → (j : Int) ≠ labelAt hingeLabel i →
              predAt hingePred i j ≤ -1))) ∧
      (loss = 0 ↔ ∀ i, i < hingePred.num →
          (1 ≤ predAt hingePred i (labelAt hingeLabel i).toNat ∧
            ∀ j, j < hingePred.dim → (j : Int) ≠ labelAt hingeLabel i →
              predAt hingePred i j ≤ -1)) :=
  ⟨⟨Nat.le_refl 1, hingePred_wf, hingeLabels_inRange⟩,
    hinge_forward_zero_iff hingePred hingeLabel (Nat.le_refl 1) hingePred_wf
      hingeLabels_inRange⟩

theorem hinge_backward_gradient_witness :
    (1 ≤ hingePred2.num ∧ hingePred2.WF ∧ LabelsInRange hingePred2 hingeLabel) ∧
    ∃ loss d g, HingeLossLayer.Forward_cpu hingePred2 hingeLabel
        = Except.ok (loss, { hingePred2 with diff := d }, hingeLabel) ∧
      HingeLossLayer.Backward_cpu { hingePred2 with diff := d } hingeLabel
        = Except.ok ({ hingePred2 with diff := g }, hingeLabel) ∧
      g.length = hingePred2.count ∧
      ∀ i j, i < hingePred2.num → j < hingePred2.dim →
        g[i * hingePred2.dim + j]? = some ((if (j : Int) = labelAt hingeLabel i then -1 else 1)
          * caffe_sign (max 0 (1 + marginAt hingePred2 hingeLabel i j)) / (hingePred2.num : ℚ)) ∧
        caffe_sign (max 0 (1 + marginAt hingePred2 hingeLabel i j))
          = if 0 < 1 + marginAt hingePred2 hingeLabel i j then 1 else 0 :=
  ⟨⟨Nat.le_refl 1, hingePred2_wf, hingeLabels2_inRange⟩,
    hinge_backward_gradient hingePred2 hingeLabel (Nat.le_refl 1) hingePred2_wf
      hingeLabels2_inRange⟩

theorem accuracy_forward_frame_witness :
    (1 ≤ (exPred ℚ [3, 3, 3, 3, 3, 3]).num ∧ (exPred ℚ [3, 3, 3, 3, 3, 3]).WF ∧
      LabelsInRange (exPred ℚ [3, 3, 3, 3, 3, 3]) (exLabel ℚ) ∧ 2 ≤ exTop.data.length) ∧
    ∃ td, AccuracyLayer.Forward_cpu (fun x => x - 1) (exPred ℚ [3, 3, 3, 3, 3, 3]) (exLabel ℚ)
          exTop
        = Except.ok (0, exPred ℚ [3, 3, 3, 3, 3, 3], exLabel ℚ, { exTop with data := td }) ∧
      td.length = exTop.data.length ∧ ∀ k, 2 ≤ k → td[k]? = exTop.data[k]? :=
  ⟨⟨exPred_num _, exPred_wf _ rfl, exLabels_inRange _, Nat.le_refl 2⟩,
    (accuracy_forward_frame (fun x => x - 1) (exPred ℚ [3, 3, 3, 3, 3, 3]) (exLabel ℚ)
      exTop).2 (exPred_num _) (exPred_wf _ rfl) (exLabels_inRange _) (Nat.le_refl 2)⟩


/-! ## AccuracyLayer: the arg-max scan and the two outputs -/

section AccuracyOutputs

variable [LinearOrderedField α] [FloorRing α]

/-- What the arg-max scan of sample `i` returns: either no score exceeded the
initial `maxval = -FLT_MAX` and the pair is still `(-FLT_MAX, 0)`, or `max_id`
is the lowest index holding the highest score. -/
theorem argmaxScan_spec (bottom0 : Blob α) (h : 1 ≤ bottom0.num) (hwf : bottom0.WF)
    (i : Nat) (hi : i < bottom0.num) :
    ∃ st, argmaxScan bottom0.data bottom0.dim i = Except.ok st ∧
      ((st.1 = -FLT_MAX ∧ st.2 = 0 ∧ ∀ j, j < bottom0.dim → predAt bottom0 i j ≤ -FLT_MAX) ∨
       ∃ j0, j0 < bottom0.dim ∧ st.2 = (j0 : Int) ∧ st.1 = predAt bottom0 i j0 ∧
        -FLT_MAX < predAt bottom0 i j0 ∧
        (∀ j, j < bottom0.dim → predAt bottom0 i j ≤ predAt bottom0 i j0) ∧
        ∀ j, j < j0 → predAt bottom0 i j < predAt bottom0 i j0) := by
  refine forLoop_inv (fun j (st : α × Int) => do
      let x ← readAt bottom0.data ((i : Int) * (bottom0.dim : Int) + (j : Int))
      if x > st.1 then pure (x, (j : Int)) else pure st)
    (fun n (st : α × Int) =>
      (st.1 = -FLT_MAX ∧ st.2 = 0 ∧ ∀ j, j < n → predAt bottom0 i j ≤ -FLT_MAX) ∨
       ∃ j0, j0 < n ∧ st.2 = (j0 : Int) ∧ st.1 = predAt bottom0 i j0 ∧
        -FLT_MAX < predAt bottom0 i j0 ∧
        (∀ j, j < n → predAt bottom0 i j ≤ predAt bottom0 i j0) ∧
        ∀ j, j < j0 → predAt bottom0 i j < predAt bottom0 i j0)
    bottom0.dim (-FLT_MAX, 0) (Or.inl ⟨rfl, rfl, fun j hj => absurd hj (Nat.not_lt_zero j)⟩) ?_
  intro n st hn hP
  simp only []
  rw [readPred_ok bottom0 h hwf i n hi hn, bind_ok]
  have hsplit : ∀ j, j < n + 1 → j < n ∨ j = n := fun j hj => by omega
  by_cases hc : predAt bottom0 i n > st.1
  · refine ⟨(predAt bottom0 i n, (n : Int)), if_pos hc, Or.inr ⟨n, Nat.lt_succ_self n, rfl, rfl,
      ?_, ?_, ?_⟩⟩
    · rcases hP with ⟨h1, -, -⟩ | ⟨j0, -, -, h1, h2, -, -⟩
      · rw [← h1]; exact hc
      · exact lt_trans h2 (by rw [← h1]; exact hc)
    · intro j hj
      rcases hsplit j hj with hj2 | hj2
      · rcases hP with ⟨h1, -, h3⟩ | ⟨j0, -, -, h1, -, h3, -⟩
        · exact le_of_lt (lt_of_le_of_lt (h3 j hj2) (by rw [← h1]; exact hc))
        · exact le_of_lt (lt_of_le_of_lt (h3 j hj2) (by rw [← h1]; exact hc))
      · rw [hj2]
    · intro j hj
      rcases hP with ⟨h1, -, h3⟩ | ⟨j0, -, -, h1, -, h3, -⟩
      · exact lt_of_le_of_lt (h3 j hj) (by rw [← h1]; exact hc)
      · exact lt_of_le_of_lt (h3 j hj) (by rw [← h1]; exact hc)
  · refine ⟨st, if_neg hc, ?_⟩
    have hle : predAt bottom0 i n ≤ st.1 := not_lt.mp hc
    rcases hP with ⟨h1, h2, h3⟩ | ⟨j0, hj0, h1, h2, h3, h4, h5⟩
    · refine Or.inl ⟨h1, h2, fun j hj => ?_⟩
      rcases hsplit j hj with hj2 | hj2
      · exact h3 j hj2
      · rw [hj2, ← h1]; exact hle
    · refine Or.inr ⟨j0, by omega, h1, h2, h3, fun j hj => ?_, h5⟩
      rcases hsplit j hj with hj2 | hj2
      · exact h4 j hj2
      · rw [hj2, ← h2]; exact hle

theorem maxIdAt_eq (bottom0 : Blob α) (i : Nat) (st : α × Int)
    (hst : argmaxScan bottom0.data bottom0.dim i = Except.ok st) : maxIdAt bottom0 i = st.2 := by
  rw [maxIdAt, hst]

theorem tieRow_dim : (tieRow α).dim = 3 := by
  simp [Blob.dim, Blob.count, tieRow]

theorem tieRow_scan : argmaxScan (tieRow α).data (tieRow α).dim 0
    = Except.ok ((1 / 2 : α), (0 : Int)) := by
  have hlt : -(FLT_MAX : α) < 2⁻¹ := by
    unfold FLT_MAX
    have h1 : (0 : α) < (2 ^ 24 - 1) * 2 ^ 104 := by norm_num
    have h2 : (0 : α) < 2⁻¹ := by norm_num
    linarith
  rw [tieRow_dim]
  simp [argmaxScan, forLoop, tieRow, readAt, hlt]

/-- C11 (amended). The arg-max scan of `AccuracyLayer::Forward_cpu` on a sample
row in which some score exceeds `-FLT_MAX`: it returns, and `max_id` is the
lowest index whose score equals the maximum score of the row (strict
greater-than, so the first element wins ties); on the row `[0.5, 0.5, 0.5]`
it is 0. -/
theorem accuracy_argmax_lowest (bottom0 : Blob α) (h : 1 ≤ bottom0.num) (hwf : bottom0.WF)
    (i : Nat) (hi : i < bottom0.num)
    (hex : ∃ j, j < bottom0.dim ∧ -FLT_MAX < predAt bottom0 i j) :
    (∃ st, ∃ j0 : Nat, argmaxScan bottom0.data bottom0.dim i = Except.ok st ∧ st.2 = (j0 : Int) ∧
      j0 < bottom0.dim ∧ (∀ j, j < bottom0.dim → predAt bottom0 i j ≤ predAt bottom0 i j0) ∧
      ∀ j, j < j0 → predAt bottom0 i j < predAt bottom0 i j0) ∧
    ∃ st, argmaxScan (tieRow α).data (tieRow α).dim 0 = Except.ok st ∧ st.2 = 0 := by
  refine ⟨?_, _, tieRow_scan, rfl⟩
  obtain ⟨st, hst, hcase⟩ := argmaxScan_spec bottom0 h hwf i hi
  rcases hcase with ⟨-, -, h3⟩ | ⟨j0, hj0, h1, -, -, h4, h5⟩
  · obtain ⟨j, hj, hgt⟩ := hex
    exact absurd (h3 j hj) (not_le.mpr hgt)
  · exact ⟨st, j0, hst, h1, hj0, h4, h5⟩

theorem lowRow_dim : lowRow.dim = 2 := by
  simp [Blob.dim, Blob.count, lowRow]

theorem lowRow_scan : argmaxScan lowRow.data lowRow.dim 0
    = Except.ok (-FLT_MAX, (0 : Int)) := by
  have hno : ¬ (2 * ((2 ^ 24 - 1) * 2 ^ 104 : ℚ) < (2 ^ 24 - 1) * 2 ^ 104) := by norm_num
  rw [lowRow_dim]
  simp [argmaxScan, forLoop, lowRow, readAt, FLT_MAX, hno]

/-- Counterexample to C11 as stated: on the row `[-2·FLT_MAX, -FLT_MAX]` no
score exceeds the initial `maxval`, the scan leaves `max_id = 0`, and the
maximum of the row sits at index 1. -/
theorem accuracy_argmax_lowest_counterexample :
    ∃ st, argmaxScan lowRow.data lowRow.dim 0 = Except.ok st ∧ st.2 = 0 ∧
      1 < lowRow.dim ∧ predAt lowRow 0 0 < predAt lowRow 0 1 := by
  refine ⟨_, lowRow_scan, rfl, by rw [lowRow_dim]; decide, ?_⟩
  simp only [predAt, lowRow_dim]
  simp only [lowRow, FLT_MAX]
  norm_num

theorem accuracy_argmax_lowest_witness :
    (1 ≤ (tieRow ℚ).num ∧ (tieRow ℚ).WF ∧ 0 < (tieRow ℚ).num ∧
      ∃ j, j < (tieRow ℚ).dim ∧ -FLT_MAX < predAt (tieRow ℚ) 0 j) ∧
    ((∃ st, ∃ j0 : Nat, argmaxScan (tieRow ℚ).data (tieRow ℚ).dim 0 = Except.ok st ∧
      st.2 = (j0 : Int) ∧
      j0 < (tieRow ℚ).dim ∧
      (∀ j, j < (tieRow ℚ).dim → predAt (tieRow ℚ) 0 j ≤ predAt (tieRow ℚ) 0 j0) ∧
      ∀ j, j < j0 → predAt (tieRow ℚ) 0 j < predAt (tieRow ℚ) 0 j0) ∧
    ∃ st, argmaxScan (tieRow ℚ).data (tieRow ℚ).dim 0 = Except.ok st ∧ st.2 = 0) :=
  have hex : ∃ j, j < (tieRow ℚ).dim ∧ -FLT_MAX < predAt (tieRow ℚ) 0 j :=
    ⟨0, by rw [tieRow_dim]; decide, by
      simp only [predAt, tieRow_dim]
      simp only [tieRow, FLT_MAX]
      norm_num⟩
  ⟨⟨Nat.le_refl 1, ⟨rfl, rfl⟩, Nat.lt_succ_self 0, hex⟩,
    accuracy_argmax_lowest (tieRow ℚ) (Nat.le_refl 1) ⟨rfl, rfl⟩ 0 (Nat.lt_succ_self 0) hex⟩

/-- The pair `(accuracy, logprob)` accumulated by the outer loop of
`AccuracyLayer::Forward_cpu`. -/
theorem accuracy_loop_eq (log : α → α) (bottom0 bottom1 : Blob α) (h : 1 ≤ bottom0.num)
    (hwf : bottom0.WF) (hl : LabelsInRange bottom0 bottom1) :
    forLoop (fun i (st : α × α) => do
        let (_, max_id) ← argmaxScan bottom0.data bottom0.dim i
        let label := static_cast_int (← readAt bottom1.data i)
        let accuracy := if max_id = label then st.1 + 1 else st.1
        let prob ← clampedProb bottom0.data bottom1.data bottom0.dim i
        pure (accuracy, st.2 - log prob)) bottom0.num (0, 0)
      = Except.ok
          (∑ i in Finset.range bottom0.num,
              (if maxIdAt bottom0 i = labelAt bottom1 i then (1 : α) else 0),
            ∑ i in Finset.range bottom0.num, -log (probOf bottom0 bottom1 i)) := by
  obtain ⟨st, hst, hP⟩ := forLoop_inv (fun i (st : α × α) => do
        let (_, max_id) ← argmaxScan bottom0.data bottom0.dim i
        let label := static_cast_int (← readAt bottom1.data i)
        let accuracy := if max_id = label then st.1 + 1 else st.1
        let prob ← clampedProb bottom0.data bottom1.data bottom0.dim i
        pure (accuracy, st.2 - log prob))
    (fun n (st : α × α) => st =
      (∑ i in Finset.range n, (if maxIdAt bottom0 i = labelAt bottom1 i then (1 : α) else 0),
        ∑ i in Finset.range n, -log (probOf bottom0 bottom1 i)))
    bottom0.num (0, 0) (by simp) (by
      intro i st hi hs
      obtain ⟨⟨mv, mi⟩, hscan⟩ := argmaxScan_ok bottom0 h hwf i hi
      have hmi : maxIdAt bottom0 i = mi := maxIdAt_eq bottom0 i _ hscan
      simp only []
      rw [hscan, bind_ok]
      simp only []
      rw [readLabel_ok bottom0 bottom1 hl i hi, bind_ok,
        clampedProb_ok bottom0 bottom1 h hwf hl i hi, bind_ok]
      refine ⟨_, rfl, ?_⟩
      show ((if mi = labelAt bottom1 i then st.1 + 1 else st.1),
          st.2 - log (probOf bottom0 bottom1 i)) = _
      rw [Finset.sum_range_succ, Finset.sum_range_succ, hmi, hs]
      refine Prod.ext ?_ ?_
      · show (if mi = labelAt bottom1 i then _ else _) = _
        by_cases hc : mi = labelAt bottom1 i
        · rw [if_pos hc, if_pos hc]
        · rw [if_neg hc, if_neg hc, add_zero]
      · exact sub_eq_add_neg _ _)
  rw [hst, hP]

/-- The result of `AccuracyLayer::Forward_cpu` on a well-formed batch. -/
theorem accuracy_forward_eq (log : α → α) (bottom0 bottom1 top0 : Blob α) (h : 1 ≤ bottom0.num)
    (hwf : bottom0.WF) (hl : LabelsInRange bottom0 bottom1) (htop : 2 ≤ top0.data.length) :
    ∃ td, AccuracyLayer.Forward_cpu log bottom0 bottom1 top0
        = Except.ok (0, bottom0, bottom1, { top0 with data := td }) ∧
      td = (top0.data.set 0 ((∑ i in Finset.range bottom0.num,
              (if maxIdAt bottom0 i = labelAt bottom1 i then (1 : α) else 0))
                / (bottom0.num : α))).set 1
            ((∑ i in Finset.range bottom0.num, -log (probOf bottom0 bottom1 i))
                / (bottom0.num : α)) := by
  refine ⟨_, ?_, rfl⟩
  unfold AccuracyLayer.Forward_cpu
  show (intDiv bottom0.count bottom0.num >>= _) = _
  rw [intDiv_count bottom0 h, bind_ok]
  show (forLoop _ bottom0.num ((0 : α), (0 : α)) >>= _) = _
  rw [accuracy_loop_eq log bottom0 bottom1 h hwf hl, bind_ok]
  show (writeAt top0.data ((0 : Nat) : Int) _ >>= _) = _
  rw [writeAt_nat top0.data 0 _ (by omega), bind_ok]
  show (writeAt _ ((1 : Nat) : Int) _ >>= _) = _
  rw [writeAt_nat _ 1 _ (by simp; omega), bind_ok]
  rfl

theorem set_set_zero (l : List α) (a b : α) (hl : 2 ≤ l.length) :
    ((l.set 0 a).set 1 b)[0]? = some a ∧ ((l.set 0 a).set 1 b)[1]? = some b := by
  constructor
  · rw [List.getElem?_set, if_neg (by omega), List.getElem?_set, if_pos rfl,
      if_pos (by omega)]
  · rw [List.getElem?_set, if_pos rfl, if_pos (by rw [List.length_set]; omega)]

/-- C20. `AccuracyLayer::Forward_cpu` on a batch of N ≥ 1 samples with labels
in `[0, dim)`: output element 1 is exactly the loss that
`MultinomialLogisticLossLayer::Forward_cpu` returns on the same predictions and
labels. -/
theorem accuracy_logprob_eq_multinomial (log : α → α) (bottom0 bottom1 top0 : Blob α)
    (h : 1 ≤ bottom0.num) (hwf : bottom0.WF) (hl : LabelsInRange bottom0 bottom1)
    (htop : 2 ≤ top0.data.length) :
    ∃ td loss, AccuracyLayer.Forward_cpu log bottom0 bottom1 top0
        = Except.ok (0, bottom0, bottom1, { top0 with data := td }) ∧
      MultinomialLogisticLossLayer.Forward_cpu log bottom0 bottom1
        = Except.ok (loss, bottom0, bottom1) ∧
      td[1]? = some loss := by
  obtain ⟨td, hrun, htd⟩ := accuracy_forward_eq log bottom0 bottom1 top0 h hwf hl htop
  refine ⟨td, _, hrun, multinomial_forward_eq log bottom0 bottom1 h hwf hl, ?_⟩
  rw [htd, (set_set_zero top0.data _ _ htop).2]

theorem accuracy_logprob_eq_multinomial_witness :
    (1 ≤ (exPred ℝ [0, 0, 0, 0, 0, 0]).num ∧ (exPred ℝ [0, 0, 0, 0, 0, 0]).WF ∧
      LabelsInRange (exPred ℝ [0, 0, 0, 0, 0, 0]) (exLabel ℝ) ∧
      2 ≤ (exTopOf ℝ).data.length) ∧
    ∃ td loss, AccuracyLayer.Forward_cpu Real.log (exPred ℝ [0, 0, 0, 0, 0, 0]) (exLabel ℝ)
          (exTopOf ℝ)
        = Except.ok (0, exPred ℝ [0, 0, 0, 0, 0, 0], exLabel ℝ,
            { exTopOf ℝ with data := td }) ∧
      MultinomialLogisticLossLayer.Forward_cpu Real.log (exPred ℝ [0, 0, 0, 0, 0, 0]) (exLabel ℝ)
        = Except.ok (loss, exPred ℝ [0, 0, 0, 0, 0, 0], exLabel ℝ) ∧
      td[1]? = some loss :=
  ⟨⟨exPred_num _, exPred_wf _ rfl, exLabels_inRange _, Nat.le_refl 2⟩,
    accuracy_logprob_eq_multinomial Real.log _ _ _ (exPred_num _) (exPred_wf _ rfl)
      (exLabels_inRange _) (Nat.le_refl 2)⟩

end AccuracyOutputs


/-! ## Backward as an overwrite -/

section Overwrite

variable [LinearOrderedField α] [FloorRing α]

theorem list_eq_of_entries (n d : Nat) (g1 g2 : List α) (h1 : g1.length = n * d)
    (h2 : g2.length = n * d)
    (h : ∀ i j, i < n → j < d → g1[i * d + j]? = g2[i * d + j]?) : g1 = g2 := by
  apply List.ext_getElem?
  intro k
  by_cases hk : k < n * d
  · have hd : 0 < d := by
      rcases Nat.eq_zero_or_pos d with h0 | h0
      · rw [h0] at hk; omega
      · exact h0
    have hi : k / d < n := by
      apply Nat.div_lt_of_lt_mul
      rwa [Nat.mul_comm]
    have hk3 : k = k / d * d + k % d := by
      rw [Nat.mul_comm]; exact (Nat.div_add_mod k d).symm
    rw [hk3]
    exact h _ _ hi (Nat.mod_lt _ hd)
  · rw [List.getElem?_eq_none (by omega), List.getElem?_eq_none (by omega)]

/-- The result of `MultinomialLogisticLossLayer::Backward_cpu`. -/
theorem multinomial_backward_eq (bottom0 bottom1 : Blob α) (h : 1 ≤ bottom0.num)
    (hwf : bottom0.WF) (hl : LabelsInRange bottom0 bottom1) :
    ∃ g, MultinomialLogisticLossLayer.Backward_cpu bottom0 bottom1
          = Except.ok ({ bottom0 with diff := g }, bottom1) ∧ g.length = bottom0.count ∧
      ∀ i j, i < bottom0.num → j < bottom0.dim →
        g[i * bottom0.dim + j]? = some (if (j : Int) = labelAt bottom1 i then
          -1 / max (predAt bottom0 i j) kLOG_THRESHOLD / (bottom0.num : α) else 0) := by
  obtain ⟨g, hg, hlen, hval⟩ := multinomial_backward_loop bottom0 bottom1 h hwf hl
  refine ⟨g, ?_, hlen, hval⟩
  unfold MultinomialLogisticLossLayer.Backward_cpu
  rw [intDiv_count bottom0 h, bind_ok, memsetZero_ok _ _ hwf.2, bind_ok]
  simp only []
  rw [hg]
  rfl

/-- The result of `InfogainLossLayer::Backward_cpu`. -/
theorem infogain_backward_eq (self : InfogainLossLayer α) (bottom0 bottom1 : Blob α)
    (h : 1 ≤ bottom0.num) (hwf : bottom0.WF)
    (hl : LabelsInRange bottom0 bottom1) (hh : self.infogain_.height = bottom0.dim)
    (hlen : self.infogain_.data.length = bottom0.dim * bottom0.dim) :
    ∃ g, self.Backward_cpu bottom0 bottom1
          = Except.ok ({ bottom0 with diff := g }, bottom1) ∧ g.length = bottom0.count ∧
      ∀ i j, i < bottom0.num → j < bottom0.dim →
        g[i * bottom0.dim + j]? = some
          (-weightAt self.infogain_ bottom0.dim (labelAt bottom1 i).toNat j
            / max (predAt bottom0 i j) kLOG_THRESHOLD / (bottom0.num : α)) := by
  obtain ⟨g, hg, hglen, hval⟩ := infogain_backward_loop self bottom0 bottom1 h hwf hl hlen
  refine ⟨g, ?_, hglen, hval⟩
  unfold InfogainLossLayer.Backward_cpu
  rw [intDiv_count bottom0 h, bind_ok, hh, CHECK_EQ_self, bind_ok]
  show (forLoop _ bottom0.num bottom0.diff >>= _) = _
  rw [hg]
  rfl

/-- The result of `EuclideanLossLayer::Backward_cpu`: the scratch difference
over N, whatever the gradient buffer held on entry. -/
theorem euclidean_backward_eq (self : EuclideanLossLayer α) (bottom0 bottom1 : Blob α)
    (hd : self.difference_.data.length = bottom0.count)
    (hg0 : bottom0.diff.length = bottom0.count) :
    ∃ g, self.Backward_cpu bottom0 bottom1
          = Except.ok (self, { bottom0 with diff := g }, bottom1) ∧ g.length = bottom0.count ∧
      ∀ k, k < bottom0.count →
        g[k]? = some (self.difference_.data.getD k 0 / (bottom0.num : α)) := by
  obtain ⟨g, hg, hglen, hgval⟩ := caffe_cpu_axpby_ok bottom0.count (1 / (bottom0.num : α)) 0
    self.difference_.data bottom0.diff (by omega) (by omega)
  refine ⟨g, ?_, by omega, fun k hk => ?_⟩
  · unfold EuclideanLossLayer.Backward_cpu
    show (caffe_cpu_axpby bottom0.count (1 / (bottom0.num : α)) self.difference_.data 0
      bottom0.diff >>= _) = _
    rw [hg]
    rfl
  · rw [hgval k hk]
    congr 1
    ring

theorem list_eq_of_flat (g1 g2 : List α) (n : Nat) (h1 : g1.length = n) (h2 : g2.length = n)
    (h : ∀ k, k < n → g1[k]? = g2[k]?) : g1 = g2 := by
  apply List.ext_getElem?
  intro k
  by_cases hk : k < n
  · exact h k hk
  · rw [List.getElem?_eq_none (by omega), List.getElem?_eq_none (by omega)]

/-- C13 (amended). Backward as an overwrite, for any two prior contents `g1`,
`g2` of the first input's gradient buffer and everything else equal:
`Backward_cpu` of the Multinomial Logistic, Infogain and Euclidean layers leaves
the same gradient buffer in both runs; for the Hinge layer `Forward_cpu` leaves
the same buffer in both runs and `Backward_cpu` is a function of that buffer,
so the pair Forward-then-Backward does not depend on the prior contents. -/
theorem backward_overwrite (infogain : InfogainLossLayer α) (euclid : EuclideanLossLayer α)
    (bottom0 bottom1 : Blob α) (g1 g2 : List α) (h : 1 ≤ bottom0.num)
    (hdata : bottom0.data.length = bottom0.count) (hg1 : g1.length = bottom0.count)
    (hg2 : g2.length = bottom0.count) (hl : LabelsInRange bottom0 bottom1)
    (hh : infogain.infogain_.height = bottom0.dim)
    (hlen : infogain.infogain_.data.length = bottom0.dim * bottom0.dim)
    (hd : euclid.difference_.data.length = bottom0.count) :
    (∃ g, MultinomialLogisticLossLayer.Backward_cpu { bottom0 with diff := g1 } bottom1
          = Except.ok ({ bottom0 with diff := g }, bottom1) ∧
        MultinomialLogisticLossLayer.Backward_cpu { bottom0 with diff := g2 } bottom1
          = Except.ok ({ bottom0 with diff := g }, bottom1)) ∧
    (∃ g, infogain.Backward_cpu { bottom0 with diff := g1 } bottom1
          = Except.ok ({ bottom0 with diff := g }, bottom1) ∧
        infogain.Backward_cpu { bottom0 with diff := g2 } bottom1
          = Except.ok ({ bottom0 with diff := g }, bottom1)) ∧
    (∃ g, euclid.Backward_cpu { bottom0 with diff := g1 } bottom1
          = Except.ok (euclid, { bottom0 with diff := g }, bottom1) ∧
        euclid.Backward_cpu { bottom0 with diff := g2 } bottom1
          = Except.ok (euclid, { bottom0 with diff := g }, bottom1)) ∧
    (∃ loss d g, HingeLossLayer.Forward_cpu { bottom0 with diff := g1 } bottom1
          = Except.ok (loss, { bottom0 with diff := d }, bottom1) ∧
        HingeLossLayer.Forward_cpu { bottom0 with diff := g2 } bottom1
          = Except.ok (loss, { bottom0 with diff := d }, bottom1) ∧
        HingeLossLayer.Backward_cpu { bottom0 with diff := d } bottom1
          = Except.ok ({ bottom0 with diff := g }, bottom1)) := by
  have hcount := Blob.count_eq bottom0 h
  refine ⟨?_, ?_, ?_, ?_⟩
  · have r1 : ∃ g, MultinomialLogisticLossLayer.Backward_cpu { bottom0 with diff := g1 } bottom1
          = Except.ok ({ bottom0 with diff := g }, bottom1) ∧ g.length = bottom0.count ∧
        ∀ i j, i < bottom0.num → j < bottom0.dim →
          g[i * bottom0.dim + j]? = some (if (j : Int) = labelAt bottom1 i then
            -1 / max (predAt bottom0 i j) kLOG_THRESHOLD / (bottom0.num : α) else 0) :=
      multinomial_backward_eq { bottom0 with diff := g1 } bottom1 h ⟨hdata, hg1⟩ hl
    have r2 : ∃ g, MultinomialLogisticLossLayer.Backward_cpu { bottom0 with diff := g2 } bottom1
          = Except.ok ({ bottom0 with diff := g }, bottom1) ∧ g.length = bottom0.count ∧
        ∀ i j, i < bottom0.num → j < bottom0.dim →
          g[i * bottom0.dim + j]? = some (if (j : Int) = labelAt bottom1 i then
            -1 / max (predAt bottom0 i j) kLOG_THRESHOLD / (bottom0.num : α) else 0) :=
      multinomial_backward_eq { bottom0 with diff := g2 } bottom1 h ⟨hdata, hg2⟩ hl
    obtain ⟨ga, ha, hla, hva⟩ := r1
    obtain ⟨gb, hb, hlb, hvb⟩ := r2
    have hab : gb = ga := list_eq_of_entries bottom0.num bottom0.dim gb ga (by omega) (by omega)
      (fun i j hi hj => by rw [hva i j hi hj, hvb i j hi hj])
    exact ⟨ga, ha, by rw [← hab]; exact hb⟩
  · have r1 : ∃ g, infogain.Backward_cpu { bottom0 with diff := g1 } bottom1
          = Except.ok ({ bottom0 with diff := g }, bottom1) ∧ g.length = bottom0.count ∧
        ∀ i j, i < bottom0.num → j < bottom0.dim →
          g[i * bottom0.dim + j]? = some
            (-weightAt infogain.infogain_ bottom0.dim (labelAt bottom1 i).toNat j
              / max (predAt bottom0 i j) kLOG_THRESHOLD / (bottom0.num : α)) :=
      infogain_backward_eq infogain { bottom0 with diff := g1 } bottom1 h ⟨hdata, hg1⟩ hl hh hlen
    have r2 : ∃ g, infogain.Backward_cpu { bottom0 with diff := g2 } bottom1
          = Except.ok ({ bottom0 with diff := g }, bottom1) ∧ g.length = bottom0.count ∧
        ∀ i j, i < bottom0.num → j < bottom0.dim →
          g[i * bottom0.dim + j]? = some
            (-weightAt infogain.infogain_ bottom0.dim (labelAt bottom1 i).toNat j
              / max (predAt bottom0 i j) kLOG_THRESHOLD / (bottom0.num : α)) :=
      infogain_backward_eq infogain { bottom0 with diff := g2 } bottom1 h ⟨hdata, hg2⟩ hl hh hlen
    obtain ⟨ga, ha, hla, hva⟩ := r1
    obtain ⟨gb, hb, hlb, hvb⟩ := r2
    have hab : gb = ga := list_eq_of_entries bottom0.num bottom0.dim gb ga (by omega) (by omega)
      (fun i j hi hj => by rw [hva i j hi hj, hvb i j hi hj])
    exact ⟨ga, ha, by rw [← hab]; exact hb⟩
  · have r1 : ∃ g, euclid.Backward_cpu { bottom0 with diff := g1 } bottom1
          = Except.ok (euclid, { bottom0 with diff := g }, bottom1) ∧ g.length = bottom0.count ∧
        ∀ k, k < bottom0.count →
          g[k]? = some (euclid.difference_.data.getD k 0 / (bottom0.num : α)) :=
      euclidean_backward_eq euclid { bottom0 with diff := g1 } bottom1 hd hg1
    have r2 : ∃ g, euclid.Backward_cpu { bottom0 with diff := g2 } bottom1
          = Except.ok (euclid, { bottom0 with diff := g }, bottom1) ∧ g.length = bottom0.count ∧
        ∀ k, k < bottom0.count →
          g[k]? = some (euclid.difference_.data.getD k 0 / (bottom0.num : α)) :=
      euclidean_backward_eq euclid { bottom0 with diff := g2 } bottom1 hd hg2
    obtain ⟨ga, ha, hla, hva⟩ := r1
    obtain ⟨gb, hb, hlb, hvb⟩ := r2
    have hab : gb = ga := list_eq_of_flat gb ga bottom0.count hlb hla
      (fun k hk => by rw [hva k hk, hvb k hk])
    exact ⟨ga, ha, by rw [← hab]; exact hb⟩
  · have r1 : ∃ g, HingeLossLayer.Forward_cpu { bottom0 with diff := g1 } bottom1
          = Except.ok ((∑ k in Finset.range bottom0.count, |g.getD k 0|) / (bottom0.num : α),
              { bottom0 with diff := g }, bottom1) ∧ g.length = bottom0.count ∧
        ∀ i j, i < bottom0.num → j < bottom0.dim →
          g[i * bottom0.dim + j]? = some (max 0 (1 + marginAt bottom0 bottom1 i j)) :=
      hinge_forward_eq { bottom0 with diff := g1 } bottom1 h ⟨hdata, hg1⟩ hl
    have r2 : ∃ g, HingeLossLayer.Forward_cpu { bottom0 with diff := g2 } bottom1
          = Except.ok ((∑ k in Finset.range bottom0.count, |g.getD k 0|) / (bottom0.num : α),
              { bottom0 with diff := g }, bottom1) ∧ g.length = bottom0.count ∧
        ∀ i j, i < bottom0.num → j < bottom0.dim →
          g[i * bottom0.dim + j]? = some (max 0 (1 + marginAt bottom0 bottom1 i j)) :=
      hinge_forward_eq { bottom0 with diff := g2 } bottom1 h ⟨hdata, hg2⟩ hl
    obtain ⟨da, ha, hla, hva⟩ := r1
    obtain ⟨db, hb, hlb, hvb⟩ := r2
    have hab : db = da := list_eq_of_entries bottom0.num bottom0.dim db da (by omega) (by omega)
      (fun i j hi hj => by rw [hva i j hi hj, hvb i j hi hj])
    have r3 : ∃ g, HingeLossLayer.Backward_cpu { bottom0 with diff := da } bottom1
          = Except.ok ({ bottom0 with diff := g }, bottom1) ∧ g.length = bottom0.count ∧ True := by
      obtain ⟨g, hg, hglen, -⟩ :=
        hinge_backward_eq { bottom0 with diff := da } bottom1 h ⟨hdata, hla⟩ hl
      exact ⟨g, hg, hglen, trivial⟩
    obtain ⟨g, hg, -, -⟩ := r3
    exact ⟨_, da, g, ha, by rw [← hab]; exact hb, hg⟩

/-- Counterexample to C13 as stated: `HingeLossLayer::Backward_cpu` entered with
the gradient buffers `[0, 1]` and `[1, 1]` on the same batch leaves `[0, 1]`
and `[-1, 1]`. -/
theorem backward_overwrite_counterexample :
    ∃ ga gb, HingeLossLayer.Backward_cpu { hingePred2 with diff := [0, 1] } hingeLabel
        = Except.ok ({ hingePred2 with diff := ga }, hingeLabel) ∧
      HingeLossLayer.Backward_cpu { hingePred2 with diff := [1, 1] } hingeLabel
        = Except.ok ({ hingePred2 with diff := gb }, hingeLabel) ∧ ga ≠ gb := by
  refine ⟨[0, 1], [-1, 1], hingePred2_backward, ?_, by simp⟩
  simp [HingeLossLayer.Backward_cpu, forLoop, hingePred2, hingeLabel, intDiv, Blob.count,
    caffe_cpu_sign, caffe_sign, caffe_scal, negateAtLabels, readAt, writeAt, static_cast_int]

theorem backward_overwrite_witness :
    (1 ≤ (exPred ℚ []).num ∧ (exPred ℚ []).data.length = (exPred ℚ []).count ∧
      [1, 2, 3, 4, 5, (6 : ℚ)].length = (exPred ℚ []).count ∧
      [0, 0, 0, 0, 0, (9 : ℚ)].length = (exPred ℚ []).count ∧
      LabelsInRange (exPred ℚ []) (exLabel ℚ)) ∧
    ∃ g, MultinomialLogisticLossLayer.Backward_cpu
          { exPred ℚ [] with diff := [1, 2, 3, 4, 5, 6] } (exLabel ℚ)
          = Except.ok ({ exPred ℚ [] with diff := g }, exLabel ℚ) ∧
        MultinomialLogisticLossLayer.Backward_cpu
          { exPred ℚ [] with diff := [0, 0, 0, 0, 0, 9] } (exLabel ℚ)
          = Except.ok ({ exPred ℚ [] with diff := g }, exLabel ℚ) :=
  ⟨⟨exPred_num _, rfl, rfl, rfl, exLabels_inRange _⟩,
    (backward_overwrite exInfogain exEuclidean (exPred ℚ []) (exLabel ℚ) [1, 2, 3, 4, 5, 6]
      [0, 0, 0, 0, 0, 9] (exPred_num _) rfl rfl rfl (exLabels_inRange _)
      (by rw [exPred_dim]; rfl) (by rw [exPred_dim]; rfl) rfl).1⟩

end Overwrite


/-! ## Forward and the caller's tensors -/

section ForwardFrame

variable [LinearOrderedField α] [FloorRing α]

theorem multinomial_forward_frame (log : α → α) (bottom0 bottom1 : Blob α)
    (r : α) (x y : Blob α)
    (hrun : MultinomialLogisticLossLayer.Forward_cpu log bottom0 bottom1 = Except.ok (r, x, y)) :
    x = bottom0 ∧ y = bottom1 := by
  unfold MultinomialLogisticLossLayer.Forward_cpu at hrun
  obtain ⟨dim, -, hrun⟩ := bind_eq_ok _ _ _ hrun
  obtain ⟨loss, -, hrun⟩ := bind_eq_ok _ _ _ hrun
  simp only [pure_eq_ok, Except.ok.injEq, Prod.mk.injEq] at hrun
  exact ⟨hrun.2.1.symm, hrun.2.2.symm⟩

theorem infogain_forward_frame (self : InfogainLossLayer α) (log : α → α)
    (bottom0 bottom1 : Blob α) (r : α) (x y : Blob α)
    (hrun : self.Forward_cpu log bottom0 bottom1 = Except.ok (r, x, y)) :
    x = bottom0 ∧ y = bottom1 := by
  unfold InfogainLossLayer.Forward_cpu at hrun
  obtain ⟨dim, -, hrun⟩ := bind_eq_ok _ _ _ hrun
  obtain ⟨u, -, hrun⟩ := bind_eq_ok _ _ _ hrun
  obtain ⟨loss, -, hrun⟩ := bind_eq_ok _ _ _ hrun
  simp only [pure_eq_ok, Except.ok.injEq, Prod.mk.injEq] at hrun
  exact ⟨hrun.2.1.symm, hrun.2.2.symm⟩

theorem euclidean_forward_frame (self : EuclideanLossLayer α)
    (bottom0 bottom1 : Blob α) (r : α) (e : EuclideanLossLayer α) (x y : Blob α)
    (hrun : self.Forward_cpu bottom0 bottom1 = Except.ok (r, e, x, y)) :
    x = bottom0 ∧ y = bottom1 := by
  unfold EuclideanLossLayer.Forward_cpu at hrun
  obtain ⟨d, -, hrun⟩ := bind_eq_ok _ _ _ hrun
  obtain ⟨dot, -, hrun⟩ := bind_eq_ok _ _ _ hrun
  simp only [pure_eq_ok, Except.ok.injEq, Prod.mk.injEq] at hrun
  exact ⟨hrun.2.2.1.symm, hrun.2.2.2.symm⟩

theorem accuracy_forward_frame_aux (log : α → α) (bottom0 bottom1 top0 : Blob α)
    (r : α) (x y t : Blob α)
    (hrun : AccuracyLayer.Forward_cpu log bottom0 bottom1 top0 = Except.ok (r, x, y, t)) :
    x = bottom0 ∧ y = bottom1 ∧ t.diff = top0.diff := by
  unfold AccuracyLayer.Forward_cpu at hrun
  obtain ⟨dim, -, hrun⟩ := bind_eq_ok _ _ _ hrun
  obtain ⟨⟨acc, lp⟩, -, hrun⟩ := bind_eq_ok _ _ _ hrun
  obtain ⟨td1, -, hrun⟩ := bind_eq_ok _ _ _ hrun
  obtain ⟨td2, -, hrun⟩ := bind_eq_ok _ _ _ hrun
  simp only [pure_eq_ok, Except.ok.injEq, Prod.mk.injEq] at hrun
  obtain ⟨-, h2, h3, h4⟩ := hrun
  exact ⟨h2.symm, h3.symm, by rw [← h4]⟩

theorem hinge_forward_frame (bottom0 bottom1 : Blob α) (r : α) (x y : Blob α)
    (hrun : HingeLossLayer.Forward_cpu bottom0 bottom1 = Except.ok (r, x, y)) :
    x.data = bottom0.data ∧ x.num = bottom0.num ∧ x.channels = bottom0.channels ∧
      x.height = bottom0.height ∧ x.width = bottom0.width ∧ y = bottom1 := by
  unfold HingeLossLayer.Forward_cpu at hrun
  obtain ⟨dim, -, hrun⟩ := bind_eq_ok _ _ _ hrun
  obtain ⟨d1, -, hrun⟩ := bind_eq_ok _ _ _ hrun
  obtain ⟨d2, -, hrun⟩ := bind_eq_ok _ _ _ hrun
  obtain ⟨d3, -, hrun⟩ := bind_eq_ok _ _ _ hrun
  obtain ⟨asum, -, hrun⟩ := bind_eq_ok _ _ _ hrun
  simp only [pure_eq_ok, Except.ok.injEq, Prod.mk.injEq] at hrun
  obtain ⟨-, h2, h3⟩ := hrun
  subst h2
  exact ⟨rfl, rfl, rfl, rfl, rfl, h3.symm⟩

/-- C14 (amended). Forward and the caller-visible input tensors. Every
returning `Forward_cpu` of the Multinomial Logistic, Infogain, Euclidean and
Accuracy layers hands back both input tensors, values and gradient buffers,
exactly as it received them (Accuracy writes only its output values). Every
returning `Forward_cpu` of the Hinge layer leaves the values and shape of the
first input and the whole second input unchanged, but on a well-formed batch it
overwrites the gradient buffer of the first input with the post-margin values
`max(0, 1 + m_ij)`. On a well-formed batch all five passes do return. -/
theorem forward_frame (log : α → α) (infogain : InfogainLossLayer α)
    (euclid : EuclideanLossLayer α) (bottom0 bottom1 target top0 : Blob α) :
    (∀ r x y, MultinomialLogisticLossLayer.Forward_cpu log bottom0 bottom1
        = Except.ok (r, x, y) → x = bottom0 ∧ y = bottom1) ∧
    (∀ r x y, infogain.Forward_cpu log bottom0 bottom1
        = Except.ok (r, x, y) → x = bottom0 ∧ y = bottom1) ∧
    (∀ r e x y, euclid.Forward_cpu bottom0 target
        = Except.ok (r, e, x, y) → x = bottom0 ∧ y = target) ∧
    (∀ r x y t, AccuracyLayer.Forward_cpu log bottom0 bottom1 top0
        = Except.ok (r, x, y, t) → x = bottom0 ∧ y = bottom1 ∧ t.diff = top0.diff) ∧
    (∀ r x y, HingeLossLayer.Forward_cpu bottom0 bottom1 = Except.ok (r, x, y) →
      x.data = bottom0.data ∧ x.num = bottom0.num ∧ x.channels = bottom0.channels ∧
        x.height = bottom0.height ∧ x.width = bottom0.width ∧ y = bottom1) ∧
    (1 ≤ bottom0.num → bottom0.WF → LabelsInRange bottom0 bottom1 →
      infogain.infogain_.height = bottom0.dim →
      infogain.infogain_.data.length = bottom0.dim * bottom0.dim →
      target.data.length = bottom0.count → euclid.difference_.data.length = bottom0.count →
      2 ≤ top0.data.length →
      (∃ r, MultinomialLogisticLossLayer.Forward_cpu log bottom0 bottom1
        = Except.ok (r, bottom0, bottom1)) ∧
      (∃ r, infogain.Forward_cpu log bottom0 bottom1 = Except.ok (r, bottom0, bottom1)) ∧
      (∃ r e, euclid.Forward_cpu bottom0 target = Except.ok (r, e, bottom0, target)) ∧
      (∃ td, AccuracyLayer.Forward_cpu log bottom0 bottom1 top0
        = Except.ok (0, bottom0, bottom1, { top0 with data := td })) ∧
      ∃ r d, HingeLossLayer.Forward_cpu bottom0 bottom1
          = Except.ok (r, { bottom0 with diff := d }, bottom1) ∧
        ∀ i j, i < bottom0.num → j < bottom0.dim →
          d[i * bottom0.dim + j]? = some (max 0 (1 + marginAt bottom0 bottom1 i j))) := by
  refine ⟨fun r x y => multinomial_forward_frame log bottom0 bottom1 r x y,
    fun r x y => infogain_forward_frame infogain log bottom0 bottom1 r x y,
    fun r e x y => euclidean_forward_frame euclid bottom0 target r e x y,
    fun r x y t => accuracy_forward_frame_aux log bottom0 bottom1 top0 r x y t,
    fun r x y => hinge_forward_frame bottom0 bottom1 r x y, ?_⟩
  intro h hwf hl hh hlen ht hd htop
  refine ⟨⟨_, multinomial_forward_eq log bottom0 bottom1 h hwf hl⟩,
    ⟨_, infogain_forward_eq infogain log bottom0 bottom1 h hwf hl hh hlen⟩, ?_, ?_, ?_⟩
  · obtain ⟨d, hf, -, -⟩ := euclidean_forward_eq euclid bottom0 target hwf ht hd
    exact ⟨_, _, hf⟩
  · obtain ⟨td, hrun, -⟩ := accuracy_forward_eq log bottom0 bottom1 top0 h hwf hl htop
    exact ⟨td, hrun⟩
  · obtain ⟨d, hf, -, hval⟩ := hinge_forward_eq bottom0 bottom1 h hwf hl
    exact ⟨_, d, hf, hval⟩

/-- Counterexample to C14 as stated: `HingeLossLayer::Forward_cpu` on the single
sample `[1/2, -3/5]` with label 0 turns the gradient buffer of the first input
from `[0, 0]` into `[1/2, 2/5]`. -/
theorem forward_frame_counterexample :
    ∃ r x y, HingeLossLayer.Forward_cpu hingePred hingeLabel = Except.ok (r, x, y) ∧
      hingePred.diff = [0, 0] ∧ x.diff = [1 / 2, 2 / 5] ∧ x.diff ≠ hingePred.diff := by
  refine ⟨_, _, _, hingePred_forward, rfl, rfl, ?_⟩
  show ([1 / 2, 2 / 5] : List ℚ) ≠ [0, 0]
  simp

theorem forward_frame_witness :
    (1 ≤ hingePred.num ∧ hingePred.WF ∧ LabelsInRange hingePred hingeLabel ∧
      (InfogainLossLayer.mk (identityInfogain ℚ hingePred.dim)).infogain_.height = hingePred.dim ∧
      (InfogainLossLayer.mk (identityInfogain ℚ hingePred.dim)).infogain_.data.length
        = hingePred.dim * hingePred.dim ∧
      hingePred2.data.length = hingePred.count ∧
      (EuclideanLossLayer.mk hingePred2).difference_.data.length = hingePred.count ∧
      2 ≤ exTop.data.length) ∧
    ∃ r d, HingeLossLayer.Forward_cpu hingePred hingeLabel
        = Except.ok (r, { hingePred with diff := d }, hingeLabel) ∧
      ∀ i j, i < hingePred.num → j < hingePred.dim →
        d[i * hingePred.dim + j]? = some (max 0 (1 + marginAt hingePred hingeLabel i j)) :=
  ⟨⟨Nat.le_refl 1, hingePred_wf, hingeLabels_inRange, rfl, identityInfogain_length _, rfl, rfl,
      Nat.le_refl 2⟩,
    ((forward_frame (fun x => x - 1) (InfogainLossLayer.mk (identityInfogain ℚ hingePred.dim))
      (EuclideanLossLayer.mk hingePred2) hingePred hingeLabel hingePred2 exTop).2.2.2.2.2
        (Nat.le_refl 1) hingePred_wf hingeLabels_inRange rfl (identityInfogain_length _) rfl rfl
        (Nat.le_refl 2)).2.2.2.2⟩

end ForwardFrame


/-! ## SetUp: the shape checks -/

section SetUpChecks

variable [LinearOrderedField α] [FloorRing α]

theorem CHECK_EQ_eq_ok (a b : Nat) : CHECK_EQ a b = Except.ok () ↔ a = b := by
  unfold CHECK_EQ
  by_cases h : a = b
  · simp [h]
  · simp [h]

theorem CHECK_EQ_ne (a b : Nat) (h : a ≠ b) : CHECK_EQ a b = Except.error Fault.check := by
  simp [CHECK_EQ, h]

/-- The shape checks of `MultinomialLogisticLossLayer::SetUp` on two inputs and
no output: it succeeds iff the batch sizes agree and the label tensor has
channels, height and width 1, and otherwise stops on a failed `CHECK_EQ`. -/
theorem multinomial_setUp_iff (bottom0 bottom1 : Blob α) :
    (MultinomialLogisticLossLayer.SetUp [bottom0, bottom1] [] = Except.ok () ↔
      (bottom0.num = bottom1.num ∧ bottom1.channels = 1 ∧ bottom1.height = 1 ∧
        bottom1.width = 1)) ∧
    (MultinomialLogisticLossLayer.SetUp [bottom0, bottom1] [] = Except.ok () ∨
      MultinomialLogisticLossLayer.SetUp [bottom0, bottom1] [] = Except.error Fault.check) := by
  unfold MultinomialLogisticLossLayer.SetUp
  simp only [List.length_cons, List.length_nil, CHECK_EQ_self, bind_ok, elemAt,
    List.getElem?_cons_zero, List.getElem?_cons_succ]
  by_cases h1 : bottom0.num = bottom1.num
  · by_cases h2 : bottom1.channels = 1
    · by_cases h3 : bottom1.height = 1
      · by_cases h4 : bottom1.width = 1
        · simp [h1, h2, h3, h4, CHECK_EQ_self]
        · simp [h1, h2, h3, h4, CHECK_EQ_self, CHECK_EQ_ne _ _ h4]
      · simp [h1, h2, h3, CHECK_EQ_self, CHECK_EQ_ne _ _ h3]
    · simp [h1, h2, CHECK_EQ_self, CHECK_EQ_ne _ _ h2]
  · simp [h1, CHECK_EQ_ne _ _ h1]

/-- The method `HingeLossLayer::SetUp` accepts every pair of inputs with no output. -/
theorem hinge_setUp_ok (bottom0 bottom1 : Blob α) :
    HingeLossLayer.SetUp [bottom0, bottom1] [] = Except.ok () := by
  simp [HingeLossLayer.SetUp, CHECK_EQ]

/-- The shape checks of `AccuracyLayer::SetUp` on two inputs and one output. -/
theorem accuracy_setUp_iff (bottom0 bottom1 top0 : Blob α) :
    (AccuracyLayer.SetUp [bottom0, bottom1] [top0] = Except.ok [top0.Reshape 1 2 1 1] ↔
      (bottom0.num = bottom1.num ∧ bottom1.channels = 1 ∧ bottom1.height = 1 ∧
        bottom1.width = 1)) ∧
    (AccuracyLayer.SetUp [bottom0, bottom1] [top0] = Except.ok [top0.Reshape 1 2 1 1] ∨
      AccuracyLayer.SetUp [bottom0, bottom1] [top0] = Except.error Fault.check) := by
  unfold AccuracyLayer.SetUp
  simp only [List.length_cons, List.length_nil, CHECK_EQ_self, bind_ok, elemAt,
    List.getElem?_cons_zero, List.getElem?_cons_succ]
  by_cases h1 : bottom0.num = bottom1.num
  · by_cases h2 : bottom1.channels = 1
    · by_cases h3 : bottom1.height = 1
      · by_cases h4 : bottom1.width = 1
        · simp [h1, h2, h3, h4, CHECK_EQ_self]
        · simp [h1, h2, h3, h4, CHECK_EQ_self, CHECK_EQ_ne _ _ h4]
      · simp [h1, h2, h3, CHECK_EQ_self, CHECK_EQ_ne _ _ h3]
    · simp [h1, h2, CHECK_EQ_self, CHECK_EQ_ne _ _ h2]
  · simp [h1, CHECK_EQ_ne _ _ h1]

theorem CHECK_EQ_bind_ok {β : Type} (a b : Nat) (f : Unit → Except Fault β) (v : β)
    (h : (CHECK_EQ a b >>= f) = Except.ok v) : a = b ∧ f () = Except.ok v := by
  obtain ⟨u, hu, hf⟩ := bind_eq_ok _ _ _ h
  exact ⟨(CHECK_EQ_eq_ok a b).mp hu, hf⟩

/-- The checks of `InfogainLossLayer::SetUp` on two inputs and no output: it
succeeds, keeping the loaded matrix, iff the label shape checks pass and the
matrix has `num = 1`, `channels = 1` and `height = width`. -/
theorem infogain_setUp_iff (blob_proto bottom0 bottom1 : Blob α) (self : InfogainLossLayer α) :
    InfogainLossLayer.SetUp blob_proto [bottom0, bottom1] [] = Except.ok self ↔
      (bottom0.num = bottom1.num ∧ bottom1.channels = 1 ∧ bottom1.height = 1 ∧
        bottom1.width = 1 ∧ blob_proto.num = 1 ∧ blob_proto.channels = 1 ∧
        blob_proto.height = blob_proto.width ∧ self.infogain_ = blob_proto) := by
  unfold InfogainLossLayer.SetUp
  simp only [List.length_cons, List.length_nil, CHECK_EQ_self, bind_ok, elemAt,
    List.getElem?_cons_zero, List.getElem?_cons_succ]
  constructor
  · intro hrun
    obtain ⟨h1, hrun⟩ := CHECK_EQ_bind_ok _ _ _ _ hrun
    obtain ⟨h2, hrun⟩ := CHECK_EQ_bind_ok _ _ _ _ hrun
    obtain ⟨h3, hrun⟩ := CHECK_EQ_bind_ok _ _ _ _ hrun
    obtain ⟨h4, hrun⟩ := CHECK_EQ_bind_ok _ _ _ _ hrun
    obtain ⟨h5, hrun⟩ := CHECK_EQ_bind_ok _ _ _ _ hrun
    obtain ⟨h6, hrun⟩ := CHECK_EQ_bind_ok _ _ _ _ hrun
    obtain ⟨h7, hrun⟩ := CHECK_EQ_bind_ok _ _ _ _ hrun
    simp only [pure_eq_ok, Except.ok.injEq] at hrun
    exact ⟨h1, h2, h3, h4, h5, h6, h7, by rw [← hrun]⟩
  · rintro ⟨h1, h2, h3, h4, h5, h6, h7, h8⟩
    rw [h1, h2, h3, h4, h5, h6, h7]
    simp only [CHECK_EQ_self, bind_ok, pure_eq_ok]
    rw [← h8]

/-- C15 at the failing input: predictions of batch size 2 with a label tensor
of batch size 5. `HingeLossLayer::SetUp` accepts the pair, while the `SetUp`
of the Multinomial Logistic and Accuracy layers stops on the failed
batch-size `CHECK_EQ`, and the Infogain `SetUp` does not succeed either. -/
theorem hinge_setUp_misses_shape_checks :
    (exPred ℚ []).num ≠ badLabel.num ∧
    HingeLossLayer.SetUp [exPred ℚ [], badLabel] [] = Except.ok () ∧
    MultinomialLogisticLossLayer.SetUp [exPred ℚ [], badLabel] []
      = Except.error Fault.check ∧
    AccuracyLayer.SetUp [exPred ℚ [], badLabel] [exTop] = Except.error Fault.check ∧
    ∀ blob_proto self,
      InfogainLossLayer.SetUp blob_proto [exPred ℚ [], badLabel] [] ≠ Except.ok self := by
  have hne : (exPred ℚ []).num ≠ badLabel.num := by
    show (2 : Nat) ≠ 5
    decide
  refine ⟨hne, hinge_setUp_ok _ _, ?_, ?_, ?_⟩
  · rcases (multinomial_setUp_iff (exPred ℚ []) badLabel).2 with hok | hbad
    · exact absurd ((multinomial_setUp_iff (exPred ℚ []) badLabel).1.mp hok).1 hne
    · exact hbad
  · rcases (accuracy_setUp_iff (exPred ℚ []) badLabel exTop).2 with hok | hbad
    · exact absurd ((accuracy_setUp_iff (exPred ℚ []) badLabel exTop).1.mp hok).1 hne
    · exact hbad
  · intro blob_proto self hok
    exact hne ((infogain_setUp_iff blob_proto (exPred ℚ []) badLabel self).mp hok).1

theorem bind_ne_check {β γ : Type} (m : Except Fault β) (f : β → Except Fault γ)
    (hm : m ≠ Except.error Fault.check) (hf : ∀ a, f a ≠ Except.error Fault.check) :
    (m >>= f) ≠ Except.error Fault.check := by
  cases m with
  | error e =>
    intro hc
    apply hm
    have : (Except.error e : Except Fault γ) = Except.error Fault.check := hc
    simp only [Except.error.injEq] at this
    rw [this]
  | ok a => exact hf a

theorem readAt_ne_check (buf : List α) (k : Int) : readAt buf k ≠ Except.error Fault.check := by
  unfold readAt
  split
  · split <;> simp
  · simp

theorem writeAt_ne_check (buf : List α) (k : Int) (v : α) :
    writeAt buf k v ≠ Except.error Fault.check := by
  unfold writeAt
  split <;> simp

theorem forLoop_ne_check {σ : Type} (body : Nat → σ → Except Fault σ)
    (hbody : ∀ i s, body i s ≠ Except.error Fault.check) (n : Nat) (s : σ) :
    forLoop body n s ≠ Except.error Fault.check := by
  induction n with
  | zero => simp [forLoop]
  | succ n ih =>
    rw [forLoop_succ]
    exact bind_ne_check _ _ ih (hbody n)

theorem ok_ne_check {β : Type} (a : β) :
    (Except.ok a : Except Fault β) ≠ Except.error Fault.check := by
  simp

/-- Past its `CHECK_EQ`, `InfogainLossLayer::Forward_cpu` cannot stop on a
failed check. -/
theorem infogain_forward_check_iff (self : InfogainLossLayer α) (log : α → α)
    (bottom0 bottom1 : Blob α) (h : 1 ≤ bottom0.num) :
    self.Forward_cpu log bottom0 bottom1 = Except.error Fault.check ↔
      self.infogain_.height ≠ bottom0.dim := by
  unfold InfogainLossLayer.Forward_cpu
  rw [intDiv_count bottom0 h, bind_ok]
  constructor
  · intro hrun heq
    rw [heq, CHECK_EQ_self, bind_ok] at hrun
    revert hrun
    refine bind_ne_check _ _ (forLoop_ne_check _ (fun i s => ?_) _ _) (fun a => ok_ne_check _)
    refine bind_ne_check _ _ (readAt_ne_check _ _) (fun a => ?_)
    refine forLoop_ne_check _ (fun j s => ?_) _ _
    refine bind_ne_check _ _ (readAt_ne_check _ _) (fun a => ?_)
    exact bind_ne_check _ _ (readAt_ne_check _ _) (fun a => ok_ne_check _)
  · intro hne
    rw [CHECK_EQ_ne _ _ hne]
    rfl

/-- Past its `CHECK_EQ`, `InfogainLossLayer::Backward_cpu` cannot stop on a
failed check. -/
theorem infogain_backward_check_iff (self : InfogainLossLayer α)
    (bottom0 bottom1 : Blob α) (h : 1 ≤ bottom0.num) :
    self.Backward_cpu bottom0 bottom1 = Except.error Fault.check ↔
      self.infogain_.height ≠ bottom0.dim := by
  unfold InfogainLossLayer.Backward_cpu
  rw [intDiv_count bottom0 h, bind_ok]
  constructor
  · intro hrun heq
    rw [heq, CHECK_EQ_self, bind_ok] at hrun
    revert hrun
    refine bind_ne_check _ _ (forLoop_ne_check _ (fun i s => ?_) _ _) (fun a => ok_ne_check _)
    refine bind_ne_check _ _ (readAt_ne_check _ _) (fun a => ?_)
    refine forLoop_ne_check _ (fun j s => ?_) _ _
    refine bind_ne_check _ _ (readAt_ne_check _ _) (fun a => ?_)
    exact bind_ne_check _ _ (readAt_ne_check _ _) (fun a => writeAt_ne_check _ _ _)
  · intro hne
    rw [CHECK_EQ_ne _ _ hne]
    rfl

/-- C16. `InfogainLossLayer` with a weighting matrix that passed `SetUp`
(`num = 1`, `channels = 1`, `height = width`) on a batch with N ≥ 1:
`Forward_cpu` and `Backward_cpu` stop on the failed `CHECK_EQ` iff the matrix
side differs from `dim = count / num`; when the sides agree the matrix holds
exactly `dim * dim` entries, so `label * dim + j` is in range for every
`label`, `j` in `[0, dim)`. -/
theorem infogain_config_mismatch (blob_proto setup0 setup1 : Blob α)
    (self : InfogainLossLayer α) (log : α → α) (bottom0 bottom1 : Blob α)
    (hs : InfogainLossLayer.SetUp blob_proto [setup0, setup1] [] = Except.ok self)
    (hW : blob_proto.WF) (h : 1 ≤ bottom0.num) :
    (self.Forward_cpu log bottom0 bottom1 = Except.error Fault.check ↔
      self.infogain_.height ≠ bottom0.dim) ∧
    (self.Backward_cpu bottom0 bottom1 = Except.error Fault.check ↔
      self.infogain_.height ≠ bottom0.dim) ∧
    (self.infogain_.height = bottom0.dim →
      self.infogain_.data.length = bottom0.dim * bottom0.dim ∧
      ∀ label j, label < bottom0.dim → j < bottom0.dim →
        label * bottom0.dim + j < self.infogain_.data.length) := by
  obtain ⟨-, -, -, -, h5, h6, h7, h8⟩ :=
    (infogain_setUp_iff blob_proto setup0 setup1 self).mp hs
  refine ⟨infogain_forward_check_iff self log bottom0 bottom1 h,
    infogain_backward_check_iff self bottom0 bottom1 h, fun heq => ?_⟩
  have hlen : self.infogain_.data.length = bottom0.dim * bottom0.dim := by
    rw [h8] at heq ⊢
    rw [hW.1, Blob.count, h5, h6, ← h7, heq]
    simp
  exact ⟨hlen, fun label j hl hj => by rw [hlen]; exact idx_lt hl hj⟩

theorem identityInfogain_wf (d : Nat) : (identityInfogain α d).WF := by
  constructor
  · simp [identityInfogain, Blob.count]
  · simp [identityInfogain, Blob.count]

theorem infogain_config_mismatch_witness :
    (InfogainLossLayer.SetUp (identityInfogain ℚ 3) [exPred ℚ [], exLabel ℚ] []
        = Except.ok (InfogainLossLayer.mk (identityInfogain ℚ 3)) ∧
      (identityInfogain ℚ 3).WF ∧ 1 ≤ (exPred ℚ []).num) ∧
    (((InfogainLossLayer.mk (identityInfogain ℚ 3)).Forward_cpu (fun x => x - 1) (exPred ℚ [])
        (exLabel ℚ) = Except.error Fault.check ↔
      (InfogainLossLayer.mk (identityInfogain ℚ 3)).infogain_.height ≠ (exPred ℚ []).dim) ∧
    ((InfogainLossLayer.mk (identityInfogain ℚ 3)).Backward_cpu (exPred ℚ []) (exLabel ℚ)
        = Except.error Fault.check ↔
      (InfogainLossLayer.mk (identityInfogain ℚ 3)).infogain_.height ≠ (exPred ℚ []).dim) ∧
    ((InfogainLossLayer.mk (identityInfogain ℚ 3)).infogain_.height = (exPred ℚ []).dim →
      (InfogainLossLayer.mk (identityInfogain ℚ 3)).infogain_.data.length
        = (exPred ℚ []).dim * (exPred ℚ []).dim ∧
      ∀ label j, label < (exPred ℚ []).dim → j < (exPred ℚ []).dim →
        label * (exPred ℚ []).dim + j
          < (InfogainLossLayer.mk (identityInfogain ℚ 3)).infogain_.data.length)) :=
  have hs : InfogainLossLayer.SetUp (identityInfogain ℚ 3) [exPred ℚ [], exLabel ℚ] []
      = Except.ok (InfogainLossLayer.mk (identityInfogain ℚ 3)) :=
    (infogain_setUp_iff (identityInfogain ℚ 3) (exPred ℚ []) (exLabel ℚ) _).mpr
      ⟨rfl, rfl, rfl, rfl, rfl, rfl, rfl, rfl⟩
  ⟨⟨hs, identityInfogain_wf 3, exPred_num _⟩,
    infogain_config_mismatch (identityInfogain ℚ 3) (exPred ℚ []) (exLabel ℚ) _
      (fun x => x - 1) (exPred ℚ []) (exLabel ℚ) hs (identityInfogain_wf 3) (exPred_num _)⟩

end SetUpChecks


/-! ## HingeLossLayer: closed form, boundary policy -/

section HingeClosedForm

variable [LinearOrderedField α] [FloorRing α]

theorem sum_range_flat (f : Nat → α) (n d : Nat) :
    ∑ k in Finset.range (n * d), f k
      = ∑ i in Finset.range n, ∑ j in Finset.range d, f (i * d + j) := by
  induction n with
  | zero => simp
  | succ n ih =>
    rw [Nat.add_mul, Nat.one_mul, Finset.sum_range_add, ih, Finset.sum_range_succ]

/-- The row sum of the post-margin values of sample `i`, split into the
true-class term and the terms of the other classes. -/
theorem hinge_row_sum (bottom0 bottom1 : Blob α) (hl : LabelsInRange bottom0 bottom1)
    (i : Nat) (hi : i < bottom0.num) :
    ∑ j in Finset.range bottom0.dim, max 0 (1 + marginAt bottom0 bottom1 i j)
      = max 0 (1 - predAt bottom0 i (labelAt bottom1 i).toNat)
        + ∑ j in (Finset.range bottom0.dim).erase (labelAt bottom1 i).toNat,
            max 0 (1 + predAt bottom0 i j) := by
  obtain ⟨hcast, hlt⟩ := label_toNat bottom0 bottom1 hl i hi
  rw [← Finset.add_sum_erase _ _ (Finset.mem_range.mpr hlt)]
  congr 1
  · rw [marginAt, if_pos hcast]
    congr 1
    ring
  · apply Finset.sum_congr rfl
    intro j hj
    have hne : j ≠ (labelAt bottom1 i).toNat := Finset.ne_of_mem_erase hj
    have hne2 : ¬ ((j : Int) = labelAt bottom1 i) := fun hc =>
      hne ((label_eq_iff bottom0 bottom1 hl i j hi).mpr hc)
    rw [marginAt, if_neg hne2]

/-- C17. `HingeLossLayer::Forward_cpu` on a batch with N ≥ 1 and labels in
`[0, dim)` returns
`(1/N) · Σ_i [max(0, 1 - prediction[i, label_i]) + Σ_{j ≠ label_i} max(0, 1 + prediction[i, j])]`;
every post-margin entry is ≥ 0, so the sum of absolute values the code takes
equals the plain sum of the entries, and the loss is non-negative. -/
theorem hinge_forward_closed_form (bottom0 bottom1 : Blob α) (h : 1 ≤ bottom0.num)
    (hwf : bottom0.WF) (hl : LabelsInRange bottom0 bottom1) :
    ∃ loss d, HingeLossLayer.Forward_cpu bottom0 bottom1
        = Except.ok (loss, { bottom0 with diff := d }, bottom1) ∧
      loss = 1 / (bottom0.num : α) * ∑ i in Finset.range bottom0.num,
          (max 0 (1 - predAt bottom0 i (labelAt bottom1 i).toNat)
            + ∑ j in (Finset.range bottom0.dim).erase (labelAt bottom1 i).toNat,
                max 0 (1 + predAt bottom0 i j)) ∧
      (∀ k, k < bottom0.count → 0 ≤ d.getD k 0) ∧
      ∑ k in Finset.range bottom0.count, |d.getD k 0|
        = ∑ k in Finset.range bottom0.count, d.getD k 0 ∧
      0 ≤ loss := by
  obtain ⟨d, hf, hlen, hval⟩ := hinge_forward_eq bottom0 bottom1 h hwf hl
  have hcount := Blob.count_eq bottom0 h
  have hN : (0 : α) < (bottom0.num : α) := by exact_mod_cast h
  have hentry : ∀ i j, i < bottom0.num → j < bottom0.dim →
      d.getD (i * bottom0.dim + j) 0 = max 0 (1 + marginAt bottom0 bottom1 i j) :=
    fun i j hi hj => getD_of_getElem? d _ _ (hval i j hi hj)
  have hnonneg : ∀ k, k < bottom0.count → 0 ≤ d.getD k 0 := by
    intro k hk
    rw [hcount] at hk
    have hd : 0 < bottom0.dim := by
      rcases Nat.eq_zero_or_pos bottom0.dim with h0 | h0
      · rw [h0] at hk; omega
      · exact h0
    have hi : k / bottom0.dim < bottom0.num := by
      apply Nat.div_lt_of_lt_mul
      rwa [Nat.mul_comm]
    have hk3 : k = k / bottom0.dim * bottom0.dim + k % bottom0.dim := by
      rw [Nat.mul_comm]; exact (Nat.div_add_mod k bottom0.dim).symm
    rw [hk3, hentry _ _ hi (Nat.mod_lt _ hd)]
    exact le_max_left _ _
  have habs : ∑ k in Finset.range bottom0.count, |d.getD k 0|
      = ∑ k in Finset.range bottom0.count, d.getD k 0 :=
    Finset.sum_congr rfl (fun k hk => abs_of_nonneg (hnonneg k (Finset.mem_range.mp hk)))
  refine ⟨_, d, hf, ?_, hnonneg, habs, ?_⟩
  · rw [habs, hcount, sum_range_flat, div_eq_mul_one_div, mul_comm]
    congr 1
    apply Finset.sum_congr rfl
    intro i hi
    have hi2 : i < bottom0.num := Finset.mem_range.mp hi
    rw [← hinge_row_sum bottom0 bottom1 hl i hi2]
    apply Finset.sum_congr rfl
    intro j hj
    exact hentry i j hi2 (Finset.mem_range.mp hj)
  · exact div_nonneg (Finset.sum_nonneg (fun k _ => abs_nonneg _)) hN.le

theorem hinge_forward_closed_form_witness :
    (1 ≤ hingePred.num ∧ hingePred.WF ∧ LabelsInRange hingePred hingeLabel) ∧
    ∃ loss d, HingeLossLayer.Forward_cpu hingePred hingeLabel
        = Except.ok (loss, { hingePred with diff := d }, hingeLabel) ∧
      loss = 1 / (hingePred.num : ℚ) * ∑ i in Finset.range hingePred.num,
          (max 0 (1 - predAt hingePred i (labelAt hingeLabel i).toNat)
            + ∑ j in (Finset.range hingePred.dim).erase (labelAt hingeLabel i).toNat,
                max 0 (1 + predAt hingePred i j)) ∧
      (∀ k, k < hingePred.count → 0 ≤ d.getD k 0) ∧
      ∑ k in Finset.range hingePred.count, |d.getD k 0|
        = ∑ k in Finset.range hingePred.count, d.getD k 0 ∧
      0 ≤ loss :=
  ⟨⟨Nat.le_refl 1, hingePred_wf, hingeLabels_inRange⟩,
    hinge_forward_closed_form hingePred hingeLabel (Nat.le_refl 1) hingePred_wf
      hingeLabels_inRange⟩

/-- The gradient left by `Forward_cpu` followed by `Backward_cpu` of the Hinge
layer. -/
theorem hinge_forward_backward_eq (bottom0 bottom1 : Blob α) (h : 1 ≤ bottom0.num)
    (hwf : bottom0.WF) (hl : LabelsInRange bottom0 bottom1) :
    ∃ loss d g, HingeLossLayer.Forward_cpu bottom0 bottom1
        = Except.ok (loss, { bottom0 with diff := d }, bottom1) ∧
      HingeLossLayer.Backward_cpu { bottom0 with diff := d } bottom1
        = Except.ok ({ bottom0 with diff := g }, bottom1) ∧
      g.length = bottom0.count ∧
      ∀ i j, i < bottom0.num → j < bottom0.dim →
        g[i * bottom0.dim + j]? = some (1 / (bottom0.num : α) *
          (if (j : Int) = labelAt bottom1 i
            then caffe_sign (max 0 (1 + marginAt bottom0 bottom1 i j)) * -1
            else caffe_sign (max 0 (1 + marginAt bottom0 bottom1 i j)))) := by
  obtain ⟨d, hf, hlen, hval⟩ := hinge_forward_eq bottom0 bottom1 h hwf hl
  obtain ⟨g, hb, hglen, hgval⟩ := hinge_backward_eq { bottom0 with diff := d } bottom1 h
    ⟨hwf.1, hlen⟩ hl
  refine ⟨_, d, g, hf, hb, hglen, fun i j hi hj => ?_⟩
  have hgval2 : ∀ i j, i < bottom0.num → j < bottom0.dim →
      g[i * bottom0.dim + j]? = some (1 / (bottom0.num : α) *
        (if (j : Int) = labelAt bottom1 i
          then caffe_sign (d.getD (i * bottom0.dim + j) 0) * -1
          else caffe_sign (d.getD (i * bottom0.dim + j) 0))) := hgval
  have := hgval2 i j hi hj
  rw [getD_of_getElem? d _ _ (hval i j hi hj)] at this
  exact this

theorem caffe_sign_zero : caffe_sign (0 : α) = 0 := by
  simp [caffe_sign]

/-- C18. `HingeLossLayer`, margin-boundary policy: on a batch with N ≥ 1 and
labels in `[0, dim)`, an element `[i, j]` exactly at the margin boundary
(`1 + prediction[i, j] = 0` for `j ≠ label_i`, `1 - prediction[i, j] = 0` for
`j = label_i`) gets gradient exactly 0 from `Forward_cpu` followed by
`Backward_cpu`. -/
theorem hinge_boundary_gradient (bottom0 bottom1 : Blob α) (h : 1 ≤ bottom0.num)
    (hwf : bottom0.WF) (hl : LabelsInRange bottom0 bottom1) :
    ∃ loss d g, HingeLossLayer.Forward_cpu bottom0 bottom1
        = Except.ok (loss, { bottom0 with diff := d }, bottom1) ∧
      HingeLossLayer.Backward_cpu { bottom0 with diff := d } bottom1
        = Except.ok ({ bottom0 with diff := g }, bottom1) ∧
      ∀ i j, i < bottom0.num → j < bottom0.dim →
        (if (j : Int) = labelAt bottom1 i then 1 - predAt bottom0 i j = 0
          else 1 + predAt bottom0 i j = 0) →
        g[i * bottom0.dim + j]? = some 0 := by
  obtain ⟨loss, d, g, hf, hb, -, hval⟩ := hinge_forward_backward_eq bottom0 bottom1 h hwf hl
  refine ⟨loss, d, g, hf, hb, fun i j hi hj hbd => ?_⟩
  have hm : 1 + marginAt bottom0 bottom1 i j = 0 := by
    rw [marginAt]
    by_cases hc : (j : Int) = labelAt bottom1 i
    · rw [if_pos hc] at hbd ⊢
      linarith
    · rw [if_neg hc] at hbd ⊢
      exact hbd
  rw [hval i j hi hj, hm, max_self, caffe_sign_zero]
  congr 1
  by_cases hc : (j : Int) = labelAt bottom1 i
  · rw [if_pos hc]; ring
  · rw [if_neg hc]; ring

theorem hingeBoundary_dim : hingeBoundary.dim = 2 := by
  simp [Blob.dim, Blob.count, hingeBoundary]

theorem hingeBoundary_inRange : LabelsInRange hingeBoundary hingeLabel := by
  intro i hi
  have hi2 : i < 1 := hi
  rw [hingeBoundary_dim]
  interval_cases i
  simp [hingeLabel, labelAt, static_cast_int]

theorem hinge_boundary_gradient_witness :
    (1 ≤ hingeBoundary.num ∧ hingeBoundary.WF ∧ LabelsInRange hingeBoundary hingeLabel ∧
      (if ((0 : Nat) : Int) = labelAt hingeLabel 0 then 1 - predAt hingeBoundary 0 0 = 0
        else 1 + predAt hingeBoundary 0 0 = 0)) ∧
    ∃ loss d g, HingeLossLayer.Forward_cpu hingeBoundary hingeLabel
        = Except.ok (loss, { hingeBoundary with diff := d }, hingeLabel) ∧
      HingeLossLayer.Backward_cpu { hingeBoundary with diff := d } hingeLabel
        = Except.ok ({ hingeBoundary with diff := g }, hingeLabel) ∧
      ∀ i j, i < hingeBoundary.num → j < hingeBoundary.dim →
        (if (j : Int) = labelAt hingeLabel i then 1 - predAt hingeBoundary i j = 0
          else 1 + predAt hingeBoundary i j = 0) →
        g[i * hingeBoundary.dim + j]? = some 0 :=
  ⟨⟨Nat.le_refl 1, ⟨rfl, rfl⟩, hingeBoundary_inRange, by
      rw [hingeLabel_zero, if_pos (by norm_num), predAt, hingeBoundary_dim]
      simp only [hingeBoundary]
      norm_num⟩,
    hinge_boundary_gradient hingeBoundary hingeLabel (Nat.le_refl 1) ⟨rfl, rfl⟩
      hingeBoundary_inRange⟩

end HingeClosedForm


/-! ## EuclideanLossLayer: the finite difference -/

section FiniteDifference

variable [LinearOrderedField α] [FloorRing α]

theorem getD_set_eq (l : List α) (k : Nat) (v : α) (hk : k < l.length) :
    (l.set k v).getD k 0 = v := by
  rw [List.getD_eq_getElem?_getD, List.getElem?_set, if_pos rfl, if_pos hk]
  rfl

theorem getD_set_ne (l : List α) (k j : Nat) (v : α) (hne : k ≠ j) :
    (l.set k v).getD j 0 = l.getD j 0 := by
  rw [List.getD_eq_getElem?_getD, List.getElem?_set, if_neg hne, ← List.getD_eq_getElem?_getD]

/-- C19. `EuclideanLossLayer`, exact finite difference: for same-shaped
prediction `p` and target `t` with N ≥ 1, an element index `k` and a step `h`,
`Forward(p + h·e_k, t) - Forward(p, t) = h · g_k + h² / (2·N)`, where `g` is
the gradient that `Backward_cpu` writes after `Forward_cpu` on `(p, t)`. -/
theorem euclidean_finite_difference (self : EuclideanLossLayer α) (bottom0 bottom1 : Blob α)
    (hnum : 1 ≤ bottom0.num) (hwf : bottom0.WF) (hb1 : bottom1.data.length = bottom0.count)
    (hd : self.difference_.data.length = bottom0.count) (k : Nat) (hk : k < bottom0.count)
    (h : α) :
    ∃ loss layer g loss2 layer2, self.Forward_cpu bottom0 bottom1
          = Except.ok (loss, layer, bottom0, bottom1) ∧
      layer.Backward_cpu bottom0 bottom1
          = Except.ok (layer, { bottom0 with diff := g }, bottom1) ∧
      self.Forward_cpu (perturb bottom0 k h) bottom1
          = Except.ok (loss2, layer2, perturb bottom0 k h, bottom1) ∧
      loss2 - loss = h * g.getD k 0 + h ^ 2 / (2 * (bottom0.num : α)) := by
  have hN : (0 : α) < (bottom0.num : α) := by exact_mod_cast hnum
  obtain ⟨d, hf, hlen, hval⟩ := euclidean_forward_eq self bottom0 bottom1 hwf hb1 hd
  obtain ⟨g, hb, hglen, hgval⟩ := euclidean_backward_eq
    { difference_ := { self.difference_ with data := d } } bottom0 bottom1 hlen hwf.2
  have hwf2 : (perturb bottom0 k h).WF :=
    ⟨by show (bottom0.data.set k _).length = bottom0.count
        rw [List.length_set]; exact hwf.1, hwf.2⟩
  have r2 : ∃ d2, self.Forward_cpu (perturb bottom0 k h) bottom1
      = Except.ok ((∑ j in Finset.range bottom0.count,
            ((bottom0.data.set k (bottom0.data.getD k 0 + h)).getD j 0
              - bottom1.data.getD j 0) ^ 2) / (bottom0.num : α) / 2,
          { difference_ := { self.difference_ with data := d2 } },
          perturb bottom0 k h, bottom1) ∧ True := by
    obtain ⟨d2, hf2, -, -⟩ := euclidean_forward_eq self (perturb bottom0 k h) bottom1 hwf2 hb1 hd
    exact ⟨d2, hf2, trivial⟩
  obtain ⟨d2, hf2, -⟩ := r2
  refine ⟨_, _, g, _, _, hf, hb, hf2, ?_⟩
  have hkmem : k ∈ Finset.range bottom0.count := Finset.mem_range.mpr hk
  have hgk : g.getD k 0 = (bottom0.data.getD k 0 - bottom1.data.getD k 0) / (bottom0.num : α) := by
    rw [getD_of_getElem? g k _ (hgval k hk)]
    show d.getD k 0 / _ = _
    rw [getD_of_getElem? d k _ (hval k hk)]
  rw [hgk, ← Finset.add_sum_erase _ _ hkmem, ← Finset.add_sum_erase _ _ hkmem,
    getD_set_eq _ _ _ (by rw [hwf.1]; exact hk)]
  have hrest : ∑ j in (Finset.range bottom0.count).erase k,
        ((bottom0.data.set k (bottom0.data.getD k 0 + h)).getD j 0
          - bottom1.data.getD j 0) ^ 2
      = ∑ j in (Finset.range bottom0.count).erase k,
          (bottom0.data.getD j 0 - bottom1.data.getD j 0) ^ 2 := by
    apply Finset.sum_congr rfl
    intro j hj
    rw [getD_set_ne _ _ _ _ (Ne.symm (Finset.ne_of_mem_erase hj))]
  rw [hrest]
  field_simp
  ring

theorem euclidean_finite_difference_witness :
    (1 ≤ (exPred ℚ [5, 5, 5, 5, 5, 5]).num ∧ (exPred ℚ [5, 5, 5, 5, 5, 5]).WF ∧
      exTarget.data.length = (exPred ℚ [5, 5, 5, 5, 5, 5]).count ∧
      exEuclidean.difference_.data.length = (exPred ℚ [5, 5, 5, 5, 5, 5]).count ∧
      4 < (exPred ℚ [5, 5, 5, 5, 5, 5]).count) ∧
    ∃ loss layer g loss2 layer2, exEuclidean.Forward_cpu (exPred ℚ [5, 5, 5, 5, 5, 5]) exTarget
          = Except.ok (loss, layer, exPred ℚ [5, 5, 5, 5, 5, 5], exTarget) ∧
      layer.Backward_cpu (exPred ℚ [5, 5, 5, 5, 5, 5]) exTarget
          = Except.ok (layer, { exPred ℚ [5, 5, 5, 5, 5, 5] with diff := g }, exTarget) ∧
      exEuclidean.Forward_cpu (perturb (exPred ℚ [5, 5, 5, 5, 5, 5]) 4 (1 / 3)) exTarget
          = Except.ok (loss2, layer2, perturb (exPred ℚ [5, 5, 5, 5, 5, 5]) 4 (1 / 3),
              exTarget) ∧
      loss2 - loss = 1 / 3 * g.getD 4 0
        + (1 / 3) ^ 2 / (2 * ((exPred ℚ [5, 5, 5, 5, 5, 5]).num : ℚ)) :=
  have hk : 4 < (exPred ℚ [5, 5, 5, 5, 5, 5]).count := by
    show 4 < 2 * 3 * 1 * 1
    decide
  ⟨⟨exPred_num _, exPred_wf [5, 5, 5, 5, 5, 5] rfl, rfl, rfl, hk⟩,
    euclidean_finite_difference exEuclidean (exPred ℚ [5, 5, 5, 5, 5, 5]) exTarget
      (exPred_num _) (exPred_wf [5, 5, 5, 5, 5, 5] rfl) rfl rfl 4 hk (1 / 3)⟩

end FiniteDifference


/-! ## Index safety -/

section IndexSafety

variable [LinearOrderedField α] [FloorRing α]

/-- With the label of the last sample equal to `dim`, the label read of
`MultinomialLogisticLossLayer::Forward_cpu` falls outside the prediction buffer. -/
theorem overLabel_multinomial_forward (log : α → α) (g : List α) :
    MultinomialLogisticLossLayer.Forward_cpu log (exPred α g) (overLabel α)
      = Except.error Fault.bounds := by
  simp [MultinomialLogisticLossLayer.Forward_cpu, forLoop, exPred, overLabel, intDiv, Blob.count,
    clampedProb, readAt, static_cast_int]

theorem overLabel_multinomial_backward (g : List α) (hg : g.length = 6) :
    MultinomialLogisticLossLayer.Backward_cpu (exPred α g) (overLabel α)
      = Except.error Fault.bounds := by
  simp [MultinomialLogisticLossLayer.Backward_cpu, forLoop, exPred, overLabel, intDiv,
    Blob.count, memsetZero, hg, clampedProb, readAt, writeAt, static_cast_int]

theorem overLabel_hinge_forward (g : List α) (hg : g.length = 6) :
    HingeLossLayer.Forward_cpu (exPred α g) (overLabel α) = Except.error Fault.bounds := by
  have hcopy := caffe_copy_ok 6 (exPred α g).data g rfl hg
  unfold HingeLossLayer.Forward_cpu
  show (intDiv (exPred α g).count (exPred α g).num >>= _) = _
  rw [intDiv_count _ (exPred_num g), bind_ok]
  show (caffe_copy 6 (exPred α g).data g >>= _) = _
  rw [hcopy, bind_ok, exPred_dim]
  simp [negateAtLabels, forLoop, exPred, overLabel, readAt, writeAt, static_cast_int]

theorem overLabel_accuracy_forward (log : α → α) (g : List α) (top0 : Blob α) :
    AccuracyLayer.Forward_cpu log (exPred α g) (overLabel α) top0
      = Except.error Fault.bounds := by
  have hF : (0 : α) < (2 ^ 24 - 1) * 2 ^ 104 := by norm_num
  have c1 : -(FLT_MAX : α) < 7 / 10 := by
    unfold FLT_MAX
    have h2 : (0 : α) < 7 / 10 := by norm_num
    linarith
  have c2 : ¬ ((7 : α) / 10 < 2 / 10) := by norm_num
  have c3 : ¬ ((7 : α) / 10 < 10⁻¹) := by norm_num
  have c4 : -(FLT_MAX : α) < 10⁻¹ := by
    unfold FLT_MAX
    have h2 : (0 : α) < 10⁻¹ := by norm_num
    linarith
  have c5 : ((10 : α)⁻¹ < 8 / 10) := by norm_num
  simp [AccuracyLayer.Forward_cpu, argmaxScan, forLoop, exPred, overLabel, intDiv, Blob.count,
    clampedProb, readAt, static_cast_int, c1, c2, c3, c4, c5]

theorem readAt_out (buf : List α) (k : Int) (hk : (buf.length : Int) ≤ k) :
    readAt buf k = Except.error Fault.bounds := by
  unfold readAt
  split
  · have hlen : buf.length ≤ k.toNat := by omega
    rw [List.getElem?_eq_none hlen]
  · rfl

/-- The prediction read of the last sample is outside the buffer as soon as
its label is `dim` or more. -/
theorem last_label_out (bottom0 bottom1 : Blob α) (h : 1 ≤ bottom0.num)
    (hdata : bottom0.data.length = bottom0.count)
    (hlab : bottom0.num - 1 < bottom1.data.length)
    (hbad : (bottom0.dim : Int) ≤ labelAt bottom1 (bottom0.num - 1)) :
    (bottom0.count : Int)
        ≤ ((bottom0.num - 1 : Nat) : Int) * (bottom0.dim : Int)
            + labelAt bottom1 (bottom0.num - 1) ∧
      clampedProb bottom0.data bottom1.data bottom0.dim (bottom0.num - 1)
        = Except.error Fault.bounds := by
  have hcount := Blob.count_eq bottom0 h
  have hidx : (bottom0.count : Int)
      ≤ ((bottom0.num - 1 : Nat) : Int) * (bottom0.dim : Int)
          + labelAt bottom1 (bottom0.num - 1) := by
    have h1 : bottom0.num = (bottom0.num - 1) + 1 := by omega
    have h2 : (bottom0.count : Int)
        = ((bottom0.num - 1 : Nat) : Int) * (bottom0.dim : Int) + (bottom0.dim : Int) := by
      rw [hcount]
      conv_lhs => rw [h1]
      push_cast
      ring
    rw [h2]
    omega
  refine ⟨hidx, ?_⟩
  unfold clampedProb
  rw [readAt_nat _ _ hlab, bind_ok]
  change (readAt bottom0.data (((bottom0.num - 1 : Nat) : Int) * (bottom0.dim : Int)
    + labelAt bottom1 (bottom0.num - 1)) >>= _) = _
  rw [readAt_out _ _ (by rw [hdata]; exact hidx)]
  rfl

/-- The four `SetUp` methods look only at the shapes: replacing the label
values leaves their result unchanged. -/
theorem setUp_ignores_label_values (blob_proto bottom0 bottom1 : Blob α) (d : List α)
    (top : List (Blob α)) :
    MultinomialLogisticLossLayer.SetUp [bottom0, { bottom1 with data := d }] top
        = MultinomialLogisticLossLayer.SetUp [bottom0, bottom1] top ∧
    InfogainLossLayer.SetUp blob_proto [bottom0, { bottom1 with data := d }] top
        = InfogainLossLayer.SetUp blob_proto [bottom0, bottom1] top ∧
    AccuracyLayer.SetUp [bottom0, { bottom1 with data := d }] top
        = AccuracyLayer.SetUp [bottom0, bottom1] top ∧
    HingeLossLayer.SetUp [bottom0, { bottom1 with data := d }] top
        = HingeLossLayer.SetUp [bottom0, bottom1] top :=
  ⟨rfl, rfl, rfl, rfl⟩

/-- C21. Index safety under the label precondition. On a batch with N ≥ 1
(so the element count is `N * dim`) whose labels truncate to integers in
`[0, dim)`: every index `i * dim + j` (`j < dim`) and `i * dim + label_i` is
non-negative and below the element count of the prediction tensor, and the
Forward and Backward passes of the Multinomial Logistic, Infogain and Hinge
layers and the Forward pass of the Accuracy layer run without any
out-of-range access. No `SetUp` looks at the label values, and the
precondition is needed: a label of `dim` or more in the last sample makes the
prediction read `bottom_data[i * dim + label]` fall past the end, as on the
round-trip predictions with labels `[0, 3]`. -/
theorem index_safety (log : α → α) (infogain : InfogainLossLayer α)
    (bottom0 bottom1 top0 : Blob α) (h : 1 ≤ bottom0.num) (hwf : bottom0.WF)
    (hl : LabelsInRange bottom0 bottom1)
    (hh : infogain.infogain_.height = bottom0.dim)
    (hlen : infogain.infogain_.data.length = bottom0.dim * bottom0.dim)
    (htop : 2 ≤ top0.data.length) :
    (bottom0.count = bottom0.num * bottom0.dim ∧
      ∀ i, i < bottom0.num →
        (∀ j, j < bottom0.dim → i * bottom0.dim + j < bottom0.count) ∧
        0 ≤ (i : Int) * (bottom0.dim : Int) + labelAt bottom1 i ∧
        (i : Int) * (bottom0.dim : Int) + labelAt bottom1 i < (bottom0.count : Int)) ∧
    ((∃ r, MultinomialLogisticLossLayer.Forward_cpu log bottom0 bottom1 = Except.ok r) ∧
      (∃ r, MultinomialLogisticLossLayer.Backward_cpu bottom0 bottom1 = Except.ok r) ∧
      (∃ r, infogain.Forward_cpu log bottom0 bottom1 = Except.ok r) ∧
      (∃ r, infogain.Backward_cpu bottom0 bottom1 = Except.ok r) ∧
      (∃ r, HingeLossLayer.Forward_cpu bottom0 bottom1 = Except.ok r) ∧
      (∃ r, HingeLossLayer.Backward_cpu bottom0 bottom1 = Except.ok r) ∧
      (∃ r, AccuracyLayer.Forward_cpu log bottom0 bottom1 top0 = Except.ok r)) ∧
    (∀ (blob_proto : Blob α) (d : List α) (top : List (Blob α)),
      MultinomialLogisticLossLayer.SetUp [bottom0, { bottom1 with data := d }] top
          = MultinomialLogisticLossLayer.SetUp [bottom0, bottom1] top ∧
      InfogainLossLayer.SetUp blob_proto [bottom0, { bottom1 with data := d }] top
          = InfogainLossLayer.SetUp blob_proto [bottom0, bottom1] top ∧
      AccuracyLayer.SetUp [bottom0, { bottom1 with data := d }] top
          = AccuracyLayer.SetUp [bottom0, bottom1] top ∧
      HingeLossLayer.SetUp [bottom0, { bottom1 with data := d }] top
          = HingeLossLayer.SetUp [bottom0, bottom1] top) ∧
    (∀ labels : Blob α, bottom0.num - 1 < labels.data.length →
      (bottom0.dim : Int) ≤ labelAt labels (bottom0.num - 1) →
      (bottom0.count : Int) ≤ ((bottom0.num - 1 : Nat) : Int) * (bottom0.dim : Int)
          + labelAt labels (bottom0.num - 1) ∧
        clampedProb bottom0.data labels.data bottom0.dim (bottom0.num - 1)
          = Except.error Fault.bounds) ∧
    (∀ g : List α, g.length = 6 →
      MultinomialLogisticLossLayer.Forward_cpu log (exPred α g) (overLabel α)
          = Except.error Fault.bounds ∧
      MultinomialLogisticLossLayer.Backward_cpu (exPred α g) (overLabel α)
          = Except.error Fault.bounds ∧
      HingeLossLayer.Forward_cpu (exPred α g) (overLabel α) = Except.error Fault.bounds ∧
      AccuracyLayer.Forward_cpu log (exPred α g) (overLabel α) top0
          = Except.error Fault.bounds) := by
  have hcount := Blob.count_eq bottom0 h
  refine ⟨⟨hcount, fun i hi => ⟨fun j hj => ?_, ?_, ?_⟩⟩, ⟨?_, ?_, ?_, ?_, ?_, ?_, ?_⟩,
    fun blob_proto d top => setUp_ignores_label_values blob_proto bottom0 bottom1 d top,
    fun labels hlab hbad => last_label_out bottom0 labels h hwf.1 hlab hbad,
    fun g hg => ⟨overLabel_multinomial_forward log g, overLabel_multinomial_backward g hg,
      overLabel_hinge_forward g hg, overLabel_accuracy_forward log g top0⟩⟩
  · rw [hcount]; exact idx_lt hi hj
  · have := (hl i hi).2.1
    have h2 : (0 : Int) ≤ (i : Int) * (bottom0.dim : Int) :=
      mul_nonneg (Int.ofNat_nonneg _) (Int.ofNat_nonneg _)
    omega
  · rw [label_idx bottom0 bottom1 hl i hi]
    have := idx_lt hi (label_toNat bottom0 bottom1 hl i hi).2
    rw [hcount]
    exact_mod_cast this
  · exact ⟨_, multinomial_forward_eq log bottom0 bottom1 h hwf hl⟩
  · obtain ⟨g, hg, -, -⟩ := multinomial_backward_eq bottom0 bottom1 h hwf hl
    exact ⟨_, hg⟩
  · exact ⟨_, infogain_forward_eq infogain log bottom0 bottom1 h hwf hl hh hlen⟩
  · obtain ⟨g, hg, -, -⟩ := infogain_backward_eq infogain bottom0 bottom1 h hwf hl hh hlen
    exact ⟨_, hg⟩
  · obtain ⟨g, hg, -, -⟩ := hinge_forward_eq bottom0 bottom1 h hwf hl
    exact ⟨_, hg⟩
  · obtain ⟨g, hg, -, -⟩ := hinge_backward_eq bottom0 bottom1 h hwf hl
    exact ⟨_, hg⟩
  · obtain ⟨td, hrun, -⟩ := accuracy_forward_eq log bottom0 bottom1 top0 h hwf hl htop
    exact ⟨_, hrun⟩

theorem index_safety_witness :
    (1 ≤ (exPred ℚ [0, 0, 0, 0, 0, 0]).num ∧ (exPred ℚ [0, 0, 0, 0, 0, 0]).WF ∧
      LabelsInRange (exPred ℚ [0, 0, 0, 0, 0, 0]) (exLabel ℚ) ∧
      exInfogain.infogain_.height = (exPred ℚ [0, 0, 0, 0, 0, 0]).dim ∧
      exInfogain.infogain_.data.length
        = (exPred ℚ [0, 0, 0, 0, 0, 0]).dim * (exPred ℚ [0, 0, 0, 0, 0, 0]).dim ∧
      2 ≤ exTop.data.length) ∧
    ((exPred ℚ [0, 0, 0, 0, 0, 0]).count
        = (exPred ℚ [0, 0, 0, 0, 0, 0]).num * (exPred ℚ [0, 0, 0, 0, 0, 0]).dim ∧
      ∀ i, i < (exPred ℚ [0, 0, 0, 0, 0, 0]).num →
        (∀ j, j < (exPred ℚ [0, 0, 0, 0, 0, 0]).dim →
          i * (exPred ℚ [0, 0, 0, 0, 0, 0]).dim + j < (exPred ℚ [0, 0, 0, 0, 0, 0]).count) ∧
        0 ≤ (i : Int) * ((exPred ℚ [0, 0, 0, 0, 0, 0]).dim : Int) + labelAt (exLabel ℚ) i ∧
        (i : Int) * ((exPred ℚ [0, 0, 0, 0, 0, 0]).dim : Int) + labelAt (exLabel ℚ) i
          < ((exPred ℚ [0, 0, 0, 0, 0, 0]).count : Int)) ∧
    ((∃ r, MultinomialLogisticLossLayer.Forward_cpu (fun x => x - 1)
        (exPred ℚ [0, 0, 0, 0, 0, 0]) (exLabel ℚ) = Except.ok r) ∧
      (∃ r, MultinomialLogisticLossLayer.Backward_cpu
        (exPred ℚ [0, 0, 0, 0, 0, 0]) (exLabel ℚ) = Except.ok r) ∧
      (∃ r, exInfogain.Forward_cpu (fun x => x - 1)
        (exPred ℚ [0, 0, 0, 0, 0, 0]) (exLabel ℚ) = Except.ok r) ∧
      (∃ r, exInfogain.Backward_cpu (exPred ℚ [0, 0, 0, 0, 0, 0]) (exLabel ℚ) = Except.ok r) ∧
      (∃ r, HingeLossLayer.Forward_cpu (exPred ℚ [0, 0, 0, 0, 0, 0]) (exLabel ℚ)
        = Except.ok r) ∧
      (∃ r, HingeLossLayer.Backward_cpu (exPred ℚ [0, 0, 0, 0, 0, 0]) (exLabel ℚ)
        = Except.ok r) ∧
      (∃ r, AccuracyLayer.Forward_cpu (fun x => x - 1) (exPred ℚ [0, 0, 0, 0, 0, 0])
        (exLabel ℚ) exTop = Except.ok r)) :=
  have hyp := index_safety (fun x => x - 1) exInfogain (exPred ℚ [0, 0, 0, 0, 0, 0])
    (exLabel ℚ) exTop (exPred_num _) (exPred_wf [0, 0, 0, 0, 0, 0] rfl) (exLabels_inRange _)
    (by rw [exPred_dim]; rfl) (by rw [exPred_dim]; rfl) (Nat.le_refl 2)
  ⟨⟨exPred_num _, exPred_wf [0, 0, 0, 0, 0, 0] rfl, exLabels_inRange _,
      by rw [exPred_dim]; rfl, by rw [exPred_dim]; rfl, Nat.le_refl 2⟩, hyp.1, hyp.2.1⟩

end IndexSafety


/-! ## The clamp constant -/

section ClampConstant

variable [LinearOrderedField α] [FloorRing α]

/-- The constant of the source lies strictly below the decimal 1e-20. -/
theorem kLOG_THRESHOLD_lt : (kLOG_THRESHOLD : α) < 1 / 10 ^ 20 := by
  unfold kLOG_THRESHOLD
  rw [div_lt_div_iff₀ (by positivity) (by positivity)]
  norm_num

theorem tinyPred_dim : (tinyPred α).dim = 1 := by
  simp [Blob.dim, Blob.count, tinyPred]

theorem tinyPred_wf : (tinyPred α).WF := ⟨rfl, rfl⟩

theorem tinyLabel_zero : labelAt (tinyLabel α) 0 = 0 := by
  simp [tinyLabel, labelAt, static_cast_int]

theorem tinyLabels_inRange : LabelsInRange (tinyPred α) (tinyLabel α) := by
  intro i hi
  have hi2 : i < 1 := hi
  rw [tinyPred_dim]
  interval_cases i
  simp [tinyLabel, labelAt, static_cast_int]

theorem tinyPred_at : predAt (tinyPred α) 0 0 = 1 / 2 ^ 70 := by
  rw [predAt, tinyPred_dim]
  rfl

theorem tiny_lt_threshold : (1 : α) / 2 ^ 70 < kLOG_THRESHOLD := by
  unfold kLOG_THRESHOLD
  rw [div_lt_div_iff₀ (by positivity) (by positivity)]
  norm_num

theorem tiny_lt_decimal : (1 : α) / 2 ^ 70 < 1 / 10 ^ 20 := by
  rw [div_lt_div_iff₀ (by positivity) (by positivity)]
  norm_num

/-- On the tiny batch the clamp is active: the clamped probability is the
constant of the source. -/
theorem tinyProb : probOf (tinyPred α) (tinyLabel α) 0 = kLOG_THRESHOLD := by
  rw [probOf, tinyLabel_zero]
  show max (predAt (tinyPred α) 0 0) kLOG_THRESHOLD = kLOG_THRESHOLD
  rw [tinyPred_at]
  exact max_eq_right (le_of_lt tiny_lt_threshold)

/-- Counterexample to C1 as stated: on the prediction `2^-70` with label 0 and
N = 1 the gradient is `-1 / kLOG_THRESHOLD = -2^90 / 12379400`, not
`-1 / max(2^-70, 1e-20) = -10^20`. -/
theorem multinomial_backward_gradient_counterexample :
    ∃ g, MultinomialLogisticLossLayer.Backward_cpu (tinyPred ℚ) (tinyLabel ℚ)
        = Except.ok ({ tinyPred ℚ with diff := g }, tinyLabel ℚ) ∧
      g[0 * (tinyPred ℚ).dim + 0]? = some (-(2 ^ 90 / 12379400)) ∧
      g[0 * (tinyPred ℚ).dim + 0]? ≠
        some (-1 / (max (predAt (tinyPred ℚ) 0 0) (1 / 10 ^ 20) * ((tinyPred ℚ).num : ℚ))) := by
  obtain ⟨g, hrun, -, hval⟩ := multinomial_backward_eq (tinyPred ℚ) (tinyLabel ℚ)
    (Nat.le_refl 1) tinyPred_wf tinyLabels_inRange
  have h0 := hval 0 0 (Nat.lt_succ_self 0) (by rw [tinyPred_dim]; exact Nat.lt_succ_self 0)
  rw [tinyLabel_zero, if_pos (by norm_num), tinyPred_at,
    max_eq_right (le_of_lt tiny_lt_threshold)] at h0
  have hnum : ((tinyPred ℚ).num : ℚ) = 1 := by
    show ((1 : Nat) : ℚ) = 1
    norm_num
  have hv : g[0 * (tinyPred ℚ).dim + 0]? = some (-(2 ^ 90 / 12379400)) := by
    rw [h0, hnum]
    congr 1
    unfold kLOG_THRESHOLD
    norm_num
  refine ⟨g, hrun, hv, ?_⟩
  rw [hv, tinyPred_at, max_eq_right (le_of_lt tiny_lt_decimal), hnum]
  intro hc
  have := Option.some.inj hc
  norm_num at this

/-- Counterexample to C5 as stated: with the weight matrix `[1]` on the same
batch the gradient is `-1 / kLOG_THRESHOLD`, not `-1 / 1e-20`. -/
theorem infogain_backward_gradient_counterexample :
    ∃ g, (tinyInfogain ℚ).Backward_cpu (tinyPred ℚ) (tinyLabel ℚ)
        = Except.ok ({ tinyPred ℚ with diff := g }, tinyLabel ℚ) ∧
      g[0 * (tinyPred ℚ).dim + 0]? = some (-(2 ^ 90 / 12379400)) ∧
      g[0 * (tinyPred ℚ).dim + 0]? ≠
        some (-weightAt (tinyInfogain ℚ).infogain_ (tinyPred ℚ).dim
            (labelAt (tinyLabel ℚ) 0).toNat 0
          / (max (predAt (tinyPred ℚ) 0 0) (1 / 10 ^ 20) * ((tinyPred ℚ).num : ℚ))) := by
  obtain ⟨g, hrun, -, hval⟩ := infogain_backward_eq (tinyInfogain ℚ) (tinyPred ℚ) (tinyLabel ℚ)
    (Nat.le_refl 1) tinyPred_wf tinyLabels_inRange (by rw [tinyPred_dim]; rfl)
    (by rw [tinyPred_dim]; rfl)
  have h0 := hval 0 0 (Nat.lt_succ_self 0) (by rw [tinyPred_dim]; exact Nat.lt_succ_self 0)
  have hw : weightAt (tinyInfogain ℚ).infogain_ (tinyPred ℚ).dim
      (labelAt (tinyLabel ℚ) 0).toNat 0 = 1 := by
    rw [tinyLabel_zero, tinyPred_dim]
    rfl
  have hnum : ((tinyPred ℚ).num : ℚ) = 1 := by
    show ((1 : Nat) : ℚ) = 1
    norm_num
  rw [hw, tinyPred_at, max_eq_right (le_of_lt tiny_lt_threshold)] at h0
  have hv : g[0 * (tinyPred ℚ).dim + 0]? = some (-(2 ^ 90 / 12379400)) := by
    rw [h0, hnum]
    congr 1
    unfold kLOG_THRESHOLD
    norm_num
  refine ⟨g, hrun, hv, ?_⟩
  rw [hv, hw, tinyPred_at, max_eq_right (le_of_lt tiny_lt_decimal), hnum]
  intro hc
  have := Option.some.inj hc
  norm_num at this

end ClampConstant

/-- The loss of `MultinomialLogisticLossLayer::Forward_cpu` on the tiny batch. -/
theorem tiny_forward : MultinomialLogisticLossLayer.Forward_cpu Real.log (tinyPred ℝ)
    (tinyLabel ℝ) = Except.ok (-Real.log kLOG_THRESHOLD, tinyPred ℝ, tinyLabel ℝ) := by
  rw [multinomial_forward_eq Real.log (tinyPred ℝ) (tinyLabel ℝ) (Nat.le_refl 1) tinyPred_wf
    tinyLabels_inRange]
  have hn : (tinyPred ℝ).num = 1 := rfl
  rw [hn, Finset.sum_range_one, tinyProb]
  congr 2
  norm_num

theorem log_threshold_lt : Real.log kLOG_THRESHOLD < Real.log (1 / 10 ^ 20) :=
  Real.log_lt_log kLOG_THRESHOLD_pos kLOG_THRESHOLD_lt

/-- Counterexample to C2 as stated: on the prediction `2^-70` with label 0 the
loss is `-log(kLOG_THRESHOLD)`, which is not `-log(max(2^-70, 1e-20))`. -/
theorem multinomial_forward_loss_counterexample :
    ∃ loss, MultinomialLogisticLossLayer.Forward_cpu Real.log (tinyPred ℝ) (tinyLabel ℝ)
        = Except.ok (loss, tinyPred ℝ, tinyLabel ℝ) ∧
      loss ≠ (∑ i in Finset.range (tinyPred ℝ).num,
          -Real.log (max (predAt (tinyPred ℝ) i (labelAt (tinyLabel ℝ) i).toNat)
            (1 / 10 ^ 20))) / ((tinyPred ℝ).num : ℝ) := by
  refine ⟨_, tiny_forward, ?_⟩
  have hn : (tinyPred ℝ).num = 1 := rfl
  rw [hn, Finset.sum_range_one, tinyLabel_zero]
  show -Real.log kLOG_THRESHOLD ≠
    -Real.log (max (predAt (tinyPred ℝ) 0 0) (1 / 10 ^ 20)) / ((1 : Nat) : ℝ)
  rw [tinyPred_at, max_eq_right (le_of_lt tiny_lt_decimal)]
  have := log_threshold_lt
  intro hc
  simp only [Nat.cast_one, div_one] at hc
  linarith

/-- Counterexample to C3 as stated: the prediction `2^-70` lies in `(0, 1]`,
the value handed to `log` is `kLOG_THRESHOLD < 1e-20`, and the loss exceeds
`-log(1e-20)`. -/
theorem multinomial_forward_bounds_counterexample :
    (∀ x ∈ (tinyPred ℝ).data, 0 < x ∧ x ≤ 1) ∧
    ∃ p loss, clampedProb (tinyPred ℝ).data (tinyLabel ℝ).data (tinyPred ℝ).dim 0
        = Except.ok p ∧ p < 1 / 10 ^ 20 ∧
      MultinomialLogisticLossLayer.Forward_cpu Real.log (tinyPred ℝ) (tinyLabel ℝ)
        = Except.ok (loss, tinyPred ℝ, tinyLabel ℝ) ∧
      -Real.log (1 / 10 ^ 20) < loss := by
  refine ⟨?_, kLOG_THRESHOLD, _, ?_, kLOG_THRESHOLD_lt, tiny_forward, ?_⟩
  · intro x hx
    simp only [tinyPred, List.mem_singleton] at hx
    subst hx
    constructor
    · positivity
    · rw [div_le_one (by positivity)]
      norm_num
  · rw [clampedProb_ok (tinyPred ℝ) (tinyLabel ℝ) (Nat.le_refl 1) tinyPred_wf
      tinyLabels_inRange 0 (Nat.lt_succ_self 0)]
    congr 1
    exact tinyProb
  · have := log_threshold_lt
    linarith

end caffe
